import Mathlib

/-!
# Response Capture Session (`src/pages/TakeInterview.jsx`)

A shallow embedding of the `TakeInterview` component: its React state cells and refs
become fields of `State`, every handler becomes a function on `State`, and the results of
the awaited browser / network calls are supplied as arguments of the handler that awaits
them.  The effects a handler has on the outside world (requests sent through `lib/api.js`,
microphone streams handed out by `getUserMedia`, speech recognizers, detached
transcription jobs) are recorded in the last fields of `State`.

Conventions of the embedding
* A handler runs to completion: the result of each `await` is an argument, and the state
  updates made after the `await` are applied in the same step.  The one detached
  computation, the transcription started by `mr.onstop`, is a separate event
  (`whisperResolved`).
* `startRecording` is also given in its two parts, `startRecordingCall` up to the `await` of
  `getUserMedia` and `startRecordingResume` after it, so that a second call made while the
  first one waits can be followed; `startRecording` is the first part followed at once by the
  second (`startRecording_eq_call_resume`).
* Once `getUserMedia` has given a stream, the constructors and `start` calls that follow in
  `startRecording` are taken not to throw.
* `MediaRecorder` dispatches `start`, `pause`, `resume` and `stop` events for the
  corresponding method calls; the handler of the event is run right after the call.
* Identifiers (`id` of interview, applicant, question) are natural numbers.

The file also embeds the pure helpers the session relies on: the key and value conversions
of `src/lib/api.js` for the mock server, `transcribe` of `src/lib/asr.js`, `normalize` of
`src/lib/llm.js` and `canonDifficulty` of `src/pages/AIQuestionWizard.jsx`, over a small
type of JSON values, in which a number is given by the string JavaScript prints for it.
-/

namespace OpenHire

/-! ## JavaScript strings -/

/-- Code points removed by `String.prototype.trim` (ECMAScript WhiteSpace and
LineTerminator). -/
def isJsWhitespace (c : Char) : Bool :=
  let n := c.toNat
  n == 9 || n == 10 || n == 11 || n == 12 || n == 13 || n == 32 || n == 160 ||
  n == 5760 || (8192 ≤ n && n ≤ 8202) || n == 8232 || n == 8233 || n == 8239 ||
  n == 8287 || n == 12288 || n == 65279

/-- The characters of `s.trim()`. -/
def jsTrimChars (cs : List Char) : List Char :=
  ((cs.dropWhile isJsWhitespace).reverse.dropWhile isJsWhitespace).reverse

/-- JavaScript `s.trim()`. -/
def jsTrim (s : String) : String :=
  String.mk (jsTrimChars s.data)

/-- JavaScript truthiness of a string: only the empty string is falsy. -/
def truthyStr (s : String) : Bool :=
  s.data.length != 0

/-- JavaScript truthiness of a value that is `null` or a string. -/
def truthyOptStr : Option String → Bool
  | none => false
  | some m => truthyStr m

/-! ## Requests sent through `lib/api.js` -/

/-- HTTP methods used by the resource clients. -/
inductive Method where
  | GET | POST | PATCH | DELETE
  deriving DecidableEq, Repr

/-- A primitive field value of a request body. -/
inductive Prim where
  | num (n : Nat)
  | str (s : String)
  deriving DecidableEq, Repr

/-- A call of `api(path, { method, body, params })`. -/
structure Request where
  path : String
  method : Method
  body : List (String × Prim)
  params : List (String × String)
  deriving DecidableEq, Repr

/-- Client call `ApplicantAnswer.create({ interview_id, question_id, applicant_id, answer })`. -/
def ApplicantAnswer.create (interview_id question_id applicant_id : Nat) (answer : String) :
    Request :=
  { path := "applicant_answer"
    method := Method.POST
    body := [("interview_id", Prim.num interview_id), ("question_id", Prim.num question_id),
             ("applicant_id", Prim.num applicant_id), ("answer", Prim.str answer)]
    params := [] }

/-- Client call `Applicant.updateById(id, data)`. -/
def Applicant.updateById (id : Nat) (data : List (String × Prim)) : Request :=
  { path := "applicant"
    method := Method.PATCH
    body := data
    params := [("id", "eq." ++ toString id)] }

/-! ## Component state -/

/-- A question row as returned by `Question.listForInterview`. -/
structure Question where
  id : Nat
  question : String
  difficulty : String
  deriving DecidableEq, Repr

/-- The interview row (only `id` is read by the handlers). -/
structure Interview where
  id : Nat
  deriving DecidableEq, Repr

/-- The applicant row (only `id` is read by the handlers). -/
structure Applicant where
  id : Nat
  deriving DecidableEq, Repr

/-- Values of `MediaRecorder.state`. -/
inductive RecorderState where
  | inactive | recording | paused
  deriving DecidableEq, Repr

/-- The `MediaRecorder` object held in `mediaRecorderRef`: the stream it was built on and
its `state`. -/
structure MediaRecorder where
  stream : Nat
  state : RecorderState
  deriving DecidableEq, Repr

/-- State of the `TakeInterview` component together with the part of the browser it acts on.
`loading` … `recRef` are the `useState` cells and refs of the component, `speechRec` tells
whether `window.SpeechRecognition` exists; the remaining fields record the outside world:
`tracksLive[k]` is true while the tracks of the `k`-th stream handed out by `getUserMedia`
have not been stopped, `recognizers[k]` is true while the `k`-th recognizer is running,
`pendingTranscriptions` counts `whisperTranscribe` calls that have not settled,
`deviceRequests` counts `getUserMedia` calls and `sent` lists the requests issued. -/
structure State where
  loading : Bool
  err : Option String
  interview : Option Interview
  applicant : Option Applicant
  questions : List Question
  step : Int
  answerText : String
  saving : Bool
  mediaStreamRef : Option Nat
  mediaRecorderRef : Option MediaRecorder
  recording : Bool
  canStart : Bool
  canPause : Bool
  paused : Bool
  speechRec : Bool
  recRef : Option Nat
  tracksLive : List Bool
  recognizers : List Bool
  pendingTranscriptions : Nat
  deviceRequests : Nat
  sent : List Request
  deriving DecidableEq, Repr

/-- The state right after the component is mounted (the initial `useState` / `useRef`
values, the effect has set `loading`). -/
def mount (speechRec : Bool) : State :=
  { loading := true, err := none, interview := none, applicant := none, questions := [],
    step := -1, answerText := "", saving := false, mediaStreamRef := none,
    mediaRecorderRef := none, recording := false, canStart := true, canPause := false,
    paused := false, speechRec := speechRec, recRef := none, tracksLive := [],
    recognizers := [], pendingTranscriptions := 0, deviceRequests := 0, sent := [] }

/-- Function `questionAt(idx)`, that is `questions[idx]` (`undefined` outside the array). -/
def questionAt (s : State) (idx : Int) : Option Question :=
  if idx < 0 then none else s.questions[idx.toNat]?

/-! ## The effect that loads the session -/

/-- What `Promise.all([Interview.getById, Applicant.getById, Question.listForInterview])`
settles to: a rejection with a message, or the three results (`undefined` / `null` are
`none`). -/
inductive LoadResult where
  | rejected (message : String)
  | resolved (i : Option Interview) (a : Option Applicant) (qs : Option (List Question))
  deriving DecidableEq, Repr

/-- Body of the `useEffect` (lines 36-52). -/
def load (s : State) (r : LoadResult) : State :=
  let s := { s with loading := true }
  match r with
  | LoadResult.rejected m => { s with err := some m, loading := false }
  | LoadResult.resolved i a qs =>
    match i, a with
    | some iv, some ap =>
      { s with interview := some iv, applicant := some ap, questions := qs.getD [],
               loading := false }
    | _, _ => { s with err := some "Interview or applicant not found", loading := false }

/-! ## Audio capture -/

/-- Handler `mr.onstart`. -/
def mr_onstart (s : State) : State :=
  { s with recording := true, canPause := true }

/-- Handler `mr.onpause`. -/
def mr_onpause (s : State) : State :=
  { s with paused := true }

/-- Handler `mr.onresume`. -/
def mr_onresume (s : State) : State :=
  { s with paused := false }

/-- Handler `mr.onstop` up to its `await`: the three flags are reset and the transcription
of the recorded blob is started. -/
def mr_onstop (s : State) : State :=
  { s with recording := false, paused := false, canPause := false,
           pendingTranscriptions := s.pendingTranscriptions + 1 }

/-- Settlement of `navigator.mediaDevices.getUserMedia({ audio: true })`. -/
inductive MediaResult where
  | granted
  | denied
  deriving DecidableEq, Repr

/-- Message set by the `catch` of `startRecording`. -/
def micMessage : String :=
  "Microphone permission denied or unavailable. You can type your answer instead."

/-- Function `startRecording()` (lines 56-113). -/
def startRecording (s : State) (media : MediaResult) : State :=
  if !s.canStart then s
  else
    let s := { s with err := none, deviceRequests := s.deviceRequests + 1 }
    match media with
    | MediaResult.denied => { s with err := some micMessage }
    | MediaResult.granted =>
      let stream := s.tracksLive.length
      let s := { s with tracksLive := s.tracksLive ++ [true], mediaStreamRef := some stream,
                        mediaRecorderRef := some { stream := stream, state := RecorderState.inactive } }
      -- mr.start()
      let s := mr_onstart
        { s with mediaRecorderRef := some { stream := stream, state := RecorderState.recording } }
      let s := { s with canStart := false }
      if s.speechRec then
        { s with recognizers := s.recognizers ++ [true], recRef := some s.recognizers.length }
      else s

/-- Function `startRecording()`, lines 57-60: the part of a call that runs before the `await`
of `getUserMedia`.  The guard reads `canStart`, `setErr(null)` runs and the device is
requested; the flag tells whether the call is now waiting for the device. -/
def startRecordingCall (s : State) : State × Bool :=
  if !s.canStart then (s, false)
  else ({ s with err := none, deviceRequests := s.deviceRequests + 1 }, true)

/-- Function `startRecording()`, lines 60-112: the rest of a waiting call, run when its
`getUserMedia` promise settles, on the state the component has at that moment. -/
def startRecordingResume (s : State) (media : MediaResult) : State :=
  match media with
  | MediaResult.denied => { s with err := some micMessage }
  | MediaResult.granted =>
    let stream := s.tracksLive.length
    let s := { s with tracksLive := s.tracksLive ++ [true], mediaStreamRef := some stream,
                      mediaRecorderRef := some { stream := stream, state := RecorderState.inactive } }
    -- mr.start()
    let s := mr_onstart
      { s with mediaRecorderRef := some { stream := stream, state := RecorderState.recording } }
    let s := { s with canStart := false }
    if s.speechRec then
      { s with recognizers := s.recognizers ++ [true], recRef := some s.recognizers.length }
    else s

/-- Two calls of `startRecording()` of which the second is made while the first waits for
the device: both run up to their `await`, then the first promise settles to `m1` and the
second to `m2`. -/
def overlappingStarts (s : State) (m1 m2 : MediaResult) : State :=
  startRecordingResume
    (startRecordingResume (startRecordingCall (startRecordingCall s).1).1 m1) m2

/-- Function `pauseResume()` (lines 115-123). -/
def pauseResume (s : State) : State :=
  match s.mediaRecorderRef with
  | none => s
  | some mr =>
    match mr.state with
    | RecorderState.recording =>
      mr_onpause { s with mediaRecorderRef := some { mr with state := RecorderState.paused } }
    | RecorderState.paused =>
      mr_onresume { s with mediaRecorderRef := some { mr with state := RecorderState.recording } }
    | RecorderState.inactive => s

/-- First statement of `stopRecording` (line 127): a recognizer held in `recRef` is stopped
and the ref cleared. -/
def stopRecognizer (s : State) : State :=
  match s.recRef with
  | some r => { s with recognizers := s.recognizers.set r false, recRef := none }
  | none => s

/-- Second statement of `stopRecording` (lines 128-130): a recorder that is not inactive is
stopped, which runs `mr.onstop`. -/
def stopRecorder (s : State) : State :=
  match s.mediaRecorderRef with
  | some mr =>
    if mr.state ≠ RecorderState.inactive then
      mr_onstop { s with mediaRecorderRef := some { mr with state := RecorderState.inactive } }
    else s
  | none => s

/-- Third statement of `stopRecording` (lines 131-134): the tracks of a stream held in
`mediaStreamRef` are stopped and the ref cleared. -/
def releaseStream (s : State) : State :=
  match s.mediaStreamRef with
  | some st => { s with tracksLive := s.tracksLive.set st false, mediaStreamRef := none }
  | none => s

/-- Function `stopRecording()` (lines 125-136). -/
def stopRecording (s : State) : State :=
  releaseStream (stopRecorder (stopRecognizer s))

/-! ## Writers of the answer buffer -/

/-- Second half of `mr.onstop` (lines 79-86): `whisperTranscribe` has settled, with a
rejection or with a text. -/
def whisperResolved (s : State) (r : Except String String) : State :=
  let s := { s with pendingTranscriptions := s.pendingTranscriptions - 1 }
  match r with
  | Except.ok text =>
    if truthyStr text then
      { s with answerText :=
          if truthyStr s.answerText then s.answerText ++ " " ++ text else text }
    else s
  | Except.error _ => s

/-- One entry of `e.results`: the transcripts of its alternatives and its `isFinal` flag. -/
structure SpeechResult where
  alternatives : List String
  isFinal : Bool
  deriving DecidableEq, Repr

/-- Handler `rec.onresult` (lines 98-104). -/
def rec_onresult (s : State) (results : List SpeechResult) : State :=
  match results.getLast? with
  | none => s
  | some last =>
    match last.alternatives.head? with
    | none => s
    | some transcript =>
      let seg := jsTrim transcript
      if truthyStr seg then
        { s with answerText := (if truthyStr s.answerText then s.answerText ++ " " else "") ++ seg }
      else s

/-- The `onChange` of the textarea (line 233). -/
def onChange (s : State) (value : String) : State :=
  { s with answerText := value }

/-! ## Submission -/

/-- Message set when the buffer is empty on submit. -/
def answerRequiredMessage : String :=
  "Please record (or type) an answer before continuing."

/-- Message of the `TypeError` raised by reading `.id` of `null`; its wording depends on the
JavaScript engine. -/
def nullReadMessage : String :=
  "Cannot read properties of null"

/-- Function `saveAndNext()` (lines 138-175).  `created` is what awaiting `ApplicantAnswer.create`
gives (a rejection carries `e.message`), `updated` what awaiting `Applicant.updateById`
gives; the latter is only awaited on the last question. -/
def saveAndNext (s : State) (created updated : Except String Unit) : State :=
  let idx := s.step
  match questionAt s idx with
  | none => s
  | some q =>
    if !truthyStr (jsTrim s.answerText) then
      { s with err := some answerRequiredMessage }
    else
      -- try { setSaving(true); ... } catch (e) { setErr(e.message) } finally { setSaving(false) }
      let s := { s with saving := true }
      match s.interview, s.applicant with
      | some interview, some applicant =>
        let s := { s with sent := s.sent ++
          [ApplicantAnswer.create interview.id q.id applicant.id (jsTrim s.answerText)] }
        match created with
        | Except.error message => { s with err := some message, saving := false }
        | Except.ok _ =>
          let s := { s with answerText := "", canStart := true, paused := false,
                            canPause := false }
          if idx + 1 < s.questions.length then
            { s with step := idx + 1, saving := false }
          else
            let s := { s with sent := s.sent ++
              [Applicant.updateById applicant.id [("interview_status", Prim.str "Completed")]] }
            -- try { await ... } catch {}
            let s := match updated with
              | Except.ok _ => s
              | Except.error _ => s
            { s with step := s.questions.length, saving := false }
      | _, _ => { s with err := some nullReadMessage, saving := false }

/-! ## What is rendered, and the events the page can receive -/

/-- The branch of the render function that is taken (lines 178-247). -/
inductive View where
  | loading | error | notFound | welcome | thankYou | question
  deriving DecidableEq, Repr

/-- Branch selection of the render function. -/
def view (s : State) : View :=
  if s.loading then View.loading
  else if truthyOptStr s.err && s.step == -1 then View.error
  else if s.interview.isNone || s.applicant.isNone then View.notFound
  else if s.step == -1 then View.welcome
  else if s.step ≥ s.questions.length then View.thankYou
  else View.question

/-- Everything that can happen to the mounted component: the load settles, a control is
used, a recognizer delivers results, a transcription settles. -/
inductive Event where
  | loaded (r : LoadResult)
  | clickStart
  | clickStartRecording (media : MediaResult)
  | clickPauseResume
  | clickStop
  | change (value : String)
  | clickNext (created updated : Except String Unit)
  | speech (results : List SpeechResult)
  | whisper (r : Except String String)

/-- One event, applied if the page offers it: a control must be rendered and not disabled,
the load must be outstanding, a recognizer must be running, a transcription pending. -/
def dispatch (s : State) : Event → State
  | Event.loaded r => if s.loading then load s r else s
  | Event.clickStart =>
    if view s = View.welcome ∧ s.questions.length ≠ 0 then { s with step := 0 } else s
  | Event.clickStartRecording media =>
    if view s = View.question ∧ s.canStart then startRecording s media else s
  | Event.clickPauseResume =>
    if view s = View.question ∧ s.canPause then pauseResume s else s
  | Event.clickStop =>
    if view s = View.question ∧ (s.recording ∨ s.paused) then stopRecording s else s
  | Event.change value =>
    if view s = View.question then onChange s value else s
  | Event.clickNext created updated =>
    if view s = View.question ∧ ¬ s.saving then saveAndNext s created updated else s
  | Event.speech results =>
    if true ∈ s.recognizers then rec_onresult s results else s
  | Event.whisper r =>
    if s.pendingTranscriptions ≠ 0 then whisperResolved s r else s

/-- A run of the component: the events applied in order. -/
def run (s : State) (events : List Event) : State :=
  events.foldl dispatch s

/-- The session is in `Active(i)`: question `i` is on screen. -/
def Active (s : State) (i : Nat) : Prop :=
  view s = View.question ∧ s.step = (i : Int)

instance (s : State) (i : Nat) : Decidable (Active s i) := by
  unfold Active; infer_instance

/-- A loaded session on interview 7 for applicant 3 with the given questions, as the first
question is shown. -/
def sampleSession (qs : List Question) : State :=
  { mount true with loading := false, interview := some { id := 7 },
                    applicant := some { id := 3 }, questions := qs, step := 0 }

/-- First sample question. -/
def Q1 : Question := { id := 11, question := "Favourite colour?", difficulty := "Easy" }

/-- Second sample question. -/
def Q2 : Question := { id := 12, question := "Why?", difficulty := "Intermediate" }

/-- The settled load of the sample session: interview 7, applicant 3, questions `Q1`, `Q2`. -/
def sampleLoad : LoadResult :=
  LoadResult.resolved (some { id := 7 }) (some { id := 3 }) (some [Q1, Q2])

/-- Whether an event is a submit whose persistence call succeeded. -/
def Event.isSuccessfulSubmit : Event → Bool
  | Event.clickNext (Except.ok _) _ => true
  | _ => false

/-- The sample session on its first question with a buffer of whitespace only. -/
def blankSession : State :=
  { sampleSession [Q1] with answerText := " \n\t" }

/-- The sample session on its first question with the buffer `blue`. -/
def blueSession : State :=
  { sampleSession [Q1, Q2] with answerText := "blue" }

/-- The sample session on its first question with the buffer `blue` between two spaces and
a newline. -/
def paddedBlueSession : State :=
  { sampleSession [Q1, Q2] with answerText := "  blue \n" }

/-- The sample session after it was loaded and started: the first question is on screen and
nothing was recorded yet. -/
def startedSession : State :=
  run (mount true) [Event.loaded sampleLoad, Event.clickStart]

/-- The sample session on its last question with the buffer `green`. -/
def lastSession : State :=
  { sampleSession [Q1, Q2] with step := 1, answerText := " green " }

/-- Events of the sample session in which the first answer is typed and submitted while the
capture started for it is still recording. -/
def recordingSubmitRun : List Event :=
  [Event.loaded sampleLoad, Event.clickStart, Event.clickStartRecording MediaResult.granted,
   Event.change "typed", Event.clickNext (Except.ok ()) (Except.ok ())]

/-- Events of the sample session in which the first answer is typed and submitted while the
capture started for it is paused. -/
def pausedSubmitRun : List Event :=
  [Event.loaded sampleLoad, Event.clickStart, Event.clickStartRecording MediaResult.granted,
   Event.clickPauseResume, Event.change "typed", Event.clickNext (Except.ok ()) (Except.ok ())]

/-- The events of `recordingSubmitRun`, followed by the start of a capture for the second
question. -/
def leakRun : List Event :=
  recordingSubmitRun ++ [Event.clickStartRecording MediaResult.granted]

/-- The additive append in the words of the specification: the buffer `b` is kept when the
arriving text `t` is empty, `t` is taken when `b` is empty, and otherwise `t` is joined to
`b` with one space. -/
def appendSpec (b t : String) : String :=
  if t = "" then b else if b = "" then t else b ++ " " ++ t

/-- Agreement of the refs with the flags and with the browser: a recorder in `mediaRecorderRef`
that is not inactive goes with `recording`, its stream is the one in `mediaStreamRef` and the
tracks of that stream are live; when `recording` is false no stream and no recognizer is held
and the recorder, if any, is inactive; a recognizer in `recRef` is running. -/
def RefsConsistent (s : State) : Prop :=
  (∀ mr, s.mediaRecorderRef = some mr → mr.state ≠ RecorderState.inactive →
    s.recording = true ∧ s.mediaStreamRef = some mr.stream ∧
    s.tracksLive[mr.stream]? = some true) ∧
  (s.recording = false → s.mediaStreamRef = none ∧ s.recRef = none ∧
    ∀ mr, s.mediaRecorderRef = some mr → mr.state = RecorderState.inactive) ∧
  (∀ r, s.recRef = some r → s.recognizers[r]? = some true)

/-- Among `n` successive calls of `stopRecording` from `s`, the number of calls that reach
`getTracks().forEach(t => t.stop())`, that is, that find a stream in `mediaStreamRef` at
line 131. -/
def trackStopCalls (s : State) : Nat → Nat
  | 0 => 0
  | n + 1 =>
    (if (stopRecorder (stopRecognizer s)).mediaStreamRef.isSome then 1 else 0) +
      trackStopCalls (stopRecording s) n

/-- The cleanup functions returned by the effects of the component.  Its only effect (lines
36-52) calls an async function and returns nothing, so there is none. -/
def effectCleanups : List (State → State) :=
  []

/-- Teardown of the component: React runs the cleanup functions of its effects; the refs and
state cells are dropped, the browser side of `State` is what the cleanups leave. -/
def unmount (s : State) : State :=
  effectCleanups.foldl (fun acc cleanup => cleanup acc) s

/-- Events of the sample session up to a running capture on the first question. -/
def captureRun : List Event :=
  [Event.loaded sampleLoad, Event.clickStart, Event.clickStartRecording MediaResult.granted]

/-- Events of the sample session in which the capture of the first question is stopped and
the answer is typed and submitted before the transcription of the capture has settled. -/
def stoppedSubmitRun : List Event :=
  captureRun ++ [Event.clickStop, Event.change "typed",
    Event.clickNext (Except.ok ()) (Except.ok ())]

/-- The events of `stoppedSubmitRun`, after which the transcription of the first capture
settles with the text `blue`. -/
def lateBatchRun : List Event :=
  stoppedSubmitRun ++ [Event.whisper (Except.ok "blue")]

/-- The fields the capture works on are the same in `t` as in `s`. -/
def SameCapture (t s : State) : Prop :=
  t.mediaRecorderRef = s.mediaRecorderRef ∧ t.mediaStreamRef = s.mediaStreamRef ∧
  t.recRef = s.recRef ∧ t.recording = s.recording ∧ t.tracksLive = s.tracksLive ∧
  t.recognizers = s.recognizers

/-- Events of the sample session in which the first answer is submitted while its capture is
recording, and the recognizer started for it then delivers the text `green`. -/
def lateSpeechRun : List Event :=
  recordingSubmitRun ++
    [Event.speech [{ alternatives := ["green"], isFinal := true }]]

/-- A recognition event whose only result is interim, with transcript `hello`. -/
def interimHello : List SpeechResult :=
  [{ alternatives := ["hello"], isFinal := false }]

/-- The sample session on its first question after a successful start, with the buffer
`spoken words`. -/
def spokenSession : State :=
  { startRecording (sampleSession [Q1, Q2]) MediaResult.granted with
      answerText := "spoken words" }

/-- Whether a request is the status update of the last submit: a `PATCH` of `applicant`
whose body sets `interview_status` to `Completed`. -/
def isStatusUpdate (r : Request) : Bool :=
  r.path == "applicant" && r.method == Method.PATCH &&
    r.body == [("interview_status", Prim.str "Completed")]

/-- Number of status updates among the requests issued. -/
def statusUpdates (sent : List Request) : Nat :=
  (sent.filter isStatusUpdate).length

/-- The fields that carry the progress of the session are the same in `t` as in `s`. -/
def SameSession (t s : State) : Prop :=
  t.step = s.step ∧ t.questions = s.questions ∧ t.sent = s.sent ∧ t.loading = s.loading ∧
  t.interview = s.interview ∧ t.applicant = s.applicant

/-- What holds of the progress of the session in every reachable state: `step` lies between
-1 and the number of questions; off the welcome page the load has settled with an interview
and an applicant; and the status update has been requested once if `step` has reached the
number of questions, and not at all otherwise. -/
def SessionInv (s : State) : Prop :=
  -1 ≤ s.step ∧ s.step ≤ s.questions.length ∧
  (s.step ≠ -1 → s.loading = false ∧ s.interview ≠ none ∧ s.applicant ≠ none) ∧
  statusUpdates s.sent = (if s.step = s.questions.length then 1 else 0)

/-- Events of the sample session from mounting to the thank-you page: both questions are
answered by typing. -/
def completeRun : List Event :=
  [Event.loaded sampleLoad, Event.clickStart, Event.change "red",
   Event.clickNext (Except.ok ()) (Except.ok ()), Event.change "because",
   Event.clickNext (Except.ok ()) (Except.error "503 ")]

/-- A mounted session whose load has settled with an empty list of questions. -/
def emptySession : State :=
  dispatch (mount true)
    (Event.loaded (LoadResult.resolved (some { id := 7 }) (some { id := 3 }) (some [])))

/-! ## String operations used by `lib/api.js`, `lib/llm.js` and the wizard -/

/-- Whether the characters `l` begin with the characters `pat`. -/
def startsWithChars : List Char → List Char → Bool
  | [], _ => true
  | _ :: _, [] => false
  | p :: ps, c :: cs => p == c && startsWithChars ps cs

/-- Whether the characters `pat` occur in the characters `l`. -/
def includesChars (pat : List Char) : List Char → Bool
  | [] => startsWithChars pat []
  | c :: cs => startsWithChars pat (c :: cs) || includesChars pat cs

/-- The characters `l` with the first occurrence of `pat` replaced by `rep`. -/
def replaceFirstChars (pat rep : List Char) : List Char → List Char
  | [] => if startsWithChars pat [] then rep else []
  | c :: cs =>
    if startsWithChars pat (c :: cs) then rep ++ (c :: cs).drop pat.length
    else c :: replaceFirstChars pat rep cs

/-- JavaScript `s.startsWith(pat)`. -/
def jsStartsWith (s pat : String) : Bool :=
  startsWithChars pat.data s.data

/-- JavaScript `s.endsWith(pat)`. -/
def jsEndsWith (s pat : String) : Bool :=
  startsWithChars pat.data.reverse s.data.reverse

/-- JavaScript `s.includes(pat)`. -/
def jsIncludes (s pat : String) : Bool :=
  includesChars pat.data s.data

/-- JavaScript `s.replace(pat, rep)` for a string pattern and a replacement without `$`:
the first occurrence is replaced. -/
def jsReplaceFirst (s pat rep : String) : String :=
  String.mk (replaceFirstChars pat.data rep.data s.data)

/-- JavaScript `s.replace(/pat$/, rep)` for a literal `pat`: an occurrence at the very end
is replaced. -/
def jsReplaceAtEnd (s pat rep : String) : String :=
  if jsEndsWith s pat then String.mk (s.data.take (s.data.length - pat.data.length) ++ rep.data)
  else s

/-- JavaScript `s.slice(n)` for a natural number `n`. -/
def jsSlice (s : String) (n : Nat) : String :=
  String.mk (s.data.drop n)

/-- Lower case of one code point, as far as ASCII letters are concerned: the letters `A` to
`Z`, the Kelvin sign (lower case `k`) and the dotted capital I (lower case `i` followed by a
combining dot) are the only code points whose lower case contains an ASCII letter; every
other code point is kept, since the tests made on the result only look for ASCII letters. -/
def jsLowerChar (c : Char) : List Char :=
  if 65 ≤ c.toNat ∧ c.toNat ≤ 90 then [Char.ofNat (c.toNat + 32)]
  else if c.toNat = 8490 then ['k']
  else if c.toNat = 304 then ['i', Char.ofNat 775]
  else [c]

/-- JavaScript `s.toLowerCase()`, see `jsLowerChar`. -/
def jsToLowerCase (s : String) : String :=
  String.mk (s.data.flatMap jsLowerChar)

/-! ## JSON values -/

/-- A JSON value.  A number is given by the string JavaScript prints for it (`7`, `0.5`,
`1e+21`); an object is the list of its entries in the order of `Object.entries`. -/
inductive JVal where
  | null
  | bool (b : Bool)
  | num (image : String)
  | str (s : String)
  | arr (xs : List JVal)
  | obj (fs : List (String × JVal))

/-- The assignment `o[k] = v` when it defines or updates an own property: an existing key
keeps its place and takes the new value, a new key goes to the end. -/
def objSetOwn {α : Type} (o : List (String × α)) (k : String) (v : α) : List (String × α) :=
  match o with
  | [] => [(k, v)]
  | (k1, v1) :: rest => if k1 = k then (k1, v) :: rest else (k1, v1) :: objSetOwn rest k v

/-- The assignment `o[k] = v` on the entries of an object created by `{}`, as the three
conversions do it.  The key `__proto__` reaches the setter inherited from `Object.prototype`:
no entry is stored (the prototype is replaced when `v` is an object or `null`, which
`Object.entries` does not show).  Every other key defines or updates an own property. -/
def objSet {α : Type} (o : List (String × α)) (k : String) (v : α) : List (String × α) :=
  if k = "__proto__" then o else objSetOwn o k v

/-- Whether a value is neither an object nor an array. -/
def JVal.isPrimitive : JVal → Bool
  | JVal.arr _ => false
  | JVal.obj _ => false
  | _ => true

mutual
/-- JavaScript `String(v)`. -/
def jsString : JVal → String
  | JVal.null => "null"
  | JVal.bool true => "true"
  | JVal.bool false => "false"
  | JVal.num image => image
  | JVal.str s => s
  | JVal.arr xs => jsJoin xs
  | JVal.obj _ => "[object Object]"
/-- The string of an element inside `join`: `null` gives the empty string. -/
def jsJoinElement : JVal → String
  | JVal.null => ""
  | JVal.bool true => "true"
  | JVal.bool false => "false"
  | JVal.num image => image
  | JVal.str s => s
  | JVal.arr xs => jsJoin xs
  | JVal.obj _ => "[object Object]"
/-- JavaScript `xs.join(',')`. -/
def jsJoin : List JVal → String
  | [] => ""
  | x :: rest => jsJoinElement x ++ jsJoinRest rest
/-- The elements after the first in `join`, each after a comma. -/
def jsJoinRest : List JVal → String
  | [] => ""
  | x :: rest => "," ++ jsJoinElement x ++ jsJoinRest rest
end

/-! ## `lib/api.js`: the key conversions for the mock server -/

/-- Key conversion of `bodyForMock` and `normalizeParamsForMock` (lines 26-29, 41-42):
`if (k.endsWith('_id')) key = k.replace('_id', 'Id')`. -/
def toMockKey (k : String) : String :=
  if jsEndsWith k "_id" then jsReplaceFirst k "_id" "Id" else k

/-- Key conversion of `respFromMock` (lines 53-54):
`if (k.endsWith('Id')) key = k.replace(/Id$/, '_id')`. -/
def fromMockKey (k : String) : String :=
  if jsEndsWith k "Id" then jsReplaceAtEnd k "Id" "_id" else k

/-- The loop of `bodyForMock` (lines 39-44) over the entries, `acc` being `out`. -/
def bodyForMockEntries (acc : List (String × JVal)) :
    List (String × JVal) → List (String × JVal)
  | [] => acc
  | (k, v) :: rest =>
    if k = "username" then bodyForMockEntries acc rest
    else bodyForMockEntries (objSet acc (toMockKey k) v) rest

/-- The entries `Object.entries` gives for an array: its elements under their indices,
counted from `i`. -/
def indexEntries (i : Nat) : List JVal → List (String × JVal)
  | [] => []
  | x :: xs => (toString i, x) :: indexEntries (i + 1) xs

/-- Function `bodyForMock(body)` (lines 36-46): a body that is falsy or not an object is
returned as it is. -/
def bodyForMock : JVal → JVal
  | JVal.obj fs => JVal.obj (bodyForMockEntries [] fs)
  | JVal.arr xs => JVal.obj (bodyForMockEntries [] (indexEntries 0 xs))
  | v => v

mutual
/-- The loop of `convertObj` (lines 51-57) over the entries of an object, `acc` being `o`. -/
def convertObjEntries (acc : List (String × JVal)) :
    List (String × JVal) → List (String × JVal)
  | [] => acc
  | (k, v) :: rest => convertObjEntries (objSet acc (fromMockKey k) (convertValue v)) rest
/-- The loop of `convertObj` over an array, whose entries are its elements under their
indices, counted from `i`. -/
def convertObjIndexed (i : Nat) (acc : List (String × JVal)) :
    List JVal → List (String × JVal)
  | [] => acc
  | x :: xs =>
    convertObjIndexed (i + 1) (objSet acc (fromMockKey (toString i)) (convertValue x)) xs
/-- The value stored by `convertObj` (line 55): an object is converted, the elements of an
array are converted when they are objects or arrays, anything else is kept. -/
def convertValue : JVal → JVal
  | JVal.obj fs => JVal.obj (convertObjEntries [] fs)
  | JVal.arr xs => JVal.arr (convertElements xs)
  | v => v
/-- The `map` of line 55 and of line 59: `x => (x && typeof x === 'object') ? convertObj(x) : x`. -/
def convertElements : List JVal → List JVal
  | [] => []
  | x :: xs =>
    (match x with
     | JVal.obj fs => JVal.obj (convertObjEntries [] fs)
     | JVal.arr ys => JVal.obj (convertObjIndexed 0 [] ys)
     | v => v) :: convertElements xs
end

/-- Function `respFromMock(data)` (lines 49-62). -/
def respFromMock : JVal → JVal
  | JVal.arr xs => JVal.arr (convertElements xs)
  | JVal.obj fs => JVal.obj (convertObjEntries [] fs)
  | v => v

/-- The value conversion of `normalizeParamsForMock` (lines 24-25): a string that starts
with `eq.` loses these three characters. -/
def stripEq : JVal → JVal
  | JVal.str t => if jsStartsWith t "eq." then JVal.str (jsSlice t 3) else JVal.str t
  | v => v

/-- The loop of `normalizeParamsForMock` (lines 23-31), `acc` being `out`. -/
def normalizeParamsEntries (acc : List (String × JVal)) :
    List (String × JVal) → List (String × JVal)
  | [] => acc
  | (k, v) :: rest => normalizeParamsEntries (objSet acc (toMockKey k) (stripEq v)) rest

/-- Function `normalizeParamsForMock(params)` (lines 20-33); `none` is `undefined`. -/
def normalizeParamsForMock : Option (List (String × JVal)) → Option (List (String × JVal))
  | none => none
  | some params => some (normalizeParamsEntries [] params)

/-! ## `lib/asr.js` -/

/-- What the speech pipeline returns: an object whose `text` may be missing. -/
structure AsrOutput where
  text : Option String

/-- Message of the `RangeError` thrown by `new Float32Array(arrayBuffer)` when the byte
length of the buffer is not a multiple of 4. -/
def float32RangeMessage : String :=
  "byte length of Float32Array should be a multiple of 4"

/-- Function `transcribe(blob)` (lines 30-47).  `byteLength` is the length of the blob,
`pipeline` what awaiting `getPipeline()` gives and `out` what awaiting the call of the
pipeline gives (`none` for `null` or `undefined`); a rejection carries its message. -/
def transcribe (byteLength : Nat) (pipeline : Except String Unit)
    (out : Except String (Option AsrOutput)) : Except String String :=
  if byteLength % 4 ≠ 0 then Except.error float32RangeMessage
  else
    match pipeline with
    | Except.error m => Except.error m
    | Except.ok _ =>
      match out with
      | Except.error m => Except.error m
      | Except.ok none => Except.ok ""
      | Except.ok (some o) =>
        match o.text with
        | none => Except.ok ""
        | some t => if truthyStr t then Except.ok (jsTrim t) else Except.ok ""

/-! ## `lib/llm.js` and the wizard: difficulties -/

/-- The array `allowed` of `normalize` and of `canonDifficulty`. -/
def allowed : List String :=
  ["Easy", "Intermediate", "Advanced"]

/-- Function `canonDifficulty(raw)` of the wizard (lines 10-24) on a string. -/
def canonDifficulty (raw : String) : String :=
  let d := jsTrim raw
  if allowed.contains d then d
  else
    let dl := jsToLowerCase d
    if jsStartsWith dl "e" then "Easy"
    else if jsStartsWith dl "m" || jsIncludes dl "intermed" then "Intermediate"
    else if jsStartsWith dl "h" || jsIncludes dl "adv" then "Advanced"
    else "Intermediate"

/-- The rule written inside `normalize` (lines 87-96) on the string of the difficulty. -/
def normalizeDifficulty (raw : String) : String :=
  let diff := jsTrim raw
  let dl := jsToLowerCase diff
  if !allowed.contains diff then
    if jsStartsWith dl "e" then "Easy"
    else if jsStartsWith dl "m" || jsIncludes dl "intermed" then "Intermediate"
    else if jsStartsWith dl "h" || jsIncludes dl "adv" then "Advanced"
    else "Intermediate"
  else diff

/-- The canonical difficulty in the words of the claim: after trimming, one of the three
exact values is returned unchanged; otherwise, in lower case, a value starting with `e`
gives `Easy`, else one starting with `m` or containing `intermed` gives `Intermediate`,
else one starting with `h` or containing `adv` gives `Advanced`, else `Intermediate`. -/
def canonSpec (d : String) : String :=
  let t := jsTrim d
  if t = "Easy" ∨ t = "Intermediate" ∨ t = "Advanced" then t
  else if jsStartsWith (jsToLowerCase t) "e" then "Easy"
  else if jsStartsWith (jsToLowerCase t) "m" ∨ jsIncludes (jsToLowerCase t) "intermed" then
    "Intermediate"
  else if jsStartsWith (jsToLowerCase t) "h" ∨ jsIncludes (jsToLowerCase t) "adv" then
    "Advanced"
  else "Intermediate"

/-- An entry of the list returned by `generateQuestions`. -/
structure GeneratedQuestion where
  question : String
  difficulty : String
  deriving DecidableEq, Repr

/-- The string `String(q?.[name] ?? '')` for an element `q` of the input array. -/
def fieldString (q : JVal) (name : String) : String :=
  match q with
  | JVal.obj fs =>
    match fs.lookup name with
    | none => ""
    | some JVal.null => ""
    | some v => jsString v
  | _ => ""

/-- Function `normalize(arr, num)` (lines 81-101) for a natural number `num`. -/
def normalize (arr : List JVal) (num : Nat) : List GeneratedQuestion :=
  ((arr.take num).mapIdx (fun i q =>
    let question := jsTrim (fieldString q "question")
    let diff := normalizeDifficulty (fieldString q "difficulty")
    if truthyStr question then
      ({ question := question, difficulty := diff } : GeneratedQuestion)
    else { question := "Question " ++ toString (i + 1) ++ "?", difficulty := diff })).filter
    (fun _ => true)

/-- Whether a key ends in `_id` and `_id` does not occur earlier in it. -/
def onlyTrailingId (k : String) : Bool :=
  jsEndsWith k "_id" && !includesChars "_id".data k.data.dropLast

/-- A flat body with one key in which `_id` occurs twice. -/
def doubledIdBody : JVal :=
  JVal.obj [("a_id_id", JVal.num "1")]

/-- The body of an answer as `ApplicantAnswer.create` passes it. -/
def answerBody : List (String × JVal) :=
  [("interview_id", JVal.num "7"), ("question_id", JVal.num "11"),
   ("applicant_id", JVal.num "3"), ("answer", JVal.str "blue")]

/-- A flat body with the key `__proto__`, as `JSON.parse` gives it for the text
`{"__proto__":1,"a":2}`. -/
def protoBody : JVal :=
  JVal.obj [("__proto__", JVal.num "1"), ("a", JVal.num "2")]

/-- The parameters of the comment at line 19 of `lib/api.js`. -/
def commentParams : List (String × JVal) :=
  [("id", JVal.str "eq.1"), ("interview_id", JVal.str "eq.7")]

/-- The key conversion in the words of the specification: a trailing `_id` is replaced by
`Id`, every other key is unchanged. -/
def mockKeySpec (k : String) : String :=
  jsReplaceAtEnd k "_id" "Id"

/-- The value conversion in the words of the specification: a string that begins with `eq.`
has exactly these three characters removed, every other value is unchanged. -/
def stripEqSpec : JVal → JVal
  | JVal.str t =>
    if t.data.take 3 = "eq.".data then JVal.str (String.mk (t.data.drop 3)) else JVal.str t
  | v => v

/-- An array as the model may answer: a question with blanks around it and a synonym as
difficulty, a `null` element, a question that is a number, a question of blanks only with a
padded synonym, and a string. -/
def sampleGenerated : List JVal :=
  [JVal.obj [("question", JVal.str "  Why?\n"), ("difficulty", JVal.str "hard")],
   JVal.null,
   JVal.obj [("question", JVal.num "1e+21"), ("difficulty", JVal.str "Easy")],
   JVal.obj [("difficulty", JVal.str " medium "), ("question", JVal.str "   ")],
   JVal.str "x"]

/-! ## Lemmas on trimming -/

theorem jsTrimChars_eq_nil_iff (cs : List Char) :
    jsTrimChars cs = [] ↔ ∀ c ∈ cs, isJsWhitespace c = true := by
  unfold jsTrimChars
  rw [List.reverse_eq_nil_iff, List.dropWhile_eq_nil_iff]
  constructor
  · intro h
    by_contra hne
    have hd : cs.dropWhile isJsWhitespace ≠ [] := by
      rw [Ne, List.dropWhile_eq_nil_iff]; exact hne
    have h1 := List.head_dropWhile_not isJsWhitespace cs hd
    have h2 := h _ (List.mem_reverse.mpr (List.head_mem hd))
    rw [h2] at h1
    exact absurd h1 (by decide)
  · intro h c hc
    have : cs.dropWhile isJsWhitespace = [] := List.dropWhile_eq_nil_iff.mpr h
    rw [this] at hc
    simp at hc

theorem truthy_jsTrim_eq_false_iff (t : String) :
    truthyStr (jsTrim t) = false ↔ ∀ c ∈ t.data, isJsWhitespace c = true := by
  rw [← jsTrimChars_eq_nil_iff]
  simp [truthyStr, jsTrim]

theorem truthy_jsTrim_eq_true_iff (t : String) :
    truthyStr (jsTrim t) = true ↔ ∃ c ∈ t.data, isJsWhitespace c = false := by
  have h := truthy_jsTrim_eq_false_iff t
  constructor
  · intro ht
    by_contra hne
    have : ∀ c ∈ t.data, isJsWhitespace c = true := by
      intro c hc
      by_contra hc2
      exact hne ⟨c, hc, by simpa using hc2⟩
    rw [h.mpr this] at ht
    exact absurd ht (by decide)
  · rintro ⟨c, hc, hw⟩
    by_contra hne
    have hf : truthyStr (jsTrim t) = false := by simpa using hne
    rw [h.mp hf c hc] at hw
    exact absurd hw (by decide)

theorem truthyStr_iff_ne_empty (x : String) : truthyStr x = true ↔ x ≠ "" := by
  cases x with
  | mk cs => cases cs <;> simp [truthyStr, String.ext_iff]

/-! ## Lemmas on the active states -/

theorem Active.facts {s : State} {i : Nat} (h : Active s i) :
    s.loading = false ∧ s.step = (i : Int) ∧ i < s.questions.length ∧
    (∃ iv ap, s.interview = some iv ∧ s.applicant = some ap) ∧
    questionAt s s.step = s.questions[i]? := by
  obtain ⟨hv, hs⟩ := h
  unfold view at hv
  split at hv; · cases hv
  split at hv; · cases hv
  split at hv; · cases hv
  split at hv; · cases hv
  split at hv; · cases hv
  rename_i hl _ hn _ hlt
  refine ⟨by simpa using hl, hs, ?_, ?_, ?_⟩
  · rw [hs] at hlt; omega
  · cases hi : s.interview <;> cases ha : s.applicant <;> simp [hi, ha] at hn
    exact ⟨_, _, rfl, rfl⟩
  · simp [questionAt, hs]

theorem saveAndNext_blank {s : State} {q : Question} (created updated : Except String Unit)
    (hq : questionAt s s.step = some q) (ht : truthyStr (jsTrim s.answerText) = false) :
    saveAndNext s created updated = { s with err := some answerRequiredMessage } := by
  simp [saveAndNext, hq, ht]

theorem saveAndNext_rejected {s : State} {q : Question} {iv : Interview} {ap : Applicant}
    (message : String) (updated : Except String Unit)
    (hq : questionAt s s.step = some q) (ht : truthyStr (jsTrim s.answerText) = true)
    (hi : s.interview = some iv) (ha : s.applicant = some ap) :
    saveAndNext s (Except.error message) updated =
      { s with sent := s.sent ++ [ApplicantAnswer.create iv.id q.id ap.id (jsTrim s.answerText)],
               err := some message, saving := false } := by
  simp [saveAndNext, hq, ht, hi, ha]

theorem saveAndNext_next {s : State} {q : Question} {iv : Interview} {ap : Applicant}
    (updated : Except String Unit)
    (hq : questionAt s s.step = some q) (ht : truthyStr (jsTrim s.answerText) = true)
    (hi : s.interview = some iv) (ha : s.applicant = some ap)
    (hlt : s.step + 1 < s.questions.length) :
    saveAndNext s (Except.ok ()) updated =
      { s with sent := s.sent ++ [ApplicantAnswer.create iv.id q.id ap.id (jsTrim s.answerText)],
               answerText := "", canStart := true, paused := false, canPause := false,
               step := s.step + 1, saving := false } := by
  simp [saveAndNext, hq, ht, hi, ha, hlt]

theorem saveAndNext_last {s : State} {q : Question} {iv : Interview} {ap : Applicant}
    (updated : Except String Unit)
    (hq : questionAt s s.step = some q) (ht : truthyStr (jsTrim s.answerText) = true)
    (hi : s.interview = some iv) (ha : s.applicant = some ap)
    (hge : ¬ s.step + 1 < s.questions.length) :
    saveAndNext s (Except.ok ()) updated =
      { s with sent := s.sent ++ [ApplicantAnswer.create iv.id q.id ap.id (jsTrim s.answerText),
                 Applicant.updateById ap.id [("interview_status", Prim.str "Completed")]],
               answerText := "", canStart := true, paused := false, canPause := false,
               step := s.questions.length, saving := false } := by
  cases updated <;> simp [saveAndNext, hq, ht, hi, ha, hge]

theorem Active.question {s : State} {i : Nat} (h : Active s i) :
    ∃ q, s.questions[i]? = some q ∧ questionAt s s.step = some q := by
  obtain ⟨_, _, hlt, _, hq⟩ := h.facts
  exact ⟨s.questions[i], by simp [hlt], by rw [hq]; simp [hlt]⟩

theorem saveAndNext_ok_fields {t : State} {q : Question} {iv : Interview} {ap : Applicant}
    (updated : Except String Unit)
    (hq : questionAt t t.step = some q) (ht : truthyStr (jsTrim t.answerText) = true)
    (hi : t.interview = some iv) (ha : t.applicant = some ap) :
    (saveAndNext t (Except.ok ()) updated).step =
      (if t.step + 1 < t.questions.length then t.step + 1 else t.questions.length) ∧
    (saveAndNext t (Except.ok ()) updated).sent =
      t.sent ++ ApplicantAnswer.create iv.id q.id ap.id (jsTrim t.answerText) ::
        (if t.step + 1 < t.questions.length then []
         else [Applicant.updateById ap.id [("interview_status", Prim.str "Completed")]]) := by
  by_cases h : t.step + 1 < t.questions.length
  · rw [saveAndNext_next updated hq ht hi ha h]; simp [h]
  · rw [saveAndNext_last updated hq ht hi ha h]; simp [h]

theorem saveAndNext_sent {s : State} {q : Question} {iv : Interview} {ap : Applicant}
    (created updated : Except String Unit)
    (hq : questionAt s s.step = some q) (ht : truthyStr (jsTrim s.answerText) = true)
    (hi : s.interview = some iv) (ha : s.applicant = some ap) :
    (saveAndNext s created updated).sent =
        s.sent ++ [ApplicantAnswer.create iv.id q.id ap.id (jsTrim s.answerText)] ∨
    (saveAndNext s created updated).sent =
        s.sent ++ [ApplicantAnswer.create iv.id q.id ap.id (jsTrim s.answerText),
                   Applicant.updateById ap.id [("interview_status", Prim.str "Completed")]] := by
  cases created with
  | error m => left; rw [saveAndNext_rejected m updated hq ht hi ha]
  | ok u =>
    cases u
    by_cases h : s.step + 1 < s.questions.length
    · left; rw [saveAndNext_next updated hq ht hi ha h]
    · right; rw [saveAndNext_last updated hq ht hi ha h]

/-! ## Submission: validation, persistence, advancement -/

/-- C1: in every `Active(i)` state whose answer buffer is empty or made of whitespace only,
`saveAndNext` sends no request to the persistence gateway and leaves `step`, `answerText`
and `canStart` as they were; the only field it changes is `err`, which receives the
validation message. -/
theorem blank_submit_rejected (s : State) (i : Nat) (created updated : Except String Unit)
    (hA : Active s i) (hE : ∀ c ∈ s.answerText.data, isJsWhitespace c = true) :
    saveAndNext s created updated = { s with err := some answerRequiredMessage } ∧
    (saveAndNext s created updated).sent = s.sent ∧
    (saveAndNext s created updated).step = s.step ∧
    (saveAndNext s created updated).answerText = s.answerText ∧
    (saveAndNext s created updated).canStart = s.canStart ∧
    (saveAndNext s created updated).err = some answerRequiredMessage := by
  obtain ⟨q, _, hq⟩ := hA.question
  have ht := (truthy_jsTrim_eq_false_iff s.answerText).mpr hE
  rw [saveAndNext_blank created updated hq ht]
  exact ⟨rfl, rfl, rfl, rfl, rfl, rfl⟩

/-- The blank-submit theorem at `blankSession`, whose buffer is a space, a newline and a tab. -/
theorem blank_submit_rejected_witness :
    Active blankSession 0 ∧ (∀ c ∈ blankSession.answerText.data, isJsWhitespace c = true) ∧
    (saveAndNext blankSession (Except.ok ()) (Except.ok ())).sent = [] ∧
    (saveAndNext blankSession (Except.ok ()) (Except.ok ())).step = 0 :=
  ⟨by decide, by decide,
   (blank_submit_rejected blankSession 0 (Except.ok ()) (Except.ok ())
      (by decide) (by decide)).2.1,
   (blank_submit_rejected blankSession 0 (Except.ok ()) (Except.ok ())
      (by decide) (by decide)).2.2.1⟩

/-- C2: in every `Active(i)` state whose buffer is non-empty after trimming, a `saveAndNext`
whose persistence call succeeds leaves the session in `Active(i+1)` when
`i + 1 < questions.length`, and otherwise in the completed state: `step = questions.length`
and the thank-you branch is rendered.  The outcome of the status update plays no part. -/
theorem successful_submit_advances (s : State) (i : Nat) (updated : Except String Unit)
    (hA : Active s i) (hN : jsTrim s.answerText ≠ "") :
    (i + 1 < s.questions.length → Active (saveAndNext s (Except.ok ()) updated) (i + 1)) ∧
    (¬ i + 1 < s.questions.length →
      (saveAndNext s (Except.ok ()) updated).step = s.questions.length ∧
      view (saveAndNext s (Except.ok ()) updated) = View.thankYou) := by
  obtain ⟨q, _, hq⟩ := hA.question
  obtain ⟨hl, hs, hlt, ⟨iv, ap, hi, ha⟩, _⟩ := hA.facts
  have ht := (truthyStr_iff_ne_empty _).mpr hN
  constructor
  · intro h
    have h1 : s.step + 1 < s.questions.length := by rw [hs]; omega
    rw [saveAndNext_next updated hq ht hi ha h1]
    refine ⟨?_, by simp [hs]⟩
    have h2 : ¬ (s.step + 1 = -1) := by rw [hs]; omega
    have h3 : ¬ ((s.questions.length : Int) ≤ s.step + 1) := by omega
    simp [view, hl, hi, ha, h2, h3]
  · intro h
    have h1 : ¬ s.step + 1 < s.questions.length := by rw [hs]; omega
    rw [saveAndNext_last updated hq ht hi ha h1]
    refine ⟨rfl, ?_⟩
    have h2 : ¬ ((s.questions.length : Int) = -1) := by omega
    simp [view, hl, hi, ha, h2]

/-- The advancement theorem at `blueSession` (first of two questions) and at `lastSession`
(last question, failing status update). -/
theorem successful_submit_advances_witness :
    Active (saveAndNext blueSession (Except.ok ()) (Except.ok ())) 1 ∧
    (saveAndNext lastSession (Except.ok ()) (Except.error "503")).step = 2 :=
  ⟨(successful_submit_advances blueSession 0 (Except.ok ()) (by decide) (by decide)).1
      (by decide),
   ((successful_submit_advances lastSession 1 (Except.error "503") (by decide)
      (by decide)).2 (by decide)).1⟩

/-- C3: in every `Active(i)` state whose buffer is non-empty after trimming, `saveAndNext`
issues exactly one request that creates an answer, whatever the calls settle to: the
requests it adds are that one request, followed on the last question of a successful submit
by the status update.  The request is a `POST` of `applicant_answer` whose body carries the
interview id, the id of `questions[i]`, the applicant id, and the trimmed buffer as
`answer`. -/
theorem submit_creates_one_answer (s : State) (i : Nat) (created updated : Except String Unit)
    (iv : Interview) (ap : Applicant) (q : Question)
    (hA : Active s i) (hN : jsTrim s.answerText ≠ "")
    (hi : s.interview = some iv) (ha : s.applicant = some ap) (hq : s.questions[i]? = some q) :
    (saveAndNext s created updated).sent =
        s.sent ++
          [{ path := "applicant_answer", method := Method.POST,
             body := [("interview_id", Prim.num iv.id), ("question_id", Prim.num q.id),
                      ("applicant_id", Prim.num ap.id),
                      ("answer", Prim.str (jsTrim s.answerText))],
             params := [] }] ∨
    (saveAndNext s created updated).sent =
        s.sent ++
          [{ path := "applicant_answer", method := Method.POST,
             body := [("interview_id", Prim.num iv.id), ("question_id", Prim.num q.id),
                      ("applicant_id", Prim.num ap.id),
                      ("answer", Prim.str (jsTrim s.answerText))],
             params := [] },
           { path := "applicant", method := Method.PATCH,
             body := [("interview_status", Prim.str "Completed")],
             params := [("id", "eq." ++ toString ap.id)] }] := by
  obtain ⟨q2, hq2, hqa⟩ := hA.question
  have hqq : q2 = q := by rw [hq] at hq2; exact (Option.some.inj hq2).symm
  subst hqq
  have ht := (truthyStr_iff_ne_empty _).mpr hN
  rcases saveAndNext_sent created updated hqa ht hi ha with h | h
  · left; rw [h]; rfl
  · right; rw [h]; rfl

/-- The scenario of the specification with blanks around the text: the buffer `blue` between
two spaces and a newline, on `Q1` of interview 7 for applicant 3, creates the answer of `Q1`
with text `blue`, and nothing else is sent. -/
theorem submit_creates_one_answer_witness :
    (saveAndNext paddedBlueSession (Except.ok ()) (Except.ok ())).sent =
      [{ path := "applicant_answer", method := Method.POST,
         body := [("interview_id", Prim.num 7), ("question_id", Prim.num 11),
                  ("applicant_id", Prim.num 3), ("answer", Prim.str "blue")],
         params := [] }] :=
  (submit_creates_one_answer paddedBlueSession 0 (Except.ok ()) (Except.ok ()) ⟨7⟩ ⟨3⟩ Q1
    (by decide) (by decide) rfl rfl rfl).resolve_right (by decide)

/-- C4: in every `Active(i)` state with a buffer that is non-empty after trimming, when the
persistence call of `saveAndNext` fails with message `m`, the only changes are the request
that was sent and `err = m` (with `saving` back to false): `step`, `answerText` and
`canStart` are what they were, the session is still in `Active(i)`, and submitting again
sends the same answer and ends where a first submit would have. -/
theorem failed_persistence_keeps_question (s : State) (i : Nat) (m : String)
    (updated again : Except String Unit)
    (hA : Active s i) (hN : jsTrim s.answerText ≠ "") :
    (saveAndNext s (Except.error m) updated).step = s.step ∧
    (saveAndNext s (Except.error m) updated).answerText = s.answerText ∧
    (saveAndNext s (Except.error m) updated).canStart = s.canStart ∧
    (saveAndNext s (Except.error m) updated).err = some m ∧
    Active (saveAndNext s (Except.error m) updated) i ∧
    (saveAndNext (saveAndNext s (Except.error m) updated) (Except.ok ()) again).step =
      (saveAndNext s (Except.ok ()) again).step ∧
    (saveAndNext (saveAndNext s (Except.error m) updated) (Except.ok ()) again).sent.drop
        (s.sent.length + 1) =
      (saveAndNext s (Except.ok ()) again).sent.drop s.sent.length := by
  obtain ⟨q, _, hq⟩ := hA.question
  obtain ⟨hl, hs, hlt, ⟨iv, ap, hi, ha⟩, _⟩ := hA.facts
  have ht := (truthyStr_iff_ne_empty _).mpr hN
  have hrej := saveAndNext_rejected m updated hq ht hi ha
  generalize saveAndNext s (Except.error m) updated = s1 at hrej ⊢
  have hq1 : questionAt s1 s1.step = some q := by rw [hrej]; exact hq
  have ht1 : truthyStr (jsTrim s1.answerText) = true := by rw [hrej]; exact ht
  have hi1 : s1.interview = some iv := by rw [hrej]; exact hi
  have ha1 : s1.applicant = some ap := by rw [hrej]; exact ha
  have f := saveAndNext_ok_fields again hq ht hi ha
  have f1 := saveAndNext_ok_fields again hq1 ht1 hi1 ha1
  have e1 : s1.step = s.step := by rw [hrej]
  have e2 : s1.answerText = s.answerText := by rw [hrej]
  have e3 : s1.questions = s.questions := by rw [hrej]
  have e4 : s1.sent = s.sent ++ [ApplicantAnswer.create iv.id q.id ap.id (jsTrim s.answerText)] := by
    rw [hrej]
  have h2 : ¬ ((i : Int) = -1) := by omega
  have h3 : ¬ ((s.questions.length : Int) ≤ i) := by omega
  refine ⟨e1, e2, by rw [hrej], by rw [hrej], ⟨?_, by rw [e1]; exact hs⟩, ?_, ?_⟩
  · rw [hrej]; simp [view, hl, hi, ha, hs, h2, h3]
  · rw [f.1, f1.1, e1, e3]
  · rw [f.2, f1.2, e1, e2, e3, e4]
    simp

/-- A rejected create at `blueSession` keeps question 0 and the buffer `blue`. -/
theorem failed_persistence_keeps_question_witness :
    (saveAndNext blueSession (Except.error "500 ") (Except.ok ())).step = 0 ∧
    (saveAndNext blueSession (Except.error "500 ") (Except.ok ())).answerText = "blue" :=
  ⟨(failed_persistence_keeps_question blueSession 0 "500 " (Except.ok ()) (Except.ok ())
      (by decide) (by decide)).1,
   (failed_persistence_keeps_question blueSession 0 "500 " (Except.ok ()) (Except.ok ())
      (by decide) (by decide)).2.1⟩

/-- C5: when the answer of the last question is persisted and the status update fails, for
every session `saveAndNext` still ends in the completed state (`step = questions.length`, the
thank-you branch is rendered), `err` is what it was before the submit, and the whole
resulting state is the one a successful status update gives. -/
theorem status_failure_is_swallowed (s : State) (i : Nat) (m : String)
    (hA : Active s i) (hN : jsTrim s.answerText ≠ "")
    (hLast : i + 1 = s.questions.length) :
    (saveAndNext s (Except.ok ()) (Except.error m)).step = s.questions.length ∧
    view (saveAndNext s (Except.ok ()) (Except.error m)) = View.thankYou ∧
    (saveAndNext s (Except.ok ()) (Except.error m)).err = s.err ∧
    saveAndNext s (Except.ok ()) (Except.error m) =
      saveAndNext s (Except.ok ()) (Except.ok ()) := by
  obtain ⟨q, _, hq⟩ := hA.question
  obtain ⟨hl, hs, hlt, ⟨iv, ap, hi, ha⟩, _⟩ := hA.facts
  have ht := (truthyStr_iff_ne_empty _).mpr hN
  have h1 : ¬ s.step + 1 < s.questions.length := by rw [hs]; omega
  rw [saveAndNext_last _ hq ht hi ha h1, saveAndNext_last _ hq ht hi ha h1]
  have h2 : ¬ ((s.questions.length : Int) = -1) := by omega
  exact ⟨rfl, by simp [view, hl, hi, ha, h2], rfl, rfl⟩

/-- A failing status update at `lastSession` still completes the session and sets no error. -/
theorem status_failure_is_swallowed_witness :
    (saveAndNext lastSession (Except.ok ()) (Except.error "503 ")).step = 2 ∧
    (saveAndNext lastSession (Except.ok ()) (Except.error "503 ")).err = none :=
  ⟨(status_failure_is_swallowed lastSession 1 "503 " (by decide) (by decide) (by decide)).1,
   (status_failure_is_swallowed lastSession 1 "503 " (by decide) (by decide) (by decide)).2.2.1⟩

/-! ## Frame lemmas: what the handlers other than submit leave alone -/

theorem questionAt_some {s : State} {idx : Int} {q : Question}
    (h : questionAt s idx = some q) : 0 ≤ idx ∧ idx < s.questions.length := by
  unfold questionAt at h
  split at h
  · cases h
  · rename_i hneg
    have hlt : idx.toNat < s.questions.length := by
      by_contra hc
      rw [List.getElem?_eq_none (by omega)] at h
      cases h
    omega

theorem load_frame (s : State) (r : LoadResult) :
    (load s r).step = s.step ∧ (load s r).canStart = s.canStart ∧
    (load s r).deviceRequests = s.deviceRequests := by
  unfold load
  cases r with
  | rejected m => exact ⟨rfl, rfl, rfl⟩
  | resolved i a qs => cases i <;> cases a <;> exact ⟨rfl, rfl, rfl⟩

theorem startRecording_step (s : State) (media : MediaResult) :
    (startRecording s media).step = s.step := by
  unfold startRecording
  cases media <;> cases s.canStart <;> cases hs : s.speechRec <;> simp [mr_onstart, hs]

theorem pauseResume_frame (s : State) :
    (pauseResume s).step = s.step ∧ (pauseResume s).canStart = s.canStart ∧
    (pauseResume s).deviceRequests = s.deviceRequests := by
  unfold pauseResume
  cases s.mediaRecorderRef with
  | none => exact ⟨rfl, rfl, rfl⟩
  | some mr => cases hm : mr.state <;> simp [hm, mr_onpause, mr_onresume]

theorem stopRecognizer_frame (s : State) :
    (stopRecognizer s).step = s.step ∧ (stopRecognizer s).canStart = s.canStart ∧
    (stopRecognizer s).deviceRequests = s.deviceRequests := by
  unfold stopRecognizer
  cases s.recRef <;> exact ⟨rfl, rfl, rfl⟩

theorem stopRecorder_frame (s : State) :
    (stopRecorder s).step = s.step ∧ (stopRecorder s).canStart = s.canStart ∧
    (stopRecorder s).deviceRequests = s.deviceRequests := by
  unfold stopRecorder
  cases s.mediaRecorderRef with
  | none => exact ⟨rfl, rfl, rfl⟩
  | some mr => simp only []; split <;> exact ⟨rfl, rfl, rfl⟩

theorem releaseStream_frame (s : State) :
    (releaseStream s).step = s.step ∧ (releaseStream s).canStart = s.canStart ∧
    (releaseStream s).deviceRequests = s.deviceRequests := by
  unfold releaseStream
  cases s.mediaStreamRef <;> exact ⟨rfl, rfl, rfl⟩

theorem stopRecording_frame (s : State) :
    (stopRecording s).step = s.step ∧ (stopRecording s).canStart = s.canStart ∧
    (stopRecording s).deviceRequests = s.deviceRequests := by
  unfold stopRecording
  obtain ⟨a1, a2, a3⟩ := stopRecognizer_frame s
  obtain ⟨b1, b2, b3⟩ := stopRecorder_frame (stopRecognizer s)
  obtain ⟨c1, c2, c3⟩ := releaseStream_frame (stopRecorder (stopRecognizer s))
  exact ⟨by rw [c1, b1, a1], by rw [c2, b2, a2], by rw [c3, b3, a3]⟩

theorem rec_onresult_frame (s : State) (results : List SpeechResult) :
    (rec_onresult s results).step = s.step ∧ (rec_onresult s results).canStart = s.canStart ∧
    (rec_onresult s results).deviceRequests = s.deviceRequests := by
  unfold rec_onresult
  split
  · exact ⟨rfl, rfl, rfl⟩
  · split
    · exact ⟨rfl, rfl, rfl⟩
    · simp only []; split <;> exact ⟨rfl, rfl, rfl⟩

theorem whisperResolved_frame (s : State) (r : Except String String) :
    (whisperResolved s r).step = s.step ∧ (whisperResolved s r).canStart = s.canStart ∧
    (whisperResolved s r).deviceRequests = s.deviceRequests := by
  unfold whisperResolved
  cases r with
  | error m => exact ⟨rfl, rfl, rfl⟩
  | ok t => simp only []; split <;> exact ⟨rfl, rfl, rfl⟩

/-- Every outcome of `saveAndNext`: either `step`, `canStart` and the device are untouched,
or the persistence call succeeded and `step` grew. -/
theorem saveAndNext_cases (s : State) (created updated : Except String Unit) :
    ((saveAndNext s created updated).step = s.step ∧
      (saveAndNext s created updated).canStart = s.canStart ∧
      (saveAndNext s created updated).deviceRequests = s.deviceRequests) ∨
    (created = Except.ok () ∧ s.step < (saveAndNext s created updated).step ∧
      (saveAndNext s created updated).deviceRequests = s.deviceRequests) := by
  cases hq : questionAt s s.step with
  | none => left; simp [saveAndNext, hq]
  | some q =>
    have hb := questionAt_some hq
    cases ht : truthyStr (jsTrim s.answerText) with
    | false => left; rw [saveAndNext_blank created updated hq ht]; exact ⟨rfl, rfl, rfl⟩
    | true =>
      cases hi : s.interview with
      | none => left; simp [saveAndNext, hq, ht, hi]
      | some iv =>
        cases ha : s.applicant with
        | none => left; simp [saveAndNext, hq, ht, hi, ha]
        | some ap =>
          cases created with
          | error m =>
            left; rw [saveAndNext_rejected m updated hq ht hi ha]; exact ⟨rfl, rfl, rfl⟩
          | ok u =>
            cases u
            right
            by_cases h : s.step + 1 < s.questions.length
            · rw [saveAndNext_next updated hq ht hi ha h]
              exact ⟨rfl, by simp, rfl⟩
            · rw [saveAndNext_last updated hq ht hi ha h]
              exact ⟨rfl, by simp only []; omega, rfl⟩

theorem view_welcome_step {s : State} (h : view s = View.welcome) : s.step = -1 := by
  unfold view at h
  split at h; · cases h
  split at h; · cases h
  split at h; · cases h
  split at h
  · rename_i hstep; simpa using hstep
  · split at h <;> cases h

/-- One event never lowers `step`; it raises it only as the start action leaving the
welcome page for question 0, or as a submit whose persistence call succeeded. -/
theorem dispatch_step (s : State) (e : Event) :
    (dispatch s e).step = s.step ∨
    (e = Event.clickStart ∧ s.step = -1 ∧ (dispatch s e).step = 0) ∨
    (e.isSuccessfulSubmit = true ∧ s.step < (dispatch s e).step) := by
  cases e with
  | loaded r =>
    left; simp only [dispatch]; split
    · exact (load_frame s r).1
    · rfl
  | clickStart =>
    simp only [dispatch]
    split
    · rename_i h; right; left; exact ⟨trivial, view_welcome_step h.1, rfl⟩
    · left; rfl
  | clickStartRecording media =>
    left; simp only [dispatch]; split
    · exact startRecording_step s media
    · rfl
  | clickPauseResume =>
    left; simp only [dispatch]; split
    · exact (pauseResume_frame s).1
    · rfl
  | clickStop =>
    left; simp only [dispatch]; split
    · exact (stopRecording_frame s).1
    · rfl
  | change v => left; simp only [dispatch]; split <;> rfl
  | clickNext created updated =>
    simp only [dispatch]
    split
    · rcases saveAndNext_cases s created updated with h | h
      · left; exact h.1
      · right; right; obtain ⟨hc, hlt, _⟩ := h; subst hc; exact ⟨rfl, hlt⟩
    · left; rfl
  | speech results =>
    left; simp only [dispatch]; split
    · exact (rec_onresult_frame s results).1
    · rfl
  | whisper r =>
    left; simp only [dispatch]; split
    · exact (whisperResolved_frame s r).1
    · rfl

theorem dispatch_step_le (s : State) (e : Event) : s.step ≤ (dispatch s e).step := by
  rcases dispatch_step s e with h | ⟨_, h1, h2⟩ | ⟨_, h⟩
  · omega
  · omega
  · omega

theorem run_step_le (events : List Event) : ∀ s : State, s.step ≤ (run s events).step := by
  induction events with
  | nil => intro s; exact le_refl _
  | cons e rest ih =>
    intro s
    exact le_trans (dispatch_step_le s e) (ih (dispatch s e))

theorem startRecording_blocked {s : State} (media : MediaResult) (h : s.canStart = false) :
    startRecording s media = s := by
  simp [startRecording, h]

/-- While `canStart` is false, an event that keeps the question keeps `canStart` false and
makes no `getUserMedia` call. -/
theorem dispatch_keeps_blocked (s : State) (e : Event) (h : s.canStart = false)
    (hstep : (dispatch s e).step = s.step) :
    (dispatch s e).canStart = false ∧ (dispatch s e).deviceRequests = s.deviceRequests := by
  cases e with
  | loaded r =>
    simp only [dispatch]; split
    · obtain ⟨_, h2, h3⟩ := load_frame s r; exact ⟨by rw [h2, h], h3⟩
    · exact ⟨h, rfl⟩
  | clickStart =>
    simp only [dispatch]; split
    · exact ⟨h, rfl⟩
    · exact ⟨h, rfl⟩
  | clickStartRecording media =>
    simp only [dispatch]; split
    · rw [startRecording_blocked media h]; exact ⟨h, rfl⟩
    · exact ⟨h, rfl⟩
  | clickPauseResume =>
    simp only [dispatch]; split
    · obtain ⟨_, h2, h3⟩ := pauseResume_frame s; exact ⟨by rw [h2, h], h3⟩
    · exact ⟨h, rfl⟩
  | clickStop =>
    simp only [dispatch]; split
    · obtain ⟨_, h2, h3⟩ := stopRecording_frame s; exact ⟨by rw [h2, h], h3⟩
    · exact ⟨h, rfl⟩
  | change v => simp only [dispatch]; split <;> exact ⟨h, rfl⟩
  | clickNext created updated =>
    simp only [dispatch] at hstep ⊢
    split
    · rename_i hg
      rw [if_pos hg] at hstep
      rcases saveAndNext_cases s created updated with h1 | h1
      · exact ⟨by rw [h1.2.1, h], h1.2.2⟩
      · omega
    · exact ⟨h, rfl⟩
  | speech results =>
    simp only [dispatch]; split
    · obtain ⟨_, h2, h3⟩ := rec_onresult_frame s results; exact ⟨by rw [h2, h], h3⟩
    · exact ⟨h, rfl⟩
  | whisper r =>
    simp only [dispatch]; split
    · obtain ⟨_, h2, h3⟩ := whisperResolved_frame s r; exact ⟨by rw [h2, h], h3⟩
    · exact ⟨h, rfl⟩

theorem run_keeps_blocked (events : List Event) :
    ∀ s : State, s.canStart = false → (run s events).step = s.step →
      (run s events).canStart = false ∧ (run s events).deviceRequests = s.deviceRequests := by
  induction events with
  | nil => intro s h _; exact ⟨h, rfl⟩
  | cons e rest ih =>
    intro s h hstep
    have h1 := dispatch_step_le s e
    have h2 := run_step_le rest (dispatch s e)
    have hrun : run s (e :: rest) = run (dispatch s e) rest := rfl
    rw [hrun] at hstep ⊢
    have he : (dispatch s e).step = s.step := by omega
    obtain ⟨hc, hd⟩ := dispatch_keeps_blocked s e h he
    obtain ⟨hc2, hd2⟩ := ih (dispatch s e) hc (by omega)
    exact ⟨hc2, by rw [hd2, hd]⟩

/-! ## Progress of the question index -/

/-- C6, as stated, fails: on the welcome page of the loaded sample session the start action
raises `step` from -1 to 0, and it is not a submit. -/
theorem start_action_raises_step :
    (run (mount true) [Event.loaded sampleLoad]).step = -1 ∧
    (dispatch (run (mount true) [Event.loaded sampleLoad]) Event.clickStart).step = 0 ∧
    Event.clickStart.isSuccessfulSubmit = false := by
  decide

/-- C6 (amended): in every run `step` never decreases, and every transition that increases
it is either the start action, which takes it from -1 to 0, or a submit whose persistence
call succeeded. -/
theorem step_only_advances (s : State) (events : List Event) (e : Event) :
    s.step ≤ (run s events).step ∧
    (run s events).step ≤ (dispatch (run s events) e).step ∧
    ((run s events).step < (dispatch (run s events) e).step →
      (e = Event.clickStart ∧ (run s events).step = -1 ∧
        (dispatch (run s events) e).step = 0) ∨
      ∃ updated, e = Event.clickNext (Except.ok ()) updated) := by
  refine ⟨run_step_le events s, dispatch_step_le _ e, ?_⟩
  intro hlt
  rcases dispatch_step (run s events) e with h | h | ⟨h, _⟩
  · omega
  · left; exact h
  · right
    cases e with
    | clickNext created updated =>
      cases created with
      | error m => simp [Event.isSuccessfulSubmit] at h
      | ok u => cases u; exact ⟨updated, rfl⟩
    | _ => simp [Event.isSuccessfulSubmit] at h

/-! ## The microphone -/

/-- C7 fails on the code: after `recordingSubmitRun` the session is on the
second question with `canStart` true while stream 0 is still live and still held in
`mediaStreamRef`; the start that `leakRun` adds succeeds, and afterwards two streams are
live, stream 0 being no longer referenced by the component. -/
theorem submit_while_recording_leaks_stream :
    (run (mount true) recordingSubmitRun).step = 1 ∧
    (run (mount true) recordingSubmitRun).canStart = true ∧
    (run (mount true) recordingSubmitRun).tracksLive = [true] ∧
    (run (mount true) recordingSubmitRun).mediaStreamRef = some 0 ∧
    (run (mount true) leakRun).step = 1 ∧
    (run (mount true) leakRun).deviceRequests = 2 ∧
    (run (mount true) leakRun).tracksLive = [true, true] ∧
    (run (mount true) leakRun).mediaStreamRef = some 1 := by
  decide

/-- A call of `startRecording()` during which no other handler runs is the part before the
`await` followed at once by the part after it. -/
theorem startRecording_eq_call_resume (s : State) (media : MediaResult) :
    startRecording s media =
      if (startRecordingCall s).2 then startRecordingResume (startRecordingCall s).1 media
      else (startRecordingCall s).1 := by
  unfold startRecording startRecordingCall startRecordingResume
  cases hc : s.canStart <;> cases media <;> simp

/-- C8 fails on the code: the guard reads `canStart` before the `await` of `getUserMedia`
and `canStart` becomes false only after it.  In every state that shows a question with
`canStart` true a first call passes the guard and leaves `canStart` true while it waits, so the start control is still
enabled and a second call passes the guard as well; when both promises are granted the first
start succeeds (`canStart` false, a recorder recording on a new stream), and the second
succeeds on the same question with no stop in between: two device requests, two live streams,
the first of them no longer referenced by the component. -/
theorem overlapping_starts_both_succeed (s : State) (h : s.canStart = true)
    (hv : view s = View.question) :
    (startRecordingCall s).2 = true ∧
    (startRecordingCall s).1.canStart = true ∧
    view (startRecordingCall s).1 = View.question ∧
    (startRecordingCall (startRecordingCall s).1).2 = true ∧
    (startRecordingResume (startRecordingCall (startRecordingCall s).1).1
      MediaResult.granted).canStart = false ∧
    (startRecordingResume (startRecordingCall (startRecordingCall s).1).1
      MediaResult.granted).mediaRecorderRef =
        some { stream := s.tracksLive.length, state := RecorderState.recording } ∧
    (overlappingStarts s MediaResult.granted MediaResult.granted).step = s.step ∧
    (overlappingStarts s MediaResult.granted MediaResult.granted).deviceRequests =
      s.deviceRequests + 2 ∧
    (overlappingStarts s MediaResult.granted MediaResult.granted).tracksLive =
      s.tracksLive ++ [true, true] ∧
    (overlappingStarts s MediaResult.granted MediaResult.granted).mediaStreamRef =
      some (s.tracksLive.length + 1) ∧
    (overlappingStarts s MediaResult.granted MediaResult.granted).mediaRecorderRef =
      some { stream := s.tracksLive.length + 1, state := RecorderState.recording } := by
  have hview : view (startRecordingCall s).1 = View.question := by
    unfold startRecordingCall
    simp only [h, Bool.not_true, Bool.false_eq_true, if_false]
    unfold view at hv ⊢
    simp only [truthyOptStr, Bool.false_eq_true, false_and, if_false]
    split_ifs at hv ⊢ <;> first | rfl | exact hv | simp_all
  refine ⟨?_, ?_, hview, ?_⟩
  · simp [startRecordingCall, h]
  · simp [startRecordingCall, h]
  · unfold overlappingStarts startRecordingCall startRecordingResume
    cases hs : s.speechRec <;> simp [h, hs, mr_onstart]

/-- On the first question of the loaded and started sample session, where nothing was
recorded before: the start control is shown and enabled after the first call, and the two
overlapping calls leave two device requests and two live streams on question 1, the
component holding only stream 1. -/
theorem overlapping_starts_both_succeed_witness :
    view (startRecordingCall startedSession).1 = View.question ∧
    (startRecordingCall startedSession).1.canStart = true ∧
    (overlappingStarts startedSession MediaResult.granted MediaResult.granted).step = 0 ∧
    (overlappingStarts startedSession MediaResult.granted MediaResult.granted).deviceRequests
      = 2 ∧
    (overlappingStarts startedSession MediaResult.granted MediaResult.granted).tracksLive =
      [true, true] ∧
    (overlappingStarts startedSession MediaResult.granted MediaResult.granted).mediaStreamRef
      = some 1 :=
  ⟨by decide, by decide,
   (overlapping_starts_both_succeed startedSession (by decide) (by decide)).2.2.2.2.2.2.1,
   (overlapping_starts_both_succeed startedSession (by decide) (by decide)).2.2.2.2.2.2.2.1,
   (overlapping_starts_both_succeed startedSession (by decide) (by decide)).2.2.2.2.2.2.2.2.1,
   (overlapping_starts_both_succeed startedSession (by decide) (by decide)).2.2.2.2.2.2.2.2.2.1⟩

/-- Without overlap the guard holds: a `startRecording` invoked while `canStart` is false
returns the state it was given, and after a call that ran to its end with the device granted,
in every run of whole handlers that stays on the same question `canStart` stays false and no
further `getUserMedia` call is made. -/
theorem start_blocked_after_completed_start (t u : State) (media : MediaResult)
    (events : List Event) (hT : t.canStart = true) (hU : u.canStart = false)
    (hSame : (run (startRecording t MediaResult.granted) events).step = t.step) :
    startRecording u media = u ∧
    (startRecording t MediaResult.granted).canStart = false ∧
    (startRecording t MediaResult.granted).deviceRequests = t.deviceRequests + 1 ∧
    (run (startRecording t MediaResult.granted) events).canStart = false ∧
    (run (startRecording t MediaResult.granted) events).deviceRequests =
      t.deviceRequests + 1 ∧
    startRecording (run (startRecording t MediaResult.granted) events) media =
      run (startRecording t MediaResult.granted) events := by
  have hc : (startRecording t MediaResult.granted).canStart = false := by
    unfold startRecording
    cases hs : t.speechRec <;> simp [hT, mr_onstart, hs]
  have hd : (startRecording t MediaResult.granted).deviceRequests = t.deviceRequests + 1 := by
    unfold startRecording
    cases hs : t.speechRec <;> simp [hT, mr_onstart, hs]
  have hst := startRecording_step t MediaResult.granted
  obtain ⟨h1, h2⟩ := run_keeps_blocked events _ hc (by rw [hSame, hst])
  exact ⟨startRecording_blocked media hU, hc, hd, h1, by rw [h2, hd],
    startRecording_blocked media h1⟩

/-- C9, as stated, fails: after a denied `startRecording` on the first question of the
sample session `canStart` is still true, and a second `startRecording` on the same question
calls `getUserMedia` again. -/
theorem denied_start_can_be_retried :
    (startRecording (sampleSession [Q1]) MediaResult.denied).canStart = true ∧
    (startRecording (sampleSession [Q1]) MediaResult.denied).deviceRequests = 1 ∧
    (startRecording (startRecording (sampleSession [Q1]) MediaResult.denied)
      MediaResult.denied).deviceRequests = 2 := by
  decide

/-- C9 (amended): when `getUserMedia` rejects, `startRecording` changes nothing but `err`,
which receives the microphone message, and the count of device requests: no stream,
recorder or recognizer is acquired, `recording` and `paused` are what they were, and
`canStart` stays true, so a further `startRecording` on the same question requests the
device again. -/
theorem denied_start_only_reports (s : State) (media : MediaResult) (h : s.canStart = true) :
    startRecording s MediaResult.denied =
      { s with err := some micMessage, deviceRequests := s.deviceRequests + 1 } ∧
    (startRecording s MediaResult.denied).canStart = true ∧
    (startRecording s MediaResult.denied).recording = s.recording ∧
    (startRecording s MediaResult.denied).paused = s.paused ∧
    (startRecording s MediaResult.denied).mediaStreamRef = s.mediaStreamRef ∧
    (startRecording s MediaResult.denied).tracksLive = s.tracksLive ∧
    (startRecording (startRecording s MediaResult.denied) media).deviceRequests =
      s.deviceRequests + 2 := by
  have e : startRecording s MediaResult.denied =
      { s with err := some micMessage, deviceRequests := s.deviceRequests + 1 } := by
    simp [startRecording, h]
  rw [e]
  refine ⟨rfl, h, rfl, rfl, rfl, rfl, ?_⟩
  unfold startRecording
  cases media <;> cases hs : s.speechRec <;> simp [h, mr_onstart, hs]

/-- A denied start at `blueSession` sets the microphone message and leaves `canStart` true. -/
theorem denied_start_only_reports_witness :
    (startRecording blueSession MediaResult.denied).err = some micMessage ∧
    (startRecording blueSession MediaResult.denied).canStart = true :=
  ⟨by rw [(denied_start_only_reports blueSession MediaResult.denied (by decide)).1],
   (denied_start_only_reports blueSession MediaResult.denied (by decide)).2.1⟩

/-- C10 fails on the code: in the sample session, a first answer submitted while its
capture is recording leaves `recording` true and the recorder in state `recording` on the
second question; submitted while the capture is paused, it leaves `recording` true and the
recorder in state `paused`, with the `paused` flag reset. -/
theorem submit_leaves_capture_running :
    (run (mount true) recordingSubmitRun).step = 1 ∧
    (run (mount true) recordingSubmitRun).recording = true ∧
    (run (mount true) recordingSubmitRun).mediaRecorderRef =
      some { stream := 0, state := RecorderState.recording } ∧
    (run (mount true) pausedSubmitRun).step
      = 1 ∧
    (run (mount true) pausedSubmitRun).recording = true ∧
    (run (mount true) pausedSubmitRun).paused = false ∧
    (run (mount true) pausedSubmitRun).mediaRecorderRef =
      some { stream := 0, state := RecorderState.paused } := by
  decide

/-! ## The answer buffer -/

/-- C11: after every successful `saveAndNext` (an `Active(i)` state, a buffer that is
non-empty after trimming, a persistence call that succeeds) `answerText` is the empty string
and `canStart` is true, whatever the buffer and `canStart` were and whatever the status
update gives. -/
theorem submit_resets_buffer_and_canStart (s : State) (i : Nat) (updated : Except String Unit)
    (hA : Active s i) (hN : jsTrim s.answerText ≠ "") :
    (saveAndNext s (Except.ok ()) updated).answerText = "" ∧
    (saveAndNext s (Except.ok ()) updated).canStart = true := by
  obtain ⟨q, _, hq⟩ := hA.question
  obtain ⟨_, _, _, ⟨iv, ap, hi, ha⟩, _⟩ := hA.facts
  have ht := (truthyStr_iff_ne_empty _).mpr hN
  by_cases h : s.step + 1 < s.questions.length
  · rw [saveAndNext_next updated hq ht hi ha h]; exact ⟨rfl, rfl⟩
  · rw [saveAndNext_last updated hq ht hi ha h]; exact ⟨rfl, rfl⟩

/-- The reset at `spokenSession`, where a capture has set `canStart` to false. -/
theorem submit_resets_buffer_and_canStart_witness :
    spokenSession.canStart = false ∧
    (saveAndNext spokenSession (Except.ok ()) (Except.ok ())).answerText = "" ∧
    (saveAndNext spokenSession (Except.ok ()) (Except.ok ())).canStart = true :=
  ⟨by decide,
   submit_resets_buffer_and_canStart spokenSession 0 (Except.ok ()) (by decide) (by decide)⟩

theorem truthyStr_eq_false_iff (x : String) : truthyStr x = false ↔ x = "" := by
  cases x with
  | mk cs => cases cs <;> simp [truthyStr, String.ext_iff]

theorem truthyStr_empty : truthyStr "" = false := by
  decide

theorem whisperResolved_ok_answerText (s : State) (t : String) :
    (whisperResolved s (Except.ok t)).answerText = appendSpec s.answerText t := by
  unfold whisperResolved appendSpec
  by_cases ht : t = ""
  · have h1 := (truthyStr_eq_false_iff t).mpr ht
    simp [h1, ht, truthyStr_empty]
  · have h1 := (truthyStr_iff_ne_empty t).mpr ht
    by_cases hb : s.answerText = ""
    · have h2 := (truthyStr_eq_false_iff _).mpr hb
      simp [h1, ht, h2, hb, truthyStr_empty]
    · have h2 := (truthyStr_iff_ne_empty _).mpr hb
      simp [h1, ht, h2, hb, truthyStr_empty]

theorem rec_onresult_last (s : State) (before : List SpeechResult) (transcript : String)
    (others : List String) (fin : Bool) :
    rec_onresult s (before ++ [{ alternatives := transcript :: others, isFinal := fin }]) =
      if truthyStr (jsTrim transcript) then
        { s with answerText :=
            (if truthyStr s.answerText then s.answerText ++ " " else "") ++ jsTrim transcript }
      else s := by
  simp [rec_onresult]

theorem rec_onresult_answerText (s : State) (before : List SpeechResult) (transcript : String)
    (others : List String) (fin : Bool) :
    (rec_onresult s
        (before ++ [{ alternatives := transcript :: others, isFinal := fin }])).answerText =
      appendSpec s.answerText (jsTrim transcript) := by
  rw [rec_onresult_last]
  unfold appendSpec
  by_cases ht : jsTrim transcript = ""
  · have h1 := (truthyStr_eq_false_iff _).mpr ht
    simp [h1, ht, truthyStr_empty]
  · have h1 := (truthyStr_iff_ne_empty _).mpr ht
    by_cases hb : s.answerText = ""
    · have h2 := (truthyStr_eq_false_iff _).mpr hb
      simp [h1, ht, h2, hb, truthyStr_empty]
    · have h2 := (truthyStr_iff_ne_empty _).mpr hb
      simp [h1, ht, h2, hb, String.append_assoc]

/-- C16: the batch handler and the live handler apply the same additive append: for every
buffer `b` and arriving text `t` (for the live handler the trimmed transcript of the first
alternative of the latest result) the new buffer is `b` when `t` is empty, `t` when `b` is
empty and `b`, a space, `t` otherwise; in each case the new buffer starts with `b`. -/
theorem live_and_batch_append_alike (s : State) (t : String) (before : List SpeechResult)
    (transcript : String) (others : List String) (fin : Bool) :
    (whisperResolved s (Except.ok t)).answerText = appendSpec s.answerText t ∧
    (rec_onresult s
        (before ++ [{ alternatives := transcript :: others, isFinal := fin }])).answerText =
      appendSpec s.answerText (jsTrim transcript) ∧
    (∃ rest, appendSpec s.answerText t = s.answerText ++ rest) := by
  refine ⟨whisperResolved_ok_answerText s t, rec_onresult_answerText s before transcript others fin,
    ?_⟩
  unfold appendSpec
  by_cases ht : t = ""
  · exact ⟨"", by simp [ht]⟩
  · by_cases hb : s.answerText = ""
    · exact ⟨t, by simp [ht, hb]⟩
    · exact ⟨" " ++ t, by simp [ht, hb, String.append_assoc]⟩

/-- C17, as stated, fails: a recognition event whose only result is interim appends its
transcript to the buffer of the sample session, and the same interim event delivered a
second time appends it again. -/
theorem interim_result_is_appended :
    (interimHello.map (fun r => r.isFinal)) = [false] ∧
    (sampleSession [Q1]).answerText = "" ∧
    (rec_onresult (sampleSession [Q1]) interimHello).answerText = "hello" ∧
    (rec_onresult (rec_onresult (sampleSession [Q1]) interimHello) interimHello).answerText =
      "hello hello" := by
  decide

/-- C17 (amended): the live handler appends the latest result of every recognition event,
interim or final alike: the outcome does not depend on `isFinal`, and whenever the trimmed
transcript of the first alternative of the latest result is non-empty it is joined to the
buffer, so the text of a segment is appended each time an event reports it. -/
theorem live_result_appended_whether_final (s : State) (before : List SpeechResult)
    (transcript : String) (others : List String) (fin : Bool) (hT : jsTrim transcript ≠ "") :
    rec_onresult s (before ++ [{ alternatives := transcript :: others, isFinal := fin }]) =
      rec_onresult s (before ++ [{ alternatives := transcript :: others, isFinal := !fin }]) ∧
    (rec_onresult s
        (before ++ [{ alternatives := transcript :: others, isFinal := fin }])).answerText =
      (if s.answerText = "" then jsTrim transcript
       else s.answerText ++ " " ++ jsTrim transcript) := by
  refine ⟨by rw [rec_onresult_last, rec_onresult_last], ?_⟩
  rw [rec_onresult_answerText]
  simp [appendSpec, hT]

/-- An interim `hello` arriving on the buffer `spoken words`. -/
theorem live_result_appended_whether_final_witness :
    (rec_onresult spokenSession
        ([] ++ [{ alternatives := "hello" :: [], isFinal := false }])).answerText =
      "spoken words hello" :=
  (live_result_appended_whether_final spokenSession [] "hello" [] false (by decide)).2.trans
    (by decide)

theorem saveAndNext_none {s : State} (created updated : Except String Unit)
    (hq : questionAt s s.step = none) : saveAndNext s created updated = s := by
  simp [saveAndNext, hq]

theorem saveAndNext_null {s : State} {q : Question} (created updated : Except String Unit)
    (hq : questionAt s s.step = some q) (ht : truthyStr (jsTrim s.answerText) = true)
    (hn : s.interview = none ∨ s.applicant = none) :
    saveAndNext s created updated = { s with err := some nullReadMessage, saving := false } := by
  rcases hn with h | h
  · simp [saveAndNext, hq, ht, h]
  · cases hi : s.interview <;> simp [saveAndNext, hq, ht, h, hi]

/-- The count of pending transcriptions plays no part in `saveAndNext`. -/
theorem saveAndNext_pending (s : State) (n : Nat) (created updated : Except String Unit) :
    saveAndNext { s with pendingTranscriptions := n } created updated =
      { saveAndNext s created updated with pendingTranscriptions := n } := by
  generalize ht : ({ s with pendingTranscriptions := n } : State) = t
  have f1 : questionAt t t.step = questionAt s s.step := by rw [← ht]; rfl
  have f2 : t.answerText = s.answerText := by rw [← ht]
  have f3 : t.interview = s.interview := by rw [← ht]
  have f4 : t.applicant = s.applicant := by rw [← ht]
  have f5 : t.step = s.step := by rw [← ht]
  have f6 : t.questions = s.questions := by rw [← ht]
  cases hq : questionAt s s.step with
  | none => rw [saveAndNext_none _ _ (f1.trans hq), saveAndNext_none _ _ hq, ← ht]
  | some q =>
    have hq1 := f1.trans hq
    cases hb : truthyStr (jsTrim s.answerText) with
    | false =>
      rw [saveAndNext_blank _ _ hq1 (by rw [f2]; exact hb), saveAndNext_blank _ _ hq hb, ← ht]
    | true =>
      have hb1 : truthyStr (jsTrim t.answerText) = true := by rw [f2]; exact hb
      cases hi : s.interview with
      | none =>
        rw [saveAndNext_null _ _ hq1 hb1 (Or.inl (f3.trans hi)),
          saveAndNext_null _ _ hq hb (Or.inl hi), ← ht]
      | some iv =>
        cases ha : s.applicant with
        | none =>
          rw [saveAndNext_null _ _ hq1 hb1 (Or.inr (f4.trans ha)),
            saveAndNext_null _ _ hq hb (Or.inr ha), ← ht]
        | some ap =>
          have hi1 := f3.trans hi
          have ha1 := f4.trans ha
          cases created with
          | error e =>
            rw [saveAndNext_rejected e updated hq1 hb1 hi1 ha1,
              saveAndNext_rejected e updated hq hb hi ha, ← ht]
          | ok u =>
            cases u
            by_cases h : s.step + 1 < s.questions.length
            · rw [saveAndNext_next updated hq1 hb1 hi1 ha1 (by rw [f5, f6]; exact h),
                saveAndNext_next updated hq hb hi ha h, ← ht]
            · rw [saveAndNext_last updated hq1 hb1 hi1 ha1 (by rw [f5, f6]; exact h),
                saveAndNext_last updated hq hb hi ha h, ← ht]

/-- C18: for every buffer content, a batch transcription that rejects changes nothing but
the count of pending transcriptions: `answerText`, `err` and `step` are what they were, and
a later `saveAndNext` does what it would have done had no transcription been attempted. -/
theorem failed_transcription_is_silent (s : State) (m : String)
    (created updated : Except String Unit) :
    whisperResolved s (Except.error m) =
      { s with pendingTranscriptions := s.pendingTranscriptions - 1 } ∧
    (whisperResolved s (Except.error m)).answerText = s.answerText ∧
    (whisperResolved s (Except.error m)).err = s.err ∧
    (whisperResolved s (Except.error m)).step = s.step ∧
    view (whisperResolved s (Except.error m)) = view s ∧
    saveAndNext (whisperResolved s (Except.error m)) created updated =
      { saveAndNext s created updated with
          pendingTranscriptions := s.pendingTranscriptions - 1 } := by
  have e : whisperResolved s (Except.error m) =
      { s with pendingTranscriptions := s.pendingTranscriptions - 1 } := rfl
  rw [e]
  exact ⟨rfl, rfl, rfl, rfl, rfl, saveAndNext_pending s _ created updated⟩

/-- C19: for every buffer content and every typed value `v`, the manual edit sets
`answerText` to exactly `v`; when `v` is not made of whitespace only, the submit that follows
in an `Active(i)` state sends one request that creates an answer, a `POST` of
`applicant_answer` whose `answer` is `v` trimmed (followed on the last question of a
successful submit by the status update), whatever the buffer held before the edit. -/
theorem manual_edit_wins (s : State) (i : Nat) (v : String)
    (created updated : Except String Unit) (iv : Interview) (ap : Applicant) (q : Question)
    (hA : Active s i) (hV : jsTrim v ≠ "")
    (hi : s.interview = some iv) (ha : s.applicant = some ap) (hq : s.questions[i]? = some q) :
    (onChange s v).answerText = v ∧
    ((saveAndNext (onChange s v) created updated).sent =
        s.sent ++
          [{ path := "applicant_answer", method := Method.POST,
             body := [("interview_id", Prim.num iv.id), ("question_id", Prim.num q.id),
                      ("applicant_id", Prim.num ap.id), ("answer", Prim.str (jsTrim v))],
             params := [] }] ∨
     (saveAndNext (onChange s v) created updated).sent =
        s.sent ++
          [{ path := "applicant_answer", method := Method.POST,
             body := [("interview_id", Prim.num iv.id), ("question_id", Prim.num q.id),
                      ("applicant_id", Prim.num ap.id), ("answer", Prim.str (jsTrim v))],
             params := [] },
           { path := "applicant", method := Method.PATCH,
             body := [("interview_status", Prim.str "Completed")],
             params := [("id", "eq." ++ toString ap.id)] }]) := by
  obtain ⟨q2, hq2, hqa⟩ := hA.question
  have hqq : q2 = q := by rw [hq] at hq2; exact (Option.some.inj hq2).symm
  subst hqq
  have hqa2 : questionAt (onChange s v) (onChange s v).step = some q2 := hqa
  have ht : truthyStr (jsTrim (onChange s v).answerText) = true :=
    (truthyStr_iff_ne_empty _).mpr hV
  refine ⟨rfl, ?_⟩
  rcases saveAndNext_sent created updated hqa2 ht hi ha with h | h
  · left; rw [h]; rfl
  · right; rw [h]; rfl

/-- The buffer `spoken words` is replaced by the typed `red` between two spaces, and the
request that is sent carries `red` and nothing of `spoken words`. -/
theorem manual_edit_wins_witness :
    spokenSession.answerText = "spoken words" ∧
    (saveAndNext (onChange spokenSession " red ") (Except.ok ()) (Except.ok ())).sent =
      [{ path := "applicant_answer", method := Method.POST,
         body := [("interview_id", Prim.num 7), ("question_id", Prim.num 11),
                  ("applicant_id", Prim.num 3), ("answer", Prim.str "red")],
         params := [] }] :=
  ⟨by decide,
   ((manual_edit_wins spokenSession 0 " red " (Except.ok ()) (Except.ok ()) ⟨7⟩ ⟨3⟩ Q1
      (by decide) (by decide) rfl rfl rfl).2).resolve_right (by decide)⟩

/-- C20: `pauseResume` does nothing without a recorder or with an inactive one, pauses a
recording recorder and resumes a paused one; the only fields it can change are the state of
the recorder and the `paused` flag: the stream handle, its tracks, `step`, `answerText`,
`canStart` and the recognizer are left as they were. -/
theorem pause_resume_only_toggles (s : State) :
    (s.mediaRecorderRef = none → pauseResume s = s) ∧
    (∀ mr, s.mediaRecorderRef = some mr → mr.state = RecorderState.inactive →
      pauseResume s = s) ∧
    (∀ mr, s.mediaRecorderRef = some mr → mr.state = RecorderState.recording →
      pauseResume s =
        { s with mediaRecorderRef := some { mr with state := RecorderState.paused },
                 paused := true }) ∧
    (∀ mr, s.mediaRecorderRef = some mr → mr.state = RecorderState.paused →
      pauseResume s =
        { s with mediaRecorderRef := some { mr with state := RecorderState.recording },
                 paused := false }) ∧
    (pauseResume s).mediaStreamRef = s.mediaStreamRef ∧
    (pauseResume s).tracksLive = s.tracksLive ∧
    (pauseResume s).step = s.step ∧
    (pauseResume s).answerText = s.answerText ∧
    (pauseResume s).canStart = s.canStart ∧
    (pauseResume s).recRef = s.recRef ∧
    (pauseResume s).recognizers = s.recognizers := by
  refine ⟨?_, ?_, ?_, ?_, ?_⟩
  · intro h; simp [pauseResume, h]
  · intro mr h hm; simp [pauseResume, h, hm]
  · intro mr h hm; simp [pauseResume, h, hm, mr_onpause]
  · intro mr h hm; simp [pauseResume, h, hm, mr_onresume]
  · unfold pauseResume
    cases s.mediaRecorderRef with
    | none => exact ⟨rfl, rfl, rfl, rfl, rfl, rfl, rfl⟩
    | some mr => cases hm : mr.state <;> simp [hm, mr_onpause, mr_onresume]

/-! ## Refs, flags and the browser agree in every reachable state -/

theorem SameCapture.refsConsistent {t s : State} (h : SameCapture t s)
    (hs : RefsConsistent s) : RefsConsistent t := by
  obtain ⟨e1, e2, e3, e4, e5, e6⟩ := h
  unfold RefsConsistent at *
  rw [e1, e2, e3, e4, e5, e6]
  exact hs

theorem load_sameCapture (s : State) (r : LoadResult) : SameCapture (load s r) s := by
  unfold load
  cases r with
  | rejected m => exact ⟨rfl, rfl, rfl, rfl, rfl, rfl⟩
  | resolved i a qs => cases i <;> cases a <;> exact ⟨rfl, rfl, rfl, rfl, rfl, rfl⟩

theorem saveAndNext_sameCapture (s : State) (created updated : Except String Unit) :
    SameCapture (saveAndNext s created updated) s := by
  cases hq : questionAt s s.step with
  | none => rw [saveAndNext_none _ _ hq]; exact ⟨rfl, rfl, rfl, rfl, rfl, rfl⟩
  | some q =>
    cases hb : truthyStr (jsTrim s.answerText) with
    | false => rw [saveAndNext_blank _ _ hq hb]; exact ⟨rfl, rfl, rfl, rfl, rfl, rfl⟩
    | true =>
      cases hi : s.interview with
      | none =>
        rw [saveAndNext_null _ _ hq hb (Or.inl hi)]; exact ⟨rfl, rfl, rfl, rfl, rfl, rfl⟩
      | some iv =>
        cases ha : s.applicant with
        | none =>
          rw [saveAndNext_null _ _ hq hb (Or.inr ha)]; exact ⟨rfl, rfl, rfl, rfl, rfl, rfl⟩
        | some ap =>
          cases created with
          | error e =>
            rw [saveAndNext_rejected e updated hq hb hi ha]
            exact ⟨rfl, rfl, rfl, rfl, rfl, rfl⟩
          | ok u =>
            cases u
            by_cases h : s.step + 1 < s.questions.length
            · rw [saveAndNext_next updated hq hb hi ha h]
              exact ⟨rfl, rfl, rfl, rfl, rfl, rfl⟩
            · rw [saveAndNext_last updated hq hb hi ha h]
              exact ⟨rfl, rfl, rfl, rfl, rfl, rfl⟩

theorem rec_onresult_sameCapture (s : State) (results : List SpeechResult) :
    SameCapture (rec_onresult s results) s := by
  unfold rec_onresult
  split
  · exact ⟨rfl, rfl, rfl, rfl, rfl, rfl⟩
  · split
    · exact ⟨rfl, rfl, rfl, rfl, rfl, rfl⟩
    · simp only []; split <;> exact ⟨rfl, rfl, rfl, rfl, rfl, rfl⟩

theorem whisperResolved_sameCapture (s : State) (r : Except String String) :
    SameCapture (whisperResolved s r) s := by
  unfold whisperResolved
  cases r with
  | error m => exact ⟨rfl, rfl, rfl, rfl, rfl, rfl⟩
  | ok t => simp only []; split <;> exact ⟨rfl, rfl, rfl, rfl, rfl, rfl⟩

/-- What a granted `startRecording` gives when `canStart` is true. -/
theorem startRecording_granted {s : State} (h : s.canStart = true) :
    startRecording s MediaResult.granted =
      { s with
          err := none, deviceRequests := s.deviceRequests + 1,
          tracksLive := s.tracksLive ++ [true],
          mediaStreamRef := some s.tracksLive.length,
          mediaRecorderRef :=
            some { stream := s.tracksLive.length, state := RecorderState.recording },
          recording := true, canPause := true, canStart := false,
          recognizers := if s.speechRec then s.recognizers ++ [true] else s.recognizers,
          recRef := if s.speechRec then some s.recognizers.length else s.recRef } := by
  unfold startRecording
  cases hs : s.speechRec <;> simp [h, mr_onstart, hs]

theorem getElem?_append_true (l : List Bool) (k : Nat) (h : l[k]? = some true) :
    (l ++ [true])[k]? = some true := by
  have hk : k < l.length := by
    by_contra hc
    rw [List.getElem?_eq_none (by omega)] at h
    cases h
  rw [List.getElem?_append_left hk]
  exact h

theorem run_append (s : State) (a b : List Event) : run s (a ++ b) = run (run s a) b := by
  simp [run, List.foldl_append]

theorem pauseResume_tracksLive (s : State) : (pauseResume s).tracksLive = s.tracksLive := by
  unfold pauseResume
  cases s.mediaRecorderRef with
  | none => rfl
  | some mr => cases hm : mr.state <;> simp [hm, mr_onpause, mr_onresume]

theorem startRecording_keeps_track_live (s : State) (media : MediaResult) (k : Nat)
    (h : s.tracksLive[k]? = some true) :
    (startRecording s media).tracksLive[k]? = some true := by
  cases hc : s.canStart with
  | false => rw [startRecording_blocked media hc]; exact h
  | true =>
    cases media with
    | denied =>
      have e : (startRecording s MediaResult.denied).tracksLive = s.tracksLive := by
        simp [startRecording, hc]
      rw [e]; exact h
    | granted =>
      rw [startRecording_granted hc]
      exact getElem?_append_true _ _ h

/-- The tracks of a live stream stay live under every event but the click on the stop
control: `stopRecording` is the only handler that stops tracks. -/
theorem dispatch_keeps_track_live (s : State) (e : Event) (k : Nat)
    (h : s.tracksLive[k]? = some true) (he : e ≠ Event.clickStop) :
    (dispatch s e).tracksLive[k]? = some true := by
  cases e with
  | loaded r =>
    simp only [dispatch]; split
    · rw [(load_sameCapture s r).2.2.2.2.1]; exact h
    · exact h
  | clickStart => simp only [dispatch]; split <;> exact h
  | clickStartRecording media =>
    simp only [dispatch]; split
    · exact startRecording_keeps_track_live s media k h
    · exact h
  | clickPauseResume =>
    simp only [dispatch]; split
    · rw [pauseResume_tracksLive]; exact h
    · exact h
  | clickStop => exact absurd rfl he
  | change v => simp only [dispatch]; split <;> exact h
  | clickNext created updated =>
    simp only [dispatch]; split
    · rw [(saveAndNext_sameCapture s created updated).2.2.2.2.1]; exact h
    · exact h
  | speech results =>
    simp only [dispatch]; split
    · rw [(rec_onresult_sameCapture s results).2.2.2.2.1]; exact h
    · exact h
  | whisper r =>
    simp only [dispatch]; split
    · rw [(whisperResolved_sameCapture s r).2.2.2.2.1]; exact h
    · exact h

theorem run_keeps_track_live (events : List Event) (s : State) (k : Nat)
    (h : s.tracksLive[k]? = some true) (he : Event.clickStop ∉ events) :
    (run s events).tracksLive[k]? = some true := by
  induction events generalizing s with
  | nil => exact h
  | cons e es ih =>
    have h1 : e ≠ Event.clickStop := fun hc => he (by rw [hc]; exact List.mem_cons_self _ _)
    have h2 : Event.clickStop ∉ es := fun hc => he (List.mem_cons_of_mem _ hc)
    exact ih (dispatch s e) (dispatch_keeps_track_live s e k h h1) h2

theorem startRecording_refsConsistent (s : State) (media : MediaResult)
    (hs : RefsConsistent s) : RefsConsistent (startRecording s media) := by
  cases hc : s.canStart with
  | false => rw [startRecording_blocked media hc]; exact hs
  | true =>
    cases media with
    | denied =>
      have e : startRecording s MediaResult.denied =
          { s with err := some micMessage, deviceRequests := s.deviceRequests + 1 } := by
        simp [startRecording, hc]
      rw [e]
      exact SameCapture.refsConsistent ⟨rfl, rfl, rfl, rfl, rfl, rfl⟩ hs
    | granted =>
      rw [startRecording_granted hc]
      obtain ⟨_, _, h3⟩ := hs
      refine ⟨?_, ?_, ?_⟩
      · intro mr hmr _
        have hmr2 : mr = { stream := s.tracksLive.length, state := RecorderState.recording } :=
          (Option.some.inj hmr).symm
        subst hmr2
        exact ⟨rfl, rfl, by simp⟩
      · intro hrec
        have hrec2 : (true : Bool) = false := hrec
        cases hrec2
      · intro r hr
        cases hsp : s.speechRec with
        | false =>
          have hr2 : s.recRef = some r := by simpa [hsp] using hr
          simpa [hsp] using h3 r hr2
        | true =>
          have hr2 : s.recognizers.length = r := by simpa [hsp] using hr
          subst hr2
          simp [hsp]

theorem pauseResume_none {s : State} (h : s.mediaRecorderRef = none) : pauseResume s = s := by
  simp [pauseResume, h]

theorem pauseResume_inactive {s : State} {mr : MediaRecorder} (h : s.mediaRecorderRef = some mr)
    (hm : mr.state = RecorderState.inactive) : pauseResume s = s := by
  simp [pauseResume, h, hm]

theorem pauseResume_recording {s : State} {mr : MediaRecorder}
    (h : s.mediaRecorderRef = some mr) (hm : mr.state = RecorderState.recording) :
    pauseResume s =
      { s with mediaRecorderRef := some { mr with state := RecorderState.paused },
               paused := true } := by
  simp [pauseResume, h, hm, mr_onpause]

theorem pauseResume_paused {s : State} {mr : MediaRecorder}
    (h : s.mediaRecorderRef = some mr) (hm : mr.state = RecorderState.paused) :
    pauseResume s =
      { s with mediaRecorderRef := some { mr with state := RecorderState.recording },
               paused := false } := by
  simp [pauseResume, h, hm, mr_onresume]

theorem pauseResume_refsConsistent (s : State) (hs : RefsConsistent s) :
    RefsConsistent (pauseResume s) := by
  cases hm : s.mediaRecorderRef with
  | none => rw [pauseResume_none hm]; exact hs
  | some mr =>
    cases hst : mr.state with
    | inactive => rw [pauseResume_inactive hm hst]; exact hs
    | recording =>
      rw [pauseResume_recording hm hst]
      obtain ⟨h1, _, h3⟩ := hs
      obtain ⟨a1, a2, a3⟩ := h1 mr hm (by rw [hst]; decide)
      refine ⟨?_, ?_, h3⟩
      · intro mr2 hmr2 _
        have e : mr2 = { mr with state := RecorderState.paused } := (Option.some.inj hmr2).symm
        subst e
        exact ⟨a1, a2, a3⟩
      · intro hrec
        have hrec2 : s.recording = false := hrec
        rw [a1] at hrec2
        cases hrec2
    | paused =>
      rw [pauseResume_paused hm hst]
      obtain ⟨h1, _, h3⟩ := hs
      obtain ⟨a1, a2, a3⟩ := h1 mr hm (by rw [hst]; decide)
      refine ⟨?_, ?_, h3⟩
      · intro mr2 hmr2 _
        have e : mr2 = { mr with state := RecorderState.recording } :=
          (Option.some.inj hmr2).symm
        subst e
        exact ⟨a1, a2, a3⟩
      · intro hrec
        have hrec2 : s.recording = false := hrec
        rw [a1] at hrec2
        cases hrec2

theorem stopRecognizer_fields (s : State) :
    (stopRecognizer s).recRef = none ∧
    (stopRecognizer s).recognizers =
      (match s.recRef with
       | some r => s.recognizers.set r false
       | none => s.recognizers) ∧
    (stopRecognizer s).mediaRecorderRef = s.mediaRecorderRef ∧
    (stopRecognizer s).mediaStreamRef = s.mediaStreamRef ∧
    (stopRecognizer s).tracksLive = s.tracksLive := by
  unfold stopRecognizer
  cases h : s.recRef <;> simp [h]

theorem stopRecorder_inactive {s : State}
    (h : ∀ mr, s.mediaRecorderRef = some mr → mr.state = RecorderState.inactive) :
    stopRecorder s = s := by
  unfold stopRecorder
  cases hm : s.mediaRecorderRef with
  | none => rfl
  | some mr => simp [h mr hm]

theorem stopRecorder_active {s : State} {mr : MediaRecorder}
    (h : s.mediaRecorderRef = some mr) (hm : mr.state ≠ RecorderState.inactive) :
    stopRecorder s =
      { s with mediaRecorderRef := some { mr with state := RecorderState.inactive },
               recording := false, paused := false, canPause := false,
               pendingTranscriptions := s.pendingTranscriptions + 1 } := by
  simp [stopRecorder, h, hm, mr_onstop]

theorem stopRecorder_fields (s : State) :
    (stopRecorder s).recRef = s.recRef ∧
    (stopRecorder s).recognizers = s.recognizers ∧
    (stopRecorder s).mediaStreamRef = s.mediaStreamRef ∧
    (stopRecorder s).tracksLive = s.tracksLive ∧
    (∀ mr, (stopRecorder s).mediaRecorderRef = some mr → mr.state = RecorderState.inactive) := by
  by_cases h : ∀ mr, s.mediaRecorderRef = some mr → mr.state = RecorderState.inactive
  · rw [stopRecorder_inactive h]; exact ⟨rfl, rfl, rfl, rfl, h⟩
  · push_neg at h
    obtain ⟨mr, hmr, hne⟩ := h
    rw [stopRecorder_active hmr hne]
    refine ⟨rfl, rfl, rfl, rfl, ?_⟩
    intro mr2 h2
    have e : mr2 = { mr with state := RecorderState.inactive } := (Option.some.inj h2).symm
    rw [e]

theorem releaseStream_fields (s : State) :
    (releaseStream s).mediaStreamRef = none ∧
    (releaseStream s).tracksLive =
      (match s.mediaStreamRef with
       | some st => s.tracksLive.set st false
       | none => s.tracksLive) ∧
    (releaseStream s).recRef = s.recRef ∧
    (releaseStream s).recognizers = s.recognizers ∧
    (releaseStream s).mediaRecorderRef = s.mediaRecorderRef ∧
    (releaseStream s).recording = s.recording ∧
    (releaseStream s).paused = s.paused ∧
    (releaseStream s).canPause = s.canPause := by
  unfold releaseStream
  cases h : s.mediaStreamRef <;> simp [h]

theorem stopRecording_fields (s : State) :
    (stopRecording s).mediaStreamRef = none ∧ (stopRecording s).recRef = none ∧
    (stopRecording s).tracksLive =
      (match s.mediaStreamRef with
       | some st => s.tracksLive.set st false
       | none => s.tracksLive) ∧
    (stopRecording s).recognizers =
      (match s.recRef with
       | some r => s.recognizers.set r false
       | none => s.recognizers) ∧
    (∀ mr, (stopRecording s).mediaRecorderRef = some mr → mr.state = RecorderState.inactive) := by
  obtain ⟨a1, a2, _, a4, a5⟩ := stopRecognizer_fields s
  obtain ⟨b1, b2, b3, b4, b5⟩ := stopRecorder_fields (stopRecognizer s)
  obtain ⟨c1, c2, c3, c4, c5, _⟩ := releaseStream_fields (stopRecorder (stopRecognizer s))
  unfold stopRecording
  refine ⟨c1, by rw [c3, b1, a1], by rw [c2, b3, b4, a4, a5], by rw [c4, b2, a2], ?_⟩
  rw [c5]
  exact b5

theorem stopRecording_active {s : State} {mr : MediaRecorder}
    (h : s.mediaRecorderRef = some mr) (hm : mr.state ≠ RecorderState.inactive) :
    (stopRecording s).mediaRecorderRef = some { mr with state := RecorderState.inactive } ∧
    (stopRecording s).recording = false ∧ (stopRecording s).paused = false ∧
    (stopRecording s).canPause = false := by
  obtain ⟨_, _, a3, _, _⟩ := stopRecognizer_fields s
  obtain ⟨_, _, _, _, c5, c6, c7, c8⟩ := releaseStream_fields (stopRecorder (stopRecognizer s))
  unfold stopRecording
  rw [c5, c6, c7, c8, stopRecorder_active (a3.trans h) hm]
  exact ⟨rfl, rfl, rfl, rfl⟩

theorem stopRecording_idle {s : State} (h1 : s.recRef = none) (h3 : s.mediaStreamRef = none)
    (h2 : ∀ mr, s.mediaRecorderRef = some mr → mr.state = RecorderState.inactive) :
    stopRecording s = s := by
  have e1 : stopRecognizer s = s := by simp [stopRecognizer, h1]
  have e3 : releaseStream s = s := by simp [releaseStream, h3]
  unfold stopRecording
  rw [e1, stopRecorder_inactive h2, e3]

theorem stopRecording_twice (s : State) : stopRecording (stopRecording s) = stopRecording s := by
  obtain ⟨a, b, _, _, c⟩ := stopRecording_fields s
  exact stopRecording_idle b a c

theorem stopRecording_refsConsistent (s : State) : RefsConsistent (stopRecording s) := by
  obtain ⟨a, b, _, _, c⟩ := stopRecording_fields s
  refine ⟨?_, ?_, ?_⟩
  · intro mr hmr hne
    exact absurd (c mr hmr) hne
  · intro _
    exact ⟨a, b, c⟩
  · intro r hr
    rw [b] at hr
    cases hr

theorem mount_refsConsistent (b : Bool) : RefsConsistent (mount b) := by
  refine ⟨?_, ?_, ?_⟩
  · intro mr hmr; cases hmr
  · intro _; exact ⟨rfl, rfl, fun mr hmr => by cases hmr⟩
  · intro r hr; cases hr

theorem dispatch_refsConsistent (s : State) (e : Event) (hs : RefsConsistent s) :
    RefsConsistent (dispatch s e) := by
  cases e with
  | loaded r =>
    simp only [dispatch]; split
    · exact (load_sameCapture s r).refsConsistent hs
    · exact hs
  | clickStart =>
    simp only [dispatch]; split
    · exact SameCapture.refsConsistent ⟨rfl, rfl, rfl, rfl, rfl, rfl⟩ hs
    · exact hs
  | clickStartRecording media =>
    simp only [dispatch]; split
    · exact startRecording_refsConsistent s media hs
    · exact hs
  | clickPauseResume =>
    simp only [dispatch]; split
    · exact pauseResume_refsConsistent s hs
    · exact hs
  | clickStop =>
    simp only [dispatch]; split
    · exact stopRecording_refsConsistent s
    · exact hs
  | change v =>
    simp only [dispatch]; split
    · exact SameCapture.refsConsistent ⟨rfl, rfl, rfl, rfl, rfl, rfl⟩ hs
    · exact hs
  | clickNext created updated =>
    simp only [dispatch]; split
    · exact (saveAndNext_sameCapture s created updated).refsConsistent hs
    · exact hs
  | speech results =>
    simp only [dispatch]; split
    · exact (rec_onresult_sameCapture s results).refsConsistent hs
    · exact hs
  | whisper r =>
    simp only [dispatch]; split
    · exact (whisperResolved_sameCapture s r).refsConsistent hs
    · exact hs

theorem run_refsConsistent (events : List Event) :
    ∀ s : State, RefsConsistent s → RefsConsistent (run s events) := by
  induction events with
  | nil => intro s hs; exact hs
  | cons e rest ih => intro s hs; exact ih (dispatch s e) (dispatch_refsConsistent s e hs)

theorem reachable_refsConsistent (b : Bool) (events : List Event) :
    RefsConsistent (run (mount b) events) :=
  run_refsConsistent events (mount b) (mount_refsConsistent b)

/-! ## Stopping a capture -/

theorem trackStopCalls_idle (n : Nat) :
    ∀ u : State, u.mediaStreamRef = none → trackStopCalls u n = 0 := by
  induction n with
  | zero => intro u _; rfl
  | succ k ih =>
    intro u hu
    obtain ⟨_, _, _, a4, _⟩ := stopRecognizer_fields u
    obtain ⟨_, _, b3, _, _⟩ := stopRecorder_fields (stopRecognizer u)
    have h1 : (stopRecorder (stopRecognizer u)).mediaStreamRef = none := by rw [b3, a4, hu]
    have h2 := ih (stopRecording u) (stopRecording_fields u).1
    simp [trackStopCalls, h1, h2]

theorem stopRecording_iterate (n : Nat) (s : State) :
    stopRecording^[n + 1] s = stopRecording s := by
  induction n with
  | zero => rfl
  | succ k ih => rw [Function.iterate_succ_apply', ih, stopRecording_twice]

/-- C12: `stopRecording` is idempotent.  In every reachable state in which no capture is
running (`recording` is false; in particular right after mounting) it changes nothing; in
every state two calls give what one call gives; and after a successful `startRecording`
any number `n + 1` of successive calls gives what the first call gives: the tracks of the
acquired stream, live before, are stopped, and exactly one of the calls stops tracks. -/
theorem stop_is_idempotent (s t : State) (b : Bool) (events : List Event) (n : Nat)
    (hIdle : (run (mount b) events).recording = false) (hT : t.canStart = true) :
    stopRecording (run (mount b) events) = run (mount b) events ∧
    stopRecording (mount b) = mount b ∧
    stopRecording (stopRecording s) = stopRecording s ∧
    stopRecording^[n + 1] (startRecording t MediaResult.granted) =
      stopRecording (startRecording t MediaResult.granted) ∧
    (startRecording t MediaResult.granted).tracksLive[t.tracksLive.length]? = some true ∧
    (stopRecording^[n + 1]
      (startRecording t MediaResult.granted)).tracksLive[t.tracksLive.length]? = some false ∧
    trackStopCalls (startRecording t MediaResult.granted) (n + 1) = 1 := by
  obtain ⟨_, h2, _⟩ := reachable_refsConsistent b events
  obtain ⟨i1, i2, i3⟩ := h2 hIdle
  have hst : (startRecording t MediaResult.granted).mediaStreamRef = some t.tracksLive.length := by
    rw [startRecording_granted hT]
  have htl : (startRecording t MediaResult.granted).tracksLive = t.tracksLive ++ [true] := by
    rw [startRecording_granted hT]
  obtain ⟨f1, _, f3, _, _⟩ := stopRecording_fields (startRecording t MediaResult.granted)
  refine ⟨stopRecording_idle i2 i1 i3, rfl, stopRecording_twice s, stopRecording_iterate n _,
    by rw [htl]; simp, ?_, ?_⟩
  · rw [stopRecording_iterate, f3, hst, htl]
    simp
  · obtain ⟨_, _, _, a4, _⟩ := stopRecognizer_fields (startRecording t MediaResult.granted)
    obtain ⟨_, _, b3, _, _⟩ :=
      stopRecorder_fields (stopRecognizer (startRecording t MediaResult.granted))
    have h1 : (stopRecorder (stopRecognizer
        (startRecording t MediaResult.granted))).mediaStreamRef = some t.tracksLive.length := by
      rw [b3, a4, hst]
    have h0 := trackStopCalls_idle n (stopRecording (startRecording t MediaResult.granted)) f1
    simp [trackStopCalls, h1, h0]

/-- Three stops after the start at `blueSession` release stream 0 once; a stop after the
stop that ends `captureRun` changes nothing. -/
theorem stop_is_idempotent_witness :
    (run (mount true) (captureRun ++ [Event.clickStop])).recording = false ∧
    stopRecording (run (mount true) (captureRun ++ [Event.clickStop])) =
      run (mount true) (captureRun ++ [Event.clickStop]) ∧
    (stopRecording^[3] (startRecording blueSession MediaResult.granted)).tracksLive[0]? =
      some false ∧
    trackStopCalls (startRecording blueSession MediaResult.granted) 3 = 1 :=
  ⟨by decide,
   (stop_is_idempotent blueSession blueSession true (captureRun ++ [Event.clickStop]) 2
      (by decide) (by decide)).1,
   (stop_is_idempotent blueSession blueSession true (captureRun ++ [Event.clickStop]) 2
      (by decide) (by decide)).2.2.2.2.2.1,
   (stop_is_idempotent blueSession blueSession true (captureRun ++ [Event.clickStop]) 2
      (by decide) (by decide)).2.2.2.2.2.2⟩

/-- C13: in every reachable state whose recorder is recording or paused, `stopRecording`
stops the recorder, stops the tracks of the stream the recorder was built on, which is the
stream held in `mediaStreamRef`, and clears that ref, stops the recognizer held in `recRef`
(if any) and clears that ref, and leaves `recording`, `paused` and `canPause` false. -/
theorem stop_releases_capture (b : Bool) (events : List Event) (mr : MediaRecorder)
    (hR : (run (mount b) events).mediaRecorderRef = some mr)
    (hA : mr.state = RecorderState.recording ∨ mr.state = RecorderState.paused) :
    (stopRecording (run (mount b) events)).mediaRecorderRef =
      some { mr with state := RecorderState.inactive } ∧
    (run (mount b) events).mediaStreamRef = some mr.stream ∧
    (run (mount b) events).tracksLive[mr.stream]? = some true ∧
    (stopRecording (run (mount b) events)).tracksLive[mr.stream]? = some false ∧
    (stopRecording (run (mount b) events)).mediaStreamRef = none ∧
    (∀ r, (run (mount b) events).recRef = some r →
      (run (mount b) events).recognizers[r]? = some true ∧
      (stopRecording (run (mount b) events)).recognizers[r]? = some false) ∧
    (stopRecording (run (mount b) events)).recRef = none ∧
    (stopRecording (run (mount b) events)).recording = false ∧
    (stopRecording (run (mount b) events)).paused = false ∧
    (stopRecording (run (mount b) events)).canPause = false := by
  have hne : mr.state ≠ RecorderState.inactive := by
    rcases hA with h | h <;> rw [h] <;> decide
  obtain ⟨h1, _, h3⟩ := reachable_refsConsistent b events
  obtain ⟨_, a2, a3⟩ := h1 mr hR hne
  obtain ⟨f1, f2, f3, f4, _⟩ := stopRecording_fields (run (mount b) events)
  obtain ⟨g1, g2, g3, g4⟩ := stopRecording_active hR hne
  have hlt : mr.stream < (run (mount b) events).tracksLive.length := by
    by_contra hc
    rw [List.getElem?_eq_none (by omega)] at a3
    cases a3
  refine ⟨g1, a2, a3, ?_, f1, ?_, f2, g2, g3, g4⟩
  · rw [f3, a2]
    simp [hlt]
  · intro r hr
    have hr1 := h3 r hr
    have hlt2 : r < (run (mount b) events).recognizers.length := by
      by_contra hc
      rw [List.getElem?_eq_none (by omega)] at hr1
      cases hr1
    refine ⟨hr1, ?_⟩
    rw [f4, hr]
    simp [hlt2]

/-- The stop after `captureRun`: recorder 0 becomes inactive and stream 0 is released. -/
theorem stop_releases_capture_witness :
    (stopRecording (run (mount true) captureRun)).mediaRecorderRef =
      some { stream := 0, state := RecorderState.inactive } ∧
    (stopRecording (run (mount true) captureRun)).tracksLive[0]? = some false :=
  ⟨(stop_releases_capture true captureRun { stream := 0, state := RecorderState.recording }
      (by decide) (by decide)).1,
   (stop_releases_capture true captureRun { stream := 0, state := RecorderState.recording }
      (by decide) (by decide)).2.2.2.1⟩

/-! ## Teardown -/

/-- C14, as stated, fails: torn down after `captureRun`, while the capture of the first
question is recording, the component leaves stream 0 live, recorder 0 recording and
recognizer 0 running, where `stopRecording` would have released all three. -/
theorem teardown_leaves_capture_running :
    (run (mount true) captureRun).recording = true ∧
    (unmount (run (mount true) captureRun)).tracksLive = [true] ∧
    (unmount (run (mount true) captureRun)).recognizers = [true] ∧
    (unmount (run (mount true) captureRun)).mediaRecorderRef =
      some { stream := 0, state := RecorderState.recording } ∧
    (stopRecording (run (mount true) captureRun)).tracksLive = [false] ∧
    (stopRecording (run (mount true) captureRun)).recognizers = [false] := by
  decide

/-- C14 (amended): the component registers no teardown handler, so tearing it down runs no
release path: in every reachable state whose recorder is recording or paused, teardown
changes nothing, and after it the tracks of the stream of the capture are still live, the
recorder is still in its state and the recognizer held in `recRef`, if any, is still running.
Whatever events follow before the teardown, as long as none of them is the click on the stop
control, the tracks of that stream are live after the teardown; when `stopRecording` is called
before the teardown, the tracks are stopped and the recognizer is stopped after it. -/
theorem teardown_runs_no_release (b : Bool) (events : List Event) (mr : MediaRecorder)
    (hR : (run (mount b) events).mediaRecorderRef = some mr)
    (hA : mr.state = RecorderState.recording ∨ mr.state = RecorderState.paused) :
    unmount (run (mount b) events) = run (mount b) events ∧
    (unmount (run (mount b) events)).tracksLive[mr.stream]? = some true ∧
    (unmount (run (mount b) events)).mediaRecorderRef = some mr ∧
    (∀ r, (run (mount b) events).recRef = some r →
      (unmount (run (mount b) events)).recognizers[r]? = some true) ∧
    (∀ more : List Event, Event.clickStop ∉ more →
      (unmount (run (mount b) (events ++ more))).tracksLive[mr.stream]? = some true) ∧
    (unmount (stopRecording (run (mount b) events))).tracksLive[mr.stream]? = some false ∧
    (unmount (stopRecording (run (mount b) events))).mediaStreamRef = none ∧
    (∀ r, (run (mount b) events).recRef = some r →
      (unmount (stopRecording (run (mount b) events))).recognizers[r]? = some false) := by
  have hne : mr.state ≠ RecorderState.inactive := by
    rcases hA with h | h <;> rw [h] <;> decide
  obtain ⟨h1, _, h3⟩ := reachable_refsConsistent b events
  obtain ⟨_, a2, a3⟩ := h1 mr hR hne
  obtain ⟨f1, _, f3, f4, _⟩ := stopRecording_fields (run (mount b) events)
  have hlt : mr.stream < (run (mount b) events).tracksLive.length := by
    by_contra hc
    rw [List.getElem?_eq_none (by omega)] at a3
    cases a3
  have e : ∀ t : State, unmount t = t := fun _ => rfl
  simp only [e]
  refine ⟨trivial, a3, hR, h3, ?_, ?_, f1, ?_⟩
  · intro more hmore
    rw [run_append]
    exact run_keeps_track_live more _ _ a3 hmore
  · rw [f3, a2]
    simp [hlt]
  · intro r hr
    have hr1 := h3 r hr
    have hlt2 : r < (run (mount b) events).recognizers.length := by
      by_contra hc
      rw [List.getElem?_eq_none (by omega)] at hr1
      cases hr1
    rw [f4, hr]
    simp [hlt2]

/-- Teardown after `captureRun` followed by a pause: stream 0 stays live, also when an answer
is typed and submitted before the teardown; after a stop before the teardown it is
released. -/
theorem teardown_runs_no_release_witness :
    (unmount (run (mount true) (captureRun ++ [Event.clickPauseResume]))).tracksLive[0]? =
      some true ∧
    (unmount (run (mount true) ((captureRun ++ [Event.clickPauseResume]) ++
      [Event.change "typed", Event.clickNext (Except.ok ()) (Except.ok ())]))).tracksLive[0]? =
      some true ∧
    (unmount (stopRecording
      (run (mount true) (captureRun ++ [Event.clickPauseResume])))).tracksLive[0]? =
      some false :=
  ⟨(teardown_runs_no_release true (captureRun ++ [Event.clickPauseResume])
      { stream := 0, state := RecorderState.paused } (by decide) (by decide)).2.1,
   (teardown_runs_no_release true (captureRun ++ [Event.clickPauseResume])
      { stream := 0, state := RecorderState.paused } (by decide) (by decide)).2.2.2.2.1
      [Event.change "typed", Event.clickNext (Except.ok ()) (Except.ok ())]
      (by simp),
   (teardown_runs_no_release true (captureRun ++ [Event.clickPauseResume])
      { stream := 0, state := RecorderState.paused } (by decide) (by decide)).2.2.2.2.2.1⟩

/-! ## Text arriving after the question has changed -/

/-- C15 fails on the code: after `stoppedSubmitRun` the second question is current with an
empty buffer and the transcription of the first capture is still pending; when it settles
with `blue` the buffer of the second question becomes `blue`.  Likewise, after an answer
submitted while its capture is recording, a result of the recognizer started for the first
question lands in the buffer of the second. -/
theorem late_text_lands_in_next_question :
    (run (mount true) stoppedSubmitRun).step = 1 ∧
    (run (mount true) stoppedSubmitRun).answerText = "" ∧
    (run (mount true) stoppedSubmitRun).pendingTranscriptions = 1 ∧
    (run (mount true) lateBatchRun).step = 1 ∧
    (run (mount true) lateBatchRun).answerText = "blue" ∧
    (run (mount true) recordingSubmitRun).step = 1 ∧
    (run (mount true) recordingSubmitRun).answerText = "" ∧
    (run (mount true) lateSpeechRun).step = 1 ∧
    (run (mount true) lateSpeechRun).answerText = "green" := by
  decide

/-! ## Progress of the session in every reachable state -/

theorem SameSession.sessionInv {t s : State} (h : SameSession t s) (hs : SessionInv s) :
    SessionInv t := by
  obtain ⟨e1, e2, e3, e4, e5, e6⟩ := h
  unfold SessionInv at *
  rw [e1, e2, e3, e4, e5, e6]
  exact hs

theorem startRecording_sameSession (s : State) (media : MediaResult) :
    SameSession (startRecording s media) s := by
  cases hc : s.canStart with
  | false => rw [startRecording_blocked media hc]; exact ⟨rfl, rfl, rfl, rfl, rfl, rfl⟩
  | true =>
    cases media with
    | denied =>
      have e : startRecording s MediaResult.denied =
          { s with err := some micMessage, deviceRequests := s.deviceRequests + 1 } := by
        simp [startRecording, hc]
      rw [e]; exact ⟨rfl, rfl, rfl, rfl, rfl, rfl⟩
    | granted => rw [startRecording_granted hc]; exact ⟨rfl, rfl, rfl, rfl, rfl, rfl⟩

theorem pauseResume_sameSession (s : State) : SameSession (pauseResume s) s := by
  cases hm : s.mediaRecorderRef with
  | none => rw [pauseResume_none hm]; exact ⟨rfl, rfl, rfl, rfl, rfl, rfl⟩
  | some mr =>
    cases hst : mr.state with
    | inactive => rw [pauseResume_inactive hm hst]; exact ⟨rfl, rfl, rfl, rfl, rfl, rfl⟩
    | recording => rw [pauseResume_recording hm hst]; exact ⟨rfl, rfl, rfl, rfl, rfl, rfl⟩
    | paused => rw [pauseResume_paused hm hst]; exact ⟨rfl, rfl, rfl, rfl, rfl, rfl⟩

theorem stopRecognizer_sameSession (s : State) : SameSession (stopRecognizer s) s := by
  unfold stopRecognizer
  cases s.recRef <;> exact ⟨rfl, rfl, rfl, rfl, rfl, rfl⟩

theorem stopRecorder_sameSession (s : State) : SameSession (stopRecorder s) s := by
  by_cases h : ∀ mr, s.mediaRecorderRef = some mr → mr.state = RecorderState.inactive
  · rw [stopRecorder_inactive h]; exact ⟨rfl, rfl, rfl, rfl, rfl, rfl⟩
  · push_neg at h
    obtain ⟨mr, hmr, hne⟩ := h
    rw [stopRecorder_active hmr hne]; exact ⟨rfl, rfl, rfl, rfl, rfl, rfl⟩

theorem releaseStream_sameSession (s : State) : SameSession (releaseStream s) s := by
  unfold releaseStream
  cases s.mediaStreamRef <;> exact ⟨rfl, rfl, rfl, rfl, rfl, rfl⟩

theorem SameSession.trans {a b c : State} (h1 : SameSession a b) (h2 : SameSession b c) :
    SameSession a c := by
  obtain ⟨a1, a2, a3, a4, a5, a6⟩ := h1
  obtain ⟨b1, b2, b3, b4, b5, b6⟩ := h2
  exact ⟨a1.trans b1, a2.trans b2, a3.trans b3, a4.trans b4, a5.trans b5, a6.trans b6⟩

theorem stopRecording_sameSession (s : State) : SameSession (stopRecording s) s :=
  (releaseStream_sameSession _).trans
    ((stopRecorder_sameSession _).trans (stopRecognizer_sameSession s))

theorem rec_onresult_sameSession (s : State) (results : List SpeechResult) :
    SameSession (rec_onresult s results) s := by
  unfold rec_onresult
  split
  · exact ⟨rfl, rfl, rfl, rfl, rfl, rfl⟩
  · split
    · exact ⟨rfl, rfl, rfl, rfl, rfl, rfl⟩
    · simp only []; split <;> exact ⟨rfl, rfl, rfl, rfl, rfl, rfl⟩

theorem whisperResolved_sameSession (s : State) (r : Except String String) :
    SameSession (whisperResolved s r) s := by
  unfold whisperResolved
  cases r with
  | error m => exact ⟨rfl, rfl, rfl, rfl, rfl, rfl⟩
  | ok t => simp only []; split <;> exact ⟨rfl, rfl, rfl, rfl, rfl, rfl⟩

theorem statusUpdates_append_create (l : List Request) (a b c : Nat) (t : String) :
    statusUpdates (l ++ [ApplicantAnswer.create a b c t]) = statusUpdates l := by
  have h : isStatusUpdate (ApplicantAnswer.create a b c t) = false := by
    simp [isStatusUpdate, ApplicantAnswer.create]
  simp [statusUpdates, List.filter_append, h]

theorem statusUpdates_append_both (l : List Request) (a b c : Nat) (t : String) :
    statusUpdates (l ++ [ApplicantAnswer.create a b c t,
      Applicant.updateById c [("interview_status", Prim.str "Completed")]]) =
      statusUpdates l + 1 := by
  have h : isStatusUpdate (ApplicantAnswer.create a b c t) = false := by
    simp [isStatusUpdate, ApplicantAnswer.create]
  have h2 : isStatusUpdate
      (Applicant.updateById c [("interview_status", Prim.str "Completed")]) = true := by
    simp [isStatusUpdate, Applicant.updateById]
  simp [statusUpdates, List.filter_append, h, h2]

theorem mount_sessionInv (b : Bool) : SessionInv (mount b) := by
  refine ⟨?_, ?_, ?_, ?_⟩
  · show (-1 : Int) ≤ -1
    omega
  · show (-1 : Int) ≤ (0 : Nat)
    omega
  · intro h
    exact absurd rfl h
  · rfl

theorem load_sessionInv (s : State) (r : LoadResult) (hl : s.loading = true)
    (hs : SessionInv s) : SessionInv (load s r) := by
  obtain ⟨h1, h2, h3, h4⟩ := hs
  have hstep : s.step = -1 := by
    by_contra hne
    have := (h3 hne).1
    rw [hl] at this
    cases this
  have hcount : statusUpdates s.sent = 0 := by
    rw [h4, if_neg (by omega)]
  have key : ∀ t : State, t.step = s.step → t.sent = s.sent → SessionInv t := by
    intro t e1 e2
    refine ⟨by omega, by omega, fun hne => absurd (e1.trans hstep) hne, ?_⟩
    rw [e2, hcount, if_neg (by omega)]
  unfold load
  cases r with
  | rejected m => exact key _ rfl rfl
  | resolved i a qs => cases i <;> cases a <;> exact key _ rfl rfl

theorem questionAt_some_lt {s : State} {q : Question} (hq : questionAt s s.step = some q) :
    0 ≤ s.step ∧ s.step < s.questions.length :=
  questionAt_some hq

theorem saveAndNext_sessionInv (s : State) (created updated : Except String Unit)
    (hs : SessionInv s) : SessionInv (saveAndNext s created updated) := by
  cases hq : questionAt s s.step with
  | none => rw [saveAndNext_none _ _ hq]; exact hs
  | some q =>
    obtain ⟨b1, b2⟩ := questionAt_some_lt hq
    cases hb : truthyStr (jsTrim s.answerText) with
    | false =>
      rw [saveAndNext_blank _ _ hq hb]
      exact SameSession.sessionInv ⟨rfl, rfl, rfl, rfl, rfl, rfl⟩ hs
    | true =>
      cases hi : s.interview with
      | none =>
        rw [saveAndNext_null _ _ hq hb (Or.inl hi)]
        exact SameSession.sessionInv ⟨rfl, rfl, rfl, rfl, rfl, rfl⟩ hs
      | some iv =>
        cases ha : s.applicant with
        | none =>
          rw [saveAndNext_null _ _ hq hb (Or.inr ha)]
          exact SameSession.sessionInv ⟨rfl, rfl, rfl, rfl, rfl, rfl⟩ hs
        | some ap =>
          obtain ⟨h1, h2, h3, h4⟩ := hs
          have hcount : statusUpdates s.sent = 0 := by rw [h4, if_neg (by omega)]
          have h3a := h3 (by omega)
          cases created with
          | error e =>
            rw [saveAndNext_rejected e updated hq hb hi ha]
            refine ⟨h1, h2, fun _ => h3a, ?_⟩
            show statusUpdates (s.sent ++ _) = _
            rw [statusUpdates_append_create, h4]
          | ok u =>
            cases u
            by_cases h : s.step + 1 < s.questions.length
            · rw [saveAndNext_next updated hq hb hi ha h]
              refine ⟨?_, ?_, fun _ => h3a, ?_⟩
              · show -1 ≤ s.step + 1
                omega
              · show s.step + 1 ≤ s.questions.length
                omega
              · show statusUpdates (s.sent ++ _) = if s.step + 1 = s.questions.length then 1 else 0
                rw [statusUpdates_append_create, hcount, if_neg (by omega)]
            · rw [saveAndNext_last updated hq hb hi ha h]
              refine ⟨?_, ?_, fun _ => h3a, ?_⟩
              · show (-1 : Int) ≤ s.questions.length
                omega
              · show (s.questions.length : Int) ≤ s.questions.length
                omega
              · show statusUpdates (s.sent ++ _) =
                  if (s.questions.length : Int) = s.questions.length then 1 else 0
                rw [statusUpdates_append_both, hcount, if_pos rfl]

theorem view_welcome_facts {s : State} (h : view s = View.welcome) :
    s.loading = false ∧ s.interview ≠ none ∧ s.applicant ≠ none ∧ s.step = -1 := by
  have hstep := view_welcome_step h
  unfold view at h
  split at h; · cases h
  rename_i hl
  split at h; · cases h
  split at h; · cases h
  rename_i hn
  refine ⟨by simpa using hl, ?_, ?_, hstep⟩
  · intro hi; simp [hi] at hn
  · intro ha; simp [ha] at hn

theorem dispatch_sessionInv (s : State) (e : Event) (hs : SessionInv s) :
    SessionInv (dispatch s e) := by
  cases e with
  | loaded r =>
    simp only [dispatch]; split
    · rename_i hl; exact load_sessionInv s r hl hs
    · exact hs
  | clickStart =>
    simp only [dispatch]; split
    · rename_i hg
      obtain ⟨hv, hlen⟩ := hg
      obtain ⟨w1, w2, w3, w4⟩ := view_welcome_facts hv
      obtain ⟨_, _, _, h4⟩ := hs
      have hcount : statusUpdates s.sent = 0 := by rw [h4, if_neg (by omega)]
      refine ⟨?_, ?_, fun _ => ⟨w1, w2, w3⟩, ?_⟩
      · show (-1 : Int) ≤ 0
        omega
      · show (0 : Int) ≤ s.questions.length
        omega
      · show statusUpdates s.sent = if (0 : Int) = s.questions.length then 1 else 0
        rw [hcount, if_neg (by omega)]
    · exact hs
  | clickStartRecording media =>
    simp only [dispatch]; split
    · exact (startRecording_sameSession s media).sessionInv hs
    · exact hs
  | clickPauseResume =>
    simp only [dispatch]; split
    · exact (pauseResume_sameSession s).sessionInv hs
    · exact hs
  | clickStop =>
    simp only [dispatch]; split
    · exact (stopRecording_sameSession s).sessionInv hs
    · exact hs
  | change v =>
    simp only [dispatch]; split
    · exact SameSession.sessionInv ⟨rfl, rfl, rfl, rfl, rfl, rfl⟩ hs
    · exact hs
  | clickNext created updated =>
    simp only [dispatch]; split
    · exact saveAndNext_sessionInv s created updated hs
    · exact hs
  | speech results =>
    simp only [dispatch]; split
    · exact (rec_onresult_sameSession s results).sessionInv hs
    · exact hs
  | whisper r =>
    simp only [dispatch]; split
    · exact (whisperResolved_sameSession s r).sessionInv hs
    · exact hs

theorem run_sessionInv (events : List Event) :
    ∀ s : State, SessionInv s → SessionInv (run s events) := by
  induction events with
  | nil => intro s hs; exact hs
  | cons e rest ih => intro s hs; exact ih (dispatch s e) (dispatch_sessionInv s e hs)

theorem reachable_sessionInv (b : Bool) (events : List Event) :
    SessionInv (run (mount b) events) :=
  run_sessionInv events (mount b) (mount_sessionInv b)

theorem view_thankYou_of_completed {s : State} (hs : SessionInv s)
    (hc : s.step = s.questions.length) : view s = View.thankYou := by
  obtain ⟨_, _, h3, _⟩ := hs
  have hne : s.step ≠ -1 := by omega
  obtain ⟨hl, hi, ha⟩ := h3 hne
  cases hi2 : s.interview with
  | none => exact absurd hi2 hi
  | some iv =>
    cases ha2 : s.applicant with
    | none => exact absurd ha2 ha
    | some ap =>
      have hge : (s.questions.length : Int) ≤ s.step := by omega
      simp [view, hl, hi2, ha2, hne, hge]

theorem view_not_question_of_welcome_step {s : State} (h : s.step = -1) :
    view s ≠ View.question := by
  intro hv
  unfold view at hv
  split at hv; · cases hv
  split at hv; · cases hv
  split at hv; · cases hv
  split at hv; · cases hv
  rename_i hne
  simp [h] at hne

/-- An event that finds neither the welcome page nor a question on screen, and no load
outstanding, leaves the progress of the session as it is. -/
theorem dispatch_sameSession_of_idle_view (s : State) (e : Event) (hl : s.loading = false)
    (hw : view s ≠ View.welcome ∨ s.questions.length = 0) (hq : view s ≠ View.question) :
    SameSession (dispatch s e) s := by
  cases e with
  | loaded r => simp only [dispatch, hl]; exact ⟨rfl, rfl, rfl, rfl, rfl, rfl⟩
  | clickStart =>
    simp only [dispatch]; split
    · rename_i hg
      rcases hw with h | h
      · exact absurd hg.1 h
      · exact absurd h hg.2
    · exact ⟨rfl, rfl, rfl, rfl, rfl, rfl⟩
  | clickStartRecording media =>
    simp only [dispatch]; split
    · rename_i hg; exact absurd hg.1 hq
    · exact ⟨rfl, rfl, rfl, rfl, rfl, rfl⟩
  | clickPauseResume =>
    simp only [dispatch]; split
    · rename_i hg; exact absurd hg.1 hq
    · exact ⟨rfl, rfl, rfl, rfl, rfl, rfl⟩
  | clickStop =>
    simp only [dispatch]; split
    · rename_i hg; exact absurd hg.1 hq
    · exact ⟨rfl, rfl, rfl, rfl, rfl, rfl⟩
  | change v =>
    simp only [dispatch]; split
    · rename_i hg; exact absurd hg hq
    · exact ⟨rfl, rfl, rfl, rfl, rfl, rfl⟩
  | clickNext created updated =>
    simp only [dispatch]; split
    · rename_i hg; exact absurd hg.1 hq
    · exact ⟨rfl, rfl, rfl, rfl, rfl, rfl⟩
  | speech results =>
    simp only [dispatch]; split
    · exact rec_onresult_sameSession s results
    · exact ⟨rfl, rfl, rfl, rfl, rfl, rfl⟩
  | whisper r =>
    simp only [dispatch]; split
    · exact whisperResolved_sameSession s r
    · exact ⟨rfl, rfl, rfl, rfl, rfl, rfl⟩

theorem run_sameSession_of_completed (events : List Event) :
    ∀ s : State, SessionInv s → s.step = s.questions.length → SameSession (run s events) s := by
  induction events with
  | nil => intro s _ _; exact ⟨rfl, rfl, rfl, rfl, rfl, rfl⟩
  | cons e rest ih =>
    intro s hs hc
    have hv := view_thankYou_of_completed hs hc
    have hl : s.loading = false := (hs.2.2.1 (by omega)).1
    have h1 := dispatch_sameSession_of_idle_view s e hl (Or.inl (by rw [hv]; decide))
      (by rw [hv]; decide)
    have hs1 := h1.sessionInv hs
    have hc1 : (dispatch s e).step = (dispatch s e).questions.length := by
      rw [h1.1, h1.2.1]; exact hc
    exact (ih (dispatch s e) hs1 hc1).trans h1

theorem run_sameSession_of_empty (events : List Event) :
    ∀ s : State, s.loading = false → s.questions = [] → s.step = -1 →
      SameSession (run s events) s := by
  induction events with
  | nil => intro s _ _ _; exact ⟨rfl, rfl, rfl, rfl, rfl, rfl⟩
  | cons e rest ih =>
    intro s hl hq hstep
    have h1 := dispatch_sameSession_of_idle_view s e hl (Or.inr (by rw [hq]; rfl))
      (view_not_question_of_welcome_step hstep)
    exact (ih (dispatch s e) (by rw [h1.2.2.2.1]; exact hl) (by rw [h1.2.1]; exact hq)
      (by rw [h1.1]; exact hstep)).trans h1

/-- C21: in every reachable state the status update has been requested once if `step` has
reached the number of questions and not at all otherwise.  A `saveAndNext` requests it
exactly when it persists the answer of the last question: none is added when the
persistence call fails, when the buffer is blank, or on a question that is not the last. -/
theorem status_update_exactly_at_completion (b : Bool) (events : List Event) (s : State)
    (created updated : Except String Unit) (m : String) :
    statusUpdates (run (mount b) events).sent =
      (if (run (mount b) events).step = (run (mount b) events).questions.length
       then 1 else 0) ∧
    statusUpdates (saveAndNext s (Except.error m) updated).sent = statusUpdates s.sent ∧
    (jsTrim s.answerText = "" →
      statusUpdates (saveAndNext s created updated).sent = statusUpdates s.sent) ∧
    (s.step + 1 < s.questions.length →
      statusUpdates (saveAndNext s created updated).sent = statusUpdates s.sent) ∧
    (∀ i, Active s i → jsTrim s.answerText ≠ "" → i + 1 = s.questions.length →
      statusUpdates (saveAndNext s (Except.ok ()) updated).sent = statusUpdates s.sent + 1) := by
  have frame : ∀ c : Except String Unit,
      (questionAt s s.step = none ∨ truthyStr (jsTrim s.answerText) = false ∨
        s.interview = none ∨ s.applicant = none) →
      statusUpdates (saveAndNext s c updated).sent = statusUpdates s.sent := by
    intro c h
    cases hq : questionAt s s.step with
    | none => rw [saveAndNext_none _ _ hq]
    | some q =>
      cases hb : truthyStr (jsTrim s.answerText) with
      | false => rw [saveAndNext_blank _ _ hq hb]
      | true =>
        rcases h with h | h | h | h
        · rw [hq] at h; cases h
        · rw [hb] at h; cases h
        · rw [saveAndNext_null _ _ hq hb (Or.inl h)]
        · rw [saveAndNext_null _ _ hq hb (Or.inr h)]
  have live : ∀ c : Except String Unit,
      ((∃ e, c = Except.error e) ∨ s.step + 1 < s.questions.length) →
      statusUpdates (saveAndNext s c updated).sent = statusUpdates s.sent := by
    intro c hc
    cases hq : questionAt s s.step with
    | none => exact frame c (Or.inl hq)
    | some q =>
      cases hb : truthyStr (jsTrim s.answerText) with
      | false => exact frame c (Or.inr (Or.inl hb))
      | true =>
        cases hi : s.interview with
        | none => exact frame c (Or.inr (Or.inr (Or.inl hi)))
        | some iv =>
          cases ha : s.applicant with
          | none => exact frame c (Or.inr (Or.inr (Or.inr ha)))
          | some ap =>
            cases c with
            | error e =>
              rw [saveAndNext_rejected e updated hq hb hi ha]
              exact statusUpdates_append_create _ _ _ _ _
            | ok u =>
              cases u
              rcases hc with ⟨e, he⟩ | hc
              · cases he
              · rw [saveAndNext_next updated hq hb hi ha hc]
                exact statusUpdates_append_create _ _ _ _ _
  refine ⟨(reachable_sessionInv b events).2.2.2, live _ (Or.inl ⟨m, rfl⟩), ?_, ?_, ?_⟩
  · intro hE
    exact frame created (Or.inr (Or.inl ((truthyStr_eq_false_iff _).mpr hE)))
  · intro hlt
    cases created with
    | error e => exact live _ (Or.inl ⟨e, rfl⟩)
    | ok u => exact live _ (Or.inr hlt)
  · intro i hA hN hLast
    obtain ⟨q, _, hq⟩ := hA.question
    obtain ⟨_, hs, _, ⟨iv, ap, hi, ha⟩, _⟩ := hA.facts
    have ht := (truthyStr_iff_ne_empty _).mpr hN
    have h1 : ¬ s.step + 1 < s.questions.length := by rw [hs]; omega
    rw [saveAndNext_last updated hq ht hi ha h1]
    exact statusUpdates_append_both _ _ _ _ _

/-- C22: in every reachable state with `step = questions.length` the thank-you page is
shown and `saveAndNext` returns the state it was given (no request, no field changed); in
every run that follows `step`, the questions and the requests issued stay what they are and
the thank-you page stays on screen. -/
theorem completed_is_terminal (b : Bool) (events more : List Event)
    (created updated : Except String Unit)
    (hC : (run (mount b) events).step = (run (mount b) events).questions.length) :
    saveAndNext (run (mount b) events) created updated = run (mount b) events ∧
    view (run (mount b) events) = View.thankYou ∧
    (run (run (mount b) events) more).step = (run (mount b) events).step ∧
    (run (run (mount b) events) more).questions = (run (mount b) events).questions ∧
    (run (run (mount b) events) more).sent = (run (mount b) events).sent ∧
    view (run (run (mount b) events) more) = View.thankYou := by
  have hs := reachable_sessionInv b events
  have hq : questionAt (run (mount b) events) (run (mount b) events).step = none := by
    unfold questionAt
    split
    · rfl
    · rw [hC]; simp
  obtain ⟨e1, e2, e3, _⟩ := run_sameSession_of_completed more _ hs hC
  refine ⟨saveAndNext_none _ _ hq, view_thankYou_of_completed hs hC, e1, e2, e3, ?_⟩
  have hs2 : SessionInv (run (run (mount b) events) more) := run_sessionInv more _ hs
  exact view_thankYou_of_completed hs2 (by rw [e1, e2]; exact hC)

/-- The sample session is completed by `completeRun`; a further submit, and further events,
change neither `step` nor the requests issued. -/
theorem completed_is_terminal_witness :
    (run (mount true) completeRun).step = 2 ∧
    saveAndNext (run (mount true) completeRun) (Except.ok ()) (Except.ok ()) =
      run (mount true) completeRun ∧
    (run (run (mount true) completeRun)
      [Event.change "more", Event.clickNext (Except.ok ()) (Except.ok ()),
       Event.clickStart]).step = (run (mount true) completeRun).step :=
  ⟨by decide,
   (completed_is_terminal true completeRun [] (Except.ok ()) (Except.ok ()) (by decide)).1,
   (completed_is_terminal true completeRun
      [Event.change "more", Event.clickNext (Except.ok ()) (Except.ok ()), Event.clickStart]
      (Except.ok ()) (Except.ok ()) (by decide)).2.2.1⟩

/-- C23: `step` starts at -1 and in every reachable state lies between -1 and the number
of questions. -/
theorem step_stays_in_range (b : Bool) (events : List Event) :
    (mount b).step = -1 ∧
    -1 ≤ (run (mount b) events).step ∧
    (run (mount b) events).step ≤ (run (mount b) events).questions.length :=
  ⟨rfl, (reachable_sessionInv b events).1, (reachable_sessionInv b events).2.1⟩

/-- C24: an event takes the session off the welcome page (`step = -1`) only if it is the
start action, offered on the welcome page with at least one question, and it then shows
question 0; with an empty list of questions the start action does nothing and `step` stays
-1 in every run. -/
theorem start_needs_a_question (s : State) (e : Event) (events : List Event) :
    (s.step = -1 → (dispatch s e).step ≠ -1 →
      e = Event.clickStart ∧ (dispatch s e).step = 0 ∧ 0 < s.questions.length ∧
      view s = View.welcome) ∧
    (s.questions = [] → dispatch s Event.clickStart = s) ∧
    (s.loading = false → s.questions = [] → s.step = -1 → (run s events).step = -1) := by
  refine ⟨?_, ?_, ?_⟩
  · intro hstep hne
    rcases dispatch_step s e with h | ⟨he, _, h0⟩ | ⟨hsub, hlt⟩
    · rw [h] at hne; exact absurd hstep hne
    · subst he
      simp only [dispatch] at h0 ⊢
      by_cases hg : view s = View.welcome ∧ s.questions.length ≠ 0
      · rw [if_pos hg]
        exact ⟨trivial, rfl, by omega, hg.1⟩
      · rw [if_neg hg] at h0
        omega
    · exfalso
      cases e with
      | clickNext created updated =>
        simp only [dispatch] at hlt
        have hv := view_not_question_of_welcome_step hstep
        rw [if_neg (fun hg => hv hg.1)] at hlt
        omega
      | _ => simp [Event.isSuccessfulSubmit] at hsub
  · intro hq
    simp [dispatch, hq]
  · intro hl hq hstep
    rw [(run_sameSession_of_empty events s hl hq hstep).1]
    exact hstep

/-- C25: in an `Active(i)` state a `startRecording` that is denied the device leaves `step`
and `answerText` as they were; a manual entry of `v`, not blank, followed by a submit whose
persistence call succeeds then sends `v` trimmed for question `i` and ends with the `step`,
the requests, the buffer and `canStart` of the same entry and submit made without the
failed start. -/
theorem manual_entry_after_denied_start (s : State) (i : Nat) (v : String)
    (updated : Except String Unit) (iv : Interview) (ap : Applicant) (q : Question)
    (hA : Active s i) (hV : jsTrim v ≠ "")
    (hi : s.interview = some iv) (ha : s.applicant = some ap) (hq : s.questions[i]? = some q) :
    (startRecording s MediaResult.denied).step = s.step ∧
    (startRecording s MediaResult.denied).answerText = s.answerText ∧
    (saveAndNext (onChange (startRecording s MediaResult.denied) v)
        (Except.ok ()) updated).step =
      (saveAndNext (onChange s v) (Except.ok ()) updated).step ∧
    (saveAndNext (onChange (startRecording s MediaResult.denied) v)
        (Except.ok ()) updated).sent =
      (saveAndNext (onChange s v) (Except.ok ()) updated).sent ∧
    (saveAndNext (onChange (startRecording s MediaResult.denied) v)
        (Except.ok ()) updated).answerText = "" ∧
    (saveAndNext (onChange (startRecording s MediaResult.denied) v)
        (Except.ok ()) updated).canStart = true ∧
    (saveAndNext (onChange (startRecording s MediaResult.denied) v)
        (Except.ok ()) updated).step =
      (if i + 1 < s.questions.length then ((i + 1 : Nat) : Int) else s.questions.length) ∧
    (saveAndNext (onChange (startRecording s MediaResult.denied) v)
        (Except.ok ()) updated).sent =
      s.sent ++ ApplicantAnswer.create iv.id q.id ap.id (jsTrim v) ::
        (if i + 1 < s.questions.length then []
         else [Applicant.updateById ap.id [("interview_status", Prim.str "Completed")]]) := by
  obtain ⟨q2, hq2, hqa⟩ := hA.question
  have hqq : q2 = q := by rw [hq] at hq2; exact (Option.some.inj hq2).symm
  subst hqq
  obtain ⟨_, hs, _, _, _⟩ := hA.facts
  have hS := startRecording_sameSession s MediaResult.denied
  have hAns : (startRecording s MediaResult.denied).answerText = s.answerText := by
    cases hc : s.canStart with
    | false => rw [startRecording_blocked _ hc]
    | true => simp [startRecording, hc]
  generalize startRecording s MediaResult.denied = t at hS hAns ⊢
  obtain ⟨e1, e2, e3, _, e5, e6⟩ := hS
  have ht : truthyStr (jsTrim v) = true := (truthyStr_iff_ne_empty _).mpr hV
  have hqa0 : questionAt (onChange s v) (onChange s v).step = some q2 := hqa
  have hqa1 : questionAt (onChange t v) (onChange t v).step = some q2 := by
    have : questionAt t t.step = some q2 := by
      unfold questionAt at hqa ⊢
      rw [e1, e2]
      exact hqa
    exact this
  have ht0 : truthyStr (jsTrim (onChange s v).answerText) = true := ht
  have ht1 : truthyStr (jsTrim (onChange t v).answerText) = true := ht
  have hi0 : (onChange s v).interview = some iv := hi
  have hi1 : (onChange t v).interview = some iv := e5.trans hi
  have ha0 : (onChange s v).applicant = some ap := ha
  have ha1 : (onChange t v).applicant = some ap := e6.trans ha
  obtain ⟨p0, p1⟩ := saveAndNext_ok_fields updated hqa0 ht0 hi0 ha0
  obtain ⟨r0, r1⟩ := saveAndNext_ok_fields updated hqa1 ht1 hi1 ha1
  have c1 : (onChange t v).step = s.step := e1
  have c2 : (onChange t v).questions = s.questions := e2
  have c3 : (onChange t v).sent = s.sent := e3
  have c4 : (onChange s v).step = s.step := rfl
  have c5 : (onChange s v).questions = s.questions := rfl
  have c6 : (onChange s v).sent = s.sent := rfl
  have c7 : (onChange t v).answerText = v := rfl
  have c8 : (onChange s v).answerText = v := rfl
  rw [c1, c2] at r0
  rw [c1, c2, c3, c7] at r1
  rw [c4, c5] at p0
  rw [c4, c5, c6, c8] at p1
  have hreset : (saveAndNext (onChange t v) (Except.ok ()) updated).answerText = "" ∧
      (saveAndNext (onChange t v) (Except.ok ()) updated).canStart = true := by
    by_cases h : (onChange t v).step + 1 < (onChange t v).questions.length
    · rw [saveAndNext_next updated hqa1 ht1 hi1 ha1 h]; exact ⟨rfl, rfl⟩
    · rw [saveAndNext_last updated hqa1 ht1 hi1 ha1 h]; exact ⟨rfl, rfl⟩
  refine ⟨e1, hAns, by rw [r0, p0], by rw [r1, p1], hreset.1, hreset.2, ?_, ?_⟩
  · rw [r0, hs]
    by_cases h : i + 1 < s.questions.length
    · have h2 : (i : Int) + 1 < s.questions.length := by omega
      rw [if_pos h, if_pos h2]; push_cast; rfl
    · have h2 : ¬ (i : Int) + 1 < s.questions.length := by omega
      rw [if_neg h, if_neg h2]
  · rw [r1, hs]
    by_cases h : i + 1 < s.questions.length
    · have h2 : (i : Int) + 1 < s.questions.length := by omega
      rw [if_pos h, if_pos h2]
    · have h2 : ¬ (i : Int) + 1 < s.questions.length := by omega
      rw [if_neg h, if_neg h2]

/-- A denied start at `blueSession`, then ` typed answer ` and a submit: the trimmed text is
sent for `Q1` and question 1 comes up. -/
theorem manual_entry_after_denied_start_witness :
    (saveAndNext (onChange (startRecording blueSession MediaResult.denied) " typed answer ")
        (Except.ok ()) (Except.ok ())).sent =
      [ApplicantAnswer.create 7 Q1.id 3 "typed answer"] ∧
    (saveAndNext (onChange (startRecording blueSession MediaResult.denied) " typed answer ")
        (Except.ok ()) (Except.ok ())).step = 1 :=
  ⟨(manual_entry_after_denied_start blueSession 0 " typed answer " (Except.ok ()) ⟨7⟩ ⟨3⟩ Q1
      (by decide) (by decide) rfl rfl rfl).2.2.2.2.2.2.2.trans (by decide),
   (manual_entry_after_denied_start blueSession 0 " typed answer " (Except.ok ()) ⟨7⟩ ⟨3⟩ Q1
      (by decide) (by decide) rfl rfl rfl).2.2.2.2.2.2.1.trans (by decide)⟩

/-! ## `lib/asr.js` -/

/-- What `transcribe` does once the conversion to `Float32Array` has succeeded, that is, on a
blob whose length is a multiple of 4 (a zero-length blob is one), and the pipeline has loaded
and returned: the result is the empty string when the pipeline returned no output, no `text`
or an empty `text`, and the trimmed `text` otherwise. -/
theorem transcribe_on_aligned_blob (n : Nat) (t : String) (hn : n % 4 = 0) :
    transcribe 0 (Except.ok ()) (Except.ok none) = Except.ok "" ∧
    transcribe 0 (Except.ok ()) (Except.ok (some { text := none })) = Except.ok "" ∧
    transcribe 0 (Except.ok ()) (Except.ok (some { text := some "" })) = Except.ok "" ∧
    transcribe n (Except.ok ()) (Except.ok none) = Except.ok "" ∧
    transcribe n (Except.ok ()) (Except.ok (some { text := none })) = Except.ok "" ∧
    transcribe n (Except.ok ()) (Except.ok (some { text := some t })) =
      Except.ok (if t = "" then "" else jsTrim t) := by
  refine ⟨rfl, rfl, rfl, ?_, ?_, ?_⟩
  · simp [transcribe, hn]
  · simp [transcribe, hn]
  · by_cases ht : t = ""
    · have h1 := (truthyStr_eq_false_iff t).mpr ht
      simp [transcribe, hn, h1, ht, truthyStr_empty]
    · have h1 := (truthyStr_iff_ne_empty t).mpr ht
      simp [transcribe, hn, h1, ht]

/-- C26 fails on the code: `transcribe` raises on every blob whose byte length is not a
multiple of 4, whatever the pipeline would have returned, because the blob is handed to
`new Float32Array` before the pipeline is loaded; a blob of 3 bytes for which the recognizer
would return no output is one such input.  A zero-length blob passes the conversion, but
`transcribe` then raises when the pipeline fails to load or its call rejects. -/
theorem transcribe_raises_on_unaligned_blob (k : Nat) (m : String)
    (pipeline : Except String Unit) (out : Except String (Option AsrOutput)) :
    transcribe 3 (Except.ok ()) (Except.ok none) =
      Except.error "byte length of Float32Array should be a multiple of 4" ∧
    transcribe (4 * k + 1) pipeline out = Except.error float32RangeMessage ∧
    transcribe (4 * k + 2) pipeline out = Except.error float32RangeMessage ∧
    transcribe (4 * k + 3) pipeline out = Except.error float32RangeMessage ∧
    transcribe 0 (Except.error m) out = Except.error m ∧
    transcribe 0 (Except.ok ()) (Except.error m) = Except.error m := by
  have h1 : (4 * k + 1) % 4 ≠ 0 := by omega
  have h2 : (4 * k + 2) % 4 ≠ 0 := by omega
  have h3 : (4 * k + 3) % 4 ≠ 0 := by omega
  refine ⟨rfl, ?_, ?_, ?_, rfl, rfl⟩
  · unfold transcribe; rw [if_pos h1]
  · unfold transcribe; rw [if_pos h2]
  · unfold transcribe; rw [if_pos h3]

/-! ## Difficulties -/

theorem allowed_contains_iff (t : String) :
    allowed.contains t = true ↔ (t = "Easy" ∨ t = "Intermediate" ∨ t = "Advanced") := by
  simp [allowed]

theorem canonDifficulty_eq_spec (d : String) : canonDifficulty d = canonSpec d := by
  unfold canonDifficulty canonSpec
  by_cases h : allowed.contains (jsTrim d) = true
  · have h2 := (allowed_contains_iff _).mp h
    simp only [h, h2, if_true]
  · have h2 : ¬ (jsTrim d = "Easy" ∨ jsTrim d = "Intermediate" ∨ jsTrim d = "Advanced") :=
      fun hc => h ((allowed_contains_iff _).mpr hc)
    simp only [h, h2, if_false, Bool.or_eq_true, Bool.false_eq_true]

theorem normalizeDifficulty_eq_spec (d : String) : normalizeDifficulty d = canonSpec d := by
  unfold normalizeDifficulty canonSpec
  by_cases h : allowed.contains (jsTrim d) = true
  · have h2 := (allowed_contains_iff _).mp h
    simp only [h, h2, Bool.not_true, Bool.false_eq_true, if_false, if_true]
  · have h2 : ¬ (jsTrim d = "Easy" ∨ jsTrim d = "Intermediate" ∨ jsTrim d = "Advanced") :=
      fun hc => h ((allowed_contains_iff _).mpr hc)
    have h3 : allowed.contains (jsTrim d) = false := by
      cases hb : allowed.contains (jsTrim d) with
      | false => rfl
      | true => exact absurd hb h
    simp only [h3, h2, if_false, Bool.not_false, if_true, Bool.or_eq_true]

theorem canonSpec_mem (d : String) :
    canonSpec d = "Easy" ∨ canonSpec d = "Intermediate" ∨ canonSpec d = "Advanced" := by
  unfold canonSpec
  simp only []
  split
  · assumption
  · split
    · exact Or.inl rfl
    · split
      · exact Or.inr (Or.inl rfl)
      · split
        · exact Or.inr (Or.inr rfl)
        · exact Or.inr (Or.inl rfl)

theorem canonSpec_fixed {r : String}
    (h : r = "Easy" ∨ r = "Intermediate" ∨ r = "Advanced") : canonSpec r = r := by
  rcases h with h | h | h <;> subst h <;> decide

/-- C30: the rule of `canonDifficulty` in the wizard and the rule written inside `normalize`
are the same function of a string, the one the claim describes: it always returns `Easy`,
`Intermediate` or `Advanced`, returns each of these three unchanged, and applying it twice
gives what applying it once gives. -/
theorem canon_rules_agree (d : String) :
    canonDifficulty d = canonSpec d ∧ normalizeDifficulty d = canonSpec d ∧
    canonDifficulty d = normalizeDifficulty d ∧
    (canonDifficulty d = "Easy" ∨ canonDifficulty d = "Intermediate" ∨
      canonDifficulty d = "Advanced") ∧
    canonDifficulty "Easy" = "Easy" ∧ canonDifficulty "Intermediate" = "Intermediate" ∧
    canonDifficulty "Advanced" = "Advanced" ∧
    canonDifficulty (canonDifficulty d) = canonDifficulty d ∧
    normalizeDifficulty (normalizeDifficulty d) = normalizeDifficulty d := by
  have h1 := canonDifficulty_eq_spec d
  have h2 := normalizeDifficulty_eq_spec d
  have h3 := canonSpec_mem d
  refine ⟨h1, h2, h1.trans h2.symm, by rw [h1]; exact h3, by decide, by decide, by decide,
    ?_, ?_⟩
  · rw [h1, canonDifficulty_eq_spec, canonSpec_fixed h3]
  · rw [h2, normalizeDifficulty_eq_spec, canonSpec_fixed h3]

/-! ## `normalize` -/

theorem question_label_ne_empty (x : String) : "Question " ++ x ++ "?" ≠ "" := by
  intro h
  have h2 := congrArg String.length h
  rw [String.length_append, String.length_append] at h2
  have h3 : "Question ".length = 9 := by decide
  have h4 : "".length = 0 := by decide
  omega

/-- C27: for every input array and every natural number `num`, `normalize(arr, num)` has
`min(arr.length, num)` entries, hence at most `num`, and for every `k` below both bounds its
`k`-th entry exists and comes from the `k`-th element `q` of the input: its difficulty is
`Easy`, `Intermediate` or `Advanced`, the canonical form of the difficulty of `q`, and its
question is not empty: it is the trimmed question of `q`, or `Question k+1?` when that is
empty.  When `q` is an object whose `question` is the string `t`, the question is `t` trimmed
(or the label when that is empty); when the `question` is missing or `null`, or `q` is not an
object, it is the label. -/
theorem normalize_entries (arr : List JVal) (num : Nat) :
    (normalize arr num).length = min arr.length num ∧
    (normalize arr num).length ≤ num ∧
    (∀ (k : Nat) (q : JVal), arr[k]? = some q → k < num →
      ∃ e, (normalize arr num)[k]? = some e ∧
        (e.difficulty = "Easy" ∨ e.difficulty = "Intermediate" ∨ e.difficulty = "Advanced") ∧
        e.question ≠ "" ∧
        e.question =
          (if jsTrim (fieldString q "question") = "" then "Question " ++ toString (k + 1) ++ "?"
           else jsTrim (fieldString q "question")) ∧
        e.difficulty = canonSpec (fieldString q "difficulty") ∧
        (∀ fs t, q = JVal.obj fs → fs.lookup "question" = some (JVal.str t) →
          e.question =
            (if jsTrim t = "" then "Question " ++ toString (k + 1) ++ "?" else jsTrim t)) ∧
        (∀ fs d, q = JVal.obj fs → fs.lookup "difficulty" = some (JVal.str d) →
          e.difficulty = canonSpec d) ∧
        (∀ fs, q = JVal.obj fs →
          fs.lookup "question" = none ∨ fs.lookup "question" = some JVal.null →
          e.question = "Question " ++ toString (k + 1) ++ "?") ∧
        ((∀ fs, q ≠ JVal.obj fs) →
          e = { question := "Question " ++ toString (k + 1) ++ "?",
                difficulty := "Intermediate" })) := by
  have hlen : (normalize arr num).length = min arr.length num := by
    simp [normalize, List.length_take, Nat.min_comm]
  refine ⟨hlen, by rw [hlen]; exact Nat.min_le_right _ _, ?_⟩
  intro k q hq hk2
  have hk1 : k < arr.length := by
    by_contra hc
    rw [List.getElem?_eq_none (by omega)] at hq
    cases hq
  have hqk : arr[k] = q := by
    rw [List.getElem?_eq_getElem hk1] at hq
    exact Option.some.inj hq
  have hd := canonSpec_mem (fieldString q "difficulty")
  have hnd := normalizeDifficulty_eq_spec (fieldString q "difficulty")
  have hentry : (normalize arr num)[k]? = some
      (if truthyStr (jsTrim (fieldString q "question")) then
        ({ question := jsTrim (fieldString q "question"),
           difficulty := normalizeDifficulty (fieldString q "difficulty") } : GeneratedQuestion)
       else { question := "Question " ++ toString (k + 1) ++ "?",
              difficulty := normalizeDifficulty (fieldString q "difficulty") }) := by
    simp only [normalize, List.filter_true, List.getElem?_mapIdx, List.getElem?_take, hk2,
      if_true]
    rw [List.getElem?_eq_getElem hk1, Option.map_some', hqk]
  have hmain : ∃ e, (normalize arr num)[k]? = some e ∧
      e.difficulty = canonSpec (fieldString q "difficulty") ∧
      e.question =
        (if jsTrim (fieldString q "question") = "" then "Question " ++ toString (k + 1) ++ "?"
         else jsTrim (fieldString q "question")) := by
    by_cases hqe : jsTrim (fieldString q "question") = ""
    · have ht := (truthyStr_eq_false_iff _).mpr hqe
      rw [ht] at hentry
      simp only [Bool.false_eq_true, if_false] at hentry
      exact ⟨_, hentry, hnd, by rw [if_pos hqe]⟩
    · have ht := (truthyStr_iff_ne_empty _).mpr hqe
      rw [ht] at hentry
      simp only [if_true] at hentry
      exact ⟨_, hentry, hnd, by rw [if_neg hqe]⟩
  obtain ⟨e, he, hed, heq⟩ := hmain
  refine ⟨e, he, by rw [hed]; exact hd, ?_, heq, hed, ?_, ?_, ?_, ?_⟩
  · rw [heq]
    by_cases hqe : jsTrim (fieldString q "question") = ""
    · rw [if_pos hqe]; exact question_label_ne_empty _
    · rw [if_neg hqe]; exact hqe
  · intro fs t hfs hl
    have hf : fieldString q "question" = t := by
      rw [hfs]; simp only [fieldString, hl, jsString]
    rw [heq, hf]
  · intro fs d hfs hl
    have hf : fieldString q "difficulty" = d := by
      rw [hfs]; simp only [fieldString, hl, jsString]
    rw [hed, hf]
  · intro fs hfs hl
    have hf : fieldString q "question" = "" := by
      rw [hfs]
      rcases hl with hl | hl <;> simp only [fieldString, hl]
    have htrim : jsTrim "" = "" := by decide
    rw [heq, hf, if_pos htrim]
  · intro hno
    have hf : ∀ name, fieldString q name = "" := by
      intro name
      cases q with
      | obj fs => exact absurd rfl (hno fs)
      | _ => rfl
    have htrim : jsTrim "" = "" := by decide
    have hc : canonSpec "" = "Intermediate" := by decide
    have e1 : e.question = "Question " ++ toString (k + 1) ++ "?" := by
      rw [heq, hf, if_pos htrim]
    have e2 : e.difficulty = "Intermediate" := by rw [hed, hf, hc]
    cases e
    simp only [GeneratedQuestion.mk.injEq]
    exact ⟨e1, e2⟩

/-- The first four elements of `sampleGenerated`: four entries in the order of the input,
the first with its question trimmed, the second and the fourth with their labels, the third
with the number as JavaScript prints it; the fifth element is cut off. -/
theorem normalize_entries_witness :
    (normalize sampleGenerated 4).length = 4 ∧
    (∃ e, (normalize sampleGenerated 4)[0]? = some e ∧ e.question = "Why?" ∧
      e.difficulty = "Advanced") ∧
    normalize sampleGenerated 4 =
      [{ question := "Why?", difficulty := "Advanced" },
       { question := "Question 2?", difficulty := "Intermediate" },
       { question := "1e+21", difficulty := "Easy" },
       { question := "Question 4?", difficulty := "Intermediate" }] :=
  ⟨(normalize_entries sampleGenerated 4).1.trans (by decide),
   (((normalize_entries sampleGenerated 4).2.2 0
      (JVal.obj [("question", JVal.str "  Why?\n"), ("difficulty", JVal.str "hard")])
      rfl (by decide)).imp
    (fun _ h => ⟨h.1, (h.2.2.2.2.2.1 _ "  Why?\n" rfl rfl).trans (by decide),
      (h.2.2.2.2.2.2.1 _ "hard" rfl rfl).trans (by decide)⟩)),
   by decide⟩

/-! ## `lib/api.js`: keys to the mock server and back -/

theorem startsWithChars_iff (pat : List Char) :
    ∀ l : List Char, startsWithChars pat l = true ↔ ∃ t, l = pat ++ t := by
  induction pat with
  | nil => intro l; simp [startsWithChars]
  | cons p ps ih =>
    intro l
    cases l with
    | nil => simp [startsWithChars]
    | cons c cs =>
      simp only [startsWithChars, Bool.and_eq_true, beq_iff_eq, ih cs, List.cons_append,
        List.cons.injEq]
      constructor
      · rintro ⟨h1, t, h2⟩; exact ⟨t, h1.symm, h2⟩
      · rintro ⟨t, h1, h2⟩; exact ⟨h1.symm, t, h2⟩

theorem startsWithChars_shorter (pat : List Char) :
    ∀ (x : List Char) (y : Char), startsWithChars pat (x ++ [y]) = true →
      pat.length ≤ x.length → startsWithChars pat x = true := by
  induction pat with
  | nil => intro x y _ _; simp [startsWithChars]
  | cons p ps ih =>
    intro x y h hlen
    cases x with
    | nil => simp at hlen
    | cons c cs =>
      simp only [List.cons_append, startsWithChars, Bool.and_eq_true] at h ⊢
      exact ⟨h.1, ih cs y h.2 (by simpa using hlen)⟩

theorem replaceFirstChars_last (pat rep : List Char) (hp : pat ≠ []) :
    ∀ p : List Char, includesChars pat (p ++ pat.dropLast) = false →
      replaceFirstChars pat rep (p ++ pat) = p ++ rep := by
  have hself : startsWithChars pat pat = true := (startsWithChars_iff pat pat).mpr ⟨[], by simp⟩
  intro p
  induction p with
  | nil =>
    intro _
    cases hpat : pat with
    | nil => exact absurd hpat hp
    | cons c cs =>
      rw [hpat] at hself
      simp [replaceFirstChars, hself]
  | cons a q ih =>
    intro hinc
    have hinc2 : (startsWithChars pat (a :: (q ++ pat.dropLast)) ||
        includesChars pat (q ++ pat.dropLast)) = false := hinc
    rw [Bool.or_eq_false_iff] at hinc2
    obtain ⟨h1, h2⟩ := hinc2
    have hno : startsWithChars pat (a :: (q ++ pat)) = false := by
      cases hb : startsWithChars pat (a :: (q ++ pat)) with
      | false => rfl
      | true =>
        have e : a :: (q ++ pat) = (a :: (q ++ pat.dropLast)) ++ [pat.getLast hp] := by
          rw [List.cons_append, List.append_assoc, List.dropLast_append_getLast]
        rw [e] at hb
        have hlen : pat.length ≤ (a :: (q ++ pat.dropLast)).length := by
          simp only [List.length_cons, List.length_append, List.length_dropLast]
          have : 0 < pat.length := List.length_pos.mpr hp
          omega
        rw [startsWithChars_shorter pat _ _ hb hlen] at h1
        cases h1
    have hstep : replaceFirstChars pat rep (a :: (q ++ pat)) =
        if startsWithChars pat (a :: (q ++ pat)) then rep ++ (a :: (q ++ pat)).drop pat.length
        else a :: replaceFirstChars pat rep (q ++ pat) := rfl
    show replaceFirstChars pat rep (a :: (q ++ pat)) = a :: (q ++ rep)
    rw [hstep, hno, ih h2]
    simp

theorem ends_decompose {k pat : String} (h : jsEndsWith k pat = true) :
    ∃ p : List Char, k.data = p ++ pat.data := by
  obtain ⟨t, ht⟩ := (startsWithChars_iff _ _).mp h
  refine ⟨t.reverse, ?_⟩
  have := congrArg List.reverse ht
  simpa using this

theorem toMockKey_of_onlyTrailingId {k : String} (h : onlyTrailingId k = true) :
    ∃ p : List Char, k = String.mk (p ++ "_id".data) ∧
      toMockKey k = String.mk (p ++ "Id".data) := by
  simp only [onlyTrailingId, Bool.and_eq_true, Bool.not_eq_true'] at h
  obtain ⟨he, hn⟩ := h
  obtain ⟨p, hp⟩ := ends_decompose he
  refine ⟨p, by rw [← hp], ?_⟩
  have hd : k.data.dropLast = p ++ ("_id".data).dropLast := by
    rw [hp]
    exact List.dropLast_append_of_ne_nil _ (by decide)
  rw [hd] at hn
  have hr := replaceFirstChars_last "_id".data "Id".data (by decide) p hn
  simp only [toMockKey, he, if_true, jsReplaceFirst]
  rw [hp, hr]

theorem fromMockKey_mk (p : List Char) :
    fromMockKey (String.mk (p ++ "Id".data)) = String.mk (p ++ "_id".data) := by
  have he : jsEndsWith (String.mk (p ++ "Id".data)) "Id" = true := by
    unfold jsEndsWith
    rw [startsWithChars_iff]
    exact ⟨p.reverse, by simp⟩
  have hl : ("Id" : String).data.length = 2 := by decide
  simp only [fromMockKey, he, if_true, jsReplaceAtEnd, List.length_append, hl,
    Nat.add_sub_cancel, List.take_left']

theorem key_roundtrip {k : String}
    (h : onlyTrailingId k = true ∨ (jsEndsWith k "_id" = false ∧ jsEndsWith k "Id" = false)) :
    fromMockKey (toMockKey k) = k := by
  rcases h with h | ⟨h1, h2⟩
  · obtain ⟨p, hk, ht⟩ := toMockKey_of_onlyTrailingId h
    rw [ht, fromMockKey_mk, ← hk]
  · simp [toMockKey, fromMockKey, h1, h2]

theorem objSetOwn_new {α : Type} (o : List (String × α)) (k : String) (v : α)
    (h : k ∉ o.map Prod.fst) : objSetOwn o k v = o ++ [(k, v)] := by
  induction o with
  | nil => rfl
  | cons e rest ih =>
    obtain ⟨k1, v1⟩ := e
    simp only [List.map_cons, List.mem_cons, not_or] at h
    have hne : ¬ k1 = k := fun hc => h.1 hc.symm
    simp only [objSetOwn, hne, if_false, List.cons_append, ih h.2]

theorem objSet_new {α : Type} (o : List (String × α)) (k : String) (v : α)
    (hp : k ≠ "__proto__") (h : k ∉ o.map Prod.fst) : objSet o k v = o ++ [(k, v)] := by
  unfold objSet
  rw [if_neg hp, objSetOwn_new o k v h]

theorem objSet_proto {α : Type} (o : List (String × α)) (v : α) :
    objSet o "__proto__" v = o := by
  simp [objSet]

theorem mk_append_Id_ne_proto (p : List Char) : String.mk (p ++ "Id".data) ≠ "__proto__" := by
  intro h
  have h1 := congrArg (fun t : String => t.data.reverse) h
  simp at h1

theorem mk_append_id_ne_proto (p : List Char) : String.mk (p ++ "_id".data) ≠ "__proto__" := by
  intro h
  have h1 := congrArg (fun t : String => t.data.reverse) h
  simp at h1

theorem bodyForMockEntries_eq (fs : List (String × JVal)) :
    ∀ acc : List (String × JVal), (∀ kv ∈ fs, kv.1 ≠ "username") →
      (∀ kv ∈ fs, toMockKey kv.1 ≠ "__proto__") →
      (acc.map Prod.fst ++ fs.map (fun kv => toMockKey kv.1)).Nodup →
      bodyForMockEntries acc fs = acc ++ fs.map (fun kv => (toMockKey kv.1, kv.2)) := by
  induction fs with
  | nil => intro acc _ _ _; simp [bodyForMockEntries]
  | cons e rest ih =>
    intro acc hu hpr hn
    obtain ⟨k, v⟩ := e
    have hk : k ≠ "username" := hu (k, v) (List.mem_cons_self _ _)
    have hkp : toMockKey k ≠ "__proto__" := hpr (k, v) (List.mem_cons_self _ _)
    have hnew : toMockKey k ∉ acc.map Prod.fst := by
      intro hc
      rw [List.nodup_append] at hn
      exact hn.2.2 hc (by simp)
    simp only [bodyForMockEntries, hk, if_false]
    rw [objSet_new acc _ v hkp hnew]
    rw [ih (acc ++ [(toMockKey k, v)]) (fun kv hkv => hu kv (List.mem_cons_of_mem _ hkv))
      (fun kv hkv => hpr kv (List.mem_cons_of_mem _ hkv))
      (by simpa [List.append_assoc] using hn)]
    simp

theorem convertValue_primitive {v : JVal} (h : v.isPrimitive = true) : convertValue v = v := by
  cases v <;> first | rfl | (simp [JVal.isPrimitive] at h)

theorem convertObjEntries_eq (fs : List (String × JVal)) :
    ∀ acc : List (String × JVal), (∀ kv ∈ fs, kv.2.isPrimitive = true) →
      (∀ kv ∈ fs, fromMockKey kv.1 ≠ "__proto__") →
      (acc.map Prod.fst ++ fs.map (fun kv => fromMockKey kv.1)).Nodup →
      convertObjEntries acc fs = acc ++ fs.map (fun kv => (fromMockKey kv.1, kv.2)) := by
  induction fs with
  | nil => intro acc _ _ _; simp [convertObjEntries]
  | cons e rest ih =>
    intro acc hp hpr hn
    obtain ⟨k, v⟩ := e
    have hkp : fromMockKey k ≠ "__proto__" := hpr (k, v) (List.mem_cons_self _ _)
    have hv : convertValue v = v := convertValue_primitive (hp (k, v) (List.mem_cons_self _ _))
    have hnew : fromMockKey k ∉ acc.map Prod.fst := by
      intro hc
      rw [List.nodup_append] at hn
      exact hn.2.2 hc (by simp)
    rw [convertObjEntries, hv, objSet_new acc _ v hkp hnew]
    rw [ih (acc ++ [(fromMockKey k, v)]) (fun kv hkv => hp kv (List.mem_cons_of_mem _ hkv))
      (fun kv hkv => hpr kv (List.mem_cons_of_mem _ hkv))
      (by simpa [List.append_assoc] using hn)]
    simp

theorem jsReplaceAtEnd_mk (p : List Char) :
    mockKeySpec (String.mk (p ++ "_id".data)) = String.mk (p ++ "Id".data) := by
  have he : jsEndsWith (String.mk (p ++ "_id".data)) "_id" = true := by
    unfold jsEndsWith
    rw [startsWithChars_iff]
    exact ⟨p.reverse, by simp⟩
  have hl : ("_id" : String).data.length = 3 := by decide
  simp only [mockKeySpec, he, if_true, jsReplaceAtEnd, List.length_append, hl,
    Nat.add_sub_cancel, List.take_left']

theorem toMockKey_eq_spec {k : String}
    (h : jsEndsWith k "_id" = true → onlyTrailingId k = true) :
    toMockKey k = mockKeySpec k := by
  by_cases he : jsEndsWith k "_id" = true
  · obtain ⟨p, hk, ht⟩ := toMockKey_of_onlyTrailingId (h he)
    rw [ht, hk, jsReplaceAtEnd_mk]
  · simp [toMockKey, mockKeySpec, jsReplaceAtEnd, he]

theorem toMockKey_ne_proto {k : String} (hp : k ≠ "__proto__")
    (h : jsEndsWith k "_id" = true → onlyTrailingId k = true) : toMockKey k ≠ "__proto__" := by
  by_cases he : jsEndsWith k "_id" = true
  · obtain ⟨p, _, ht⟩ := toMockKey_of_onlyTrailingId (h he)
    rw [ht]
    exact mk_append_Id_ne_proto p
  · have : toMockKey k = k := by simp [toMockKey, he]
    rw [this]
    exact hp

/-- C28, as stated, fails.  The key `__proto__` does not end in `Id`, so the flat body
`protoBody` is one the claim covers, but the assignment `out[key] = v` of `bodyForMock`
stores nothing under `__proto__`, and the entry does not come back.  The key `a_id_id` does
not end in `Id` either, but `bodyForMock` turns it into `aId_id`, which `respFromMock`
leaves as it is. -/
theorem unconverted_keys_do_not_come_back :
    jsEndsWith "__proto__" "Id" = false ∧
    bodyForMock protoBody = JVal.obj [("a", JVal.num "2")] ∧
    respFromMock (bodyForMock protoBody) = JVal.obj [("a", JVal.num "2")] ∧
    respFromMock (bodyForMock protoBody) ≠ protoBody ∧
    jsEndsWith "a_id_id" "Id" = false ∧
    onlyTrailingId "a_id_id" = false ∧
    respFromMock (bodyForMock doubledIdBody) = JVal.obj [("aId_id", JVal.num "1")] ∧
    respFromMock (bodyForMock doubledIdBody) ≠ doubledIdBody := by
  refine ⟨by decide, rfl, rfl, ?_, by decide, by decide, rfl, ?_⟩
  · intro h
    have h2 : respFromMock (bodyForMock protoBody) = JVal.obj [("a", JVal.num "2")] := rfl
    rw [h2] at h
    simp [protoBody] at h
  · intro h
    have h2 : respFromMock (bodyForMock doubledIdBody) =
        JVal.obj [("aId_id", JVal.num "1")] := rfl
    rw [h2] at h
    simp [doubledIdBody] at h

/-- C28 (amended): for every flat body (distinct keys, primitive values) with no `username`
key and no `__proto__` key, whose keys each either end in `_id` with no earlier occurrence
of `_id`, or end neither in `_id` nor in `Id`, `respFromMock(bodyForMock(body))` is the
body: `bodyForMock` turns each trailing `_id` into `Id` and keeps the other keys,
`respFromMock` turns it back, and the values are untouched. -/
theorem mock_keys_round_trip (fs : List (String × JVal))
    (hdistinct : (fs.map Prod.fst).Nodup)
    (hflat : ∀ kv ∈ fs, kv.2.isPrimitive = true)
    (huser : ∀ kv ∈ fs, kv.1 ≠ "username")
    (hproto : ∀ kv ∈ fs, kv.1 ≠ "__proto__")
    (hkeys : ∀ kv ∈ fs, onlyTrailingId kv.1 = true ∨
      (jsEndsWith kv.1 "_id" = false ∧ jsEndsWith kv.1 "Id" = false)) :
    bodyForMock (JVal.obj fs) = JVal.obj (fs.map (fun kv => (mockKeySpec kv.1, kv.2))) ∧
    respFromMock (bodyForMock (JVal.obj fs)) = JVal.obj fs := by
  have hback : ∀ kv ∈ fs, fromMockKey (toMockKey kv.1) = kv.1 :=
    fun kv hkv => key_roundtrip (hkeys kv hkv)
  have hends : ∀ kv ∈ fs, jsEndsWith kv.1 "_id" = true → onlyTrailingId kv.1 = true := by
    intro kv hkv he
    rcases hkeys kv hkv with h | ⟨h, _⟩
    · exact h
    · rw [h] at he; cases he
  have hspec : ∀ kv ∈ fs, toMockKey kv.1 = mockKeySpec kv.1 :=
    fun kv hkv => toMockKey_eq_spec (hends kv hkv)
  have hp1 : ∀ kv ∈ fs, toMockKey kv.1 ≠ "__proto__" :=
    fun kv hkv => toMockKey_ne_proto (hproto kv hkv) (hends kv hkv)
  have hn1 : (fs.map (fun kv => toMockKey kv.1)).Nodup := by
    have hmap : fs.map (fun kv => toMockKey kv.1) = (fs.map Prod.fst).map toMockKey := by
      simp [List.map_map, Function.comp_def]
    rw [hmap]
    refine List.Nodup.map_on ?_ hdistinct
    intro a ha b hb hab
    obtain ⟨x, hx, rfl⟩ := List.mem_map.mp ha
    obtain ⟨y, hy, rfl⟩ := List.mem_map.mp hb
    rw [← hback x hx, ← hback y hy, hab]
  have e1 : bodyForMock (JVal.obj fs) =
      JVal.obj (fs.map (fun kv => (toMockKey kv.1, kv.2))) := by
    have := bodyForMockEntries_eq fs [] huser hp1 (by simpa using hn1)
    simp only [bodyForMock, this, List.nil_append]
  have e1spec : fs.map (fun kv => (toMockKey kv.1, kv.2)) =
      fs.map (fun kv => (mockKeySpec kv.1, kv.2)) :=
    List.map_congr_left (fun kv hkv => by rw [hspec kv hkv])
  have hkeys2 : (fs.map (fun kv => (toMockKey kv.1, kv.2))).map
      (fun kv => fromMockKey kv.1) = fs.map Prod.fst := by
    rw [List.map_map]
    exact List.map_congr_left (fun kv hkv => hback kv hkv)
  have hvals : (fs.map (fun kv => (toMockKey kv.1, kv.2))).map
      (fun kv => (fromMockKey kv.1, kv.2)) = fs := by
    rw [List.map_map]
    conv_rhs => rw [← List.map_id fs]
    exact List.map_congr_left (fun kv hkv => by
      show (fromMockKey (toMockKey kv.1), kv.2) = kv
      rw [hback kv hkv])
  have e2 := convertObjEntries_eq (fs.map (fun kv => (toMockKey kv.1, kv.2))) []
    (by
      intro kv hkv
      obtain ⟨x, hx, rfl⟩ := List.mem_map.mp hkv
      exact hflat x hx)
    (by
      intro kv hkv
      obtain ⟨x, hx, rfl⟩ := List.mem_map.mp hkv
      show fromMockKey (toMockKey x.1) ≠ "__proto__"
      rw [hback x hx]
      exact hproto x hx)
    (by simpa [hkeys2] using hdistinct)
  refine ⟨by rw [e1, e1spec], ?_⟩
  rw [e1]
  show JVal.obj (convertObjEntries [] _) = JVal.obj fs
  rw [e2, List.nil_append, hvals]

/-- The body of an answer goes to the mock server with `interviewId`, `questionId` and
`applicantId`, and comes back as it was. -/
theorem mock_keys_round_trip_witness :
    bodyForMock (JVal.obj answerBody) =
      JVal.obj [("interviewId", JVal.num "7"), ("questionId", JVal.num "11"),
        ("applicantId", JVal.num "3"), ("answer", JVal.str "blue")] ∧
    respFromMock (bodyForMock (JVal.obj answerBody)) =
      JVal.obj [("interview_id", JVal.num "7"), ("question_id", JVal.num "11"),
        ("applicant_id", JVal.num "3"), ("answer", JVal.str "blue")] :=
  ⟨(mock_keys_round_trip answerBody (by decide) (by decide) (by decide) (by decide)
      (by decide)).1.trans rfl,
   (mock_keys_round_trip answerBody (by decide) (by decide) (by decide) (by decide)
      (by decide)).2⟩

/-! ## `lib/api.js`: parameters for the mock server -/

theorem stripEq_eq_spec (v : JVal) : stripEq v = stripEqSpec v := by
  cases v with
  | str t =>
    simp only [stripEq, stripEqSpec, jsSlice]
    by_cases h : jsStartsWith t "eq." = true
    · have h2 : t.data.take 3 = "eq.".data := by
        obtain ⟨r, hr⟩ := (startsWithChars_iff _ _).mp h
        rw [hr]
        exact List.take_left' (by decide)
      rw [if_pos h, if_pos h2]
    · have h2 : ¬ t.data.take 3 = "eq.".data := by
        intro hc
        apply h
        exact (startsWithChars_iff _ _).mpr
          ⟨t.data.drop 3, by rw [← hc]; exact (List.take_append_drop 3 _).symm⟩
      rw [if_neg h, if_neg h2]
  | _ => rfl

theorem normalizeParamsEntries_eq (fs : List (String × JVal)) :
    ∀ acc : List (String × JVal), (∀ kv ∈ fs, toMockKey kv.1 ≠ "__proto__") →
      (acc.map Prod.fst ++ fs.map (fun kv => toMockKey kv.1)).Nodup →
      normalizeParamsEntries acc fs =
        acc ++ fs.map (fun kv => (toMockKey kv.1, stripEq kv.2)) := by
  induction fs with
  | nil => intro acc _ _; simp [normalizeParamsEntries]
  | cons e rest ih =>
    intro acc hpr hn
    obtain ⟨k, v⟩ := e
    have hkp : toMockKey k ≠ "__proto__" := hpr (k, v) (List.mem_cons_self _ _)
    have hnew : toMockKey k ∉ acc.map Prod.fst := by
      intro hc
      rw [List.nodup_append] at hn
      exact hn.2.2 hc (by simp)
    rw [normalizeParamsEntries, objSet_new acc _ _ hkp hnew]
    rw [ih (acc ++ [(toMockKey k, stripEq v)])
      (fun kv hkv => hpr kv (List.mem_cons_of_mem _ hkv))
      (by simpa [List.append_assoc] using hn)]
    simp

/-- C29, as stated, fails.  For the parameters `a_id_id = eq.1` the value loses `eq.`, but
the key, which ends in `_id`, becomes `aId_id`: the first `_id` is replaced and the trailing
one is kept, where the claim gives `a_idId`.  A parameter `__proto__` is not kept unchanged:
the assignment `out[key] = val` stores nothing for it.  The parameters `x_id` and `xId`
give one entry `xId`, which carries the value of the second. -/
theorem params_conversion_fails_on_some_keys :
    jsEndsWith "a_id_id" "_id" = true ∧
    mockKeySpec "a_id_id" = "a_idId" ∧
    normalizeParamsForMock (some [("a_id_id", JVal.str "eq.1")]) =
      some [("aId_id", JVal.str "1")] ∧
    normalizeParamsForMock (some [("a_id_id", JVal.str "eq.1")]) ≠
      some [("a_idId", JVal.str "1")] ∧
    normalizeParamsForMock (some [("__proto__", JVal.str "eq.1"), ("id", JVal.str "eq.2")]) =
      some [("id", JVal.str "2")] ∧
    normalizeParamsForMock (some [("x_id", JVal.str "eq.1"), ("xId", JVal.str "eq.2")]) =
      some [("xId", JVal.str "2")] := by
  refine ⟨by decide, by decide, rfl, ?_, rfl, rfl⟩
  intro h
  have h2 : normalizeParamsForMock (some [("a_id_id", JVal.str "eq.1")]) =
      some [("aId_id", JVal.str "1")] := rfl
  rw [h2] at h
  simp at h

/-- C29 (amended): for every params object with no `__proto__` key, whose keys ending in
`_id` have no earlier occurrence of `_id` and no two of whose keys are converted to the same
key, `normalizeParamsForMock` keeps the order of the entries, removes exactly the prefix
`eq.` from each string value that begins with it and leaves every other value unchanged,
replaces the trailing `_id` of each key that ends in `_id` by `Id` and leaves every other
key unchanged; absent params yield `undefined`. -/
theorem params_converted_for_mock (params : List (String × JVal))
    (hproto : ∀ kv ∈ params, kv.1 ≠ "__proto__")
    (hkeys : ∀ kv ∈ params, jsEndsWith kv.1 "_id" = true → onlyTrailingId kv.1 = true)
    (hdistinct : (params.map (fun kv => mockKeySpec kv.1)).Nodup) :
    normalizeParamsForMock (some params) =
      some (params.map (fun kv => (mockKeySpec kv.1, stripEqSpec kv.2))) ∧
    normalizeParamsForMock none = none ∧
    (∀ r : String, stripEqSpec (JVal.str ("eq." ++ r)) = JVal.str r) ∧
    (∀ p : List Char, mockKeySpec (String.mk (p ++ "_id".data)) = String.mk (p ++ "Id".data)) ∧
    (∀ k : String, jsEndsWith k "_id" = false → mockKeySpec k = k) := by
  have hspec : ∀ kv ∈ params, toMockKey kv.1 = mockKeySpec kv.1 :=
    fun kv hkv => toMockKey_eq_spec (hkeys kv hkv)
  have hp1 : ∀ kv ∈ params, toMockKey kv.1 ≠ "__proto__" :=
    fun kv hkv => toMockKey_ne_proto (hproto kv hkv) (hkeys kv hkv)
  have hmap : params.map (fun kv => toMockKey kv.1) =
      params.map (fun kv => mockKeySpec kv.1) :=
    List.map_congr_left (fun kv hkv => hspec kv hkv)
  have e := normalizeParamsEntries_eq params [] hp1 (by simpa [hmap] using hdistinct)
  have e2 : params.map (fun kv => (toMockKey kv.1, stripEq kv.2)) =
      params.map (fun kv => (mockKeySpec kv.1, stripEqSpec kv.2)) :=
    List.map_congr_left (fun kv hkv => by rw [hspec kv hkv, stripEq_eq_spec])
  refine ⟨?_, rfl, ?_, jsReplaceAtEnd_mk, ?_⟩
  · simp only [normalizeParamsForMock, e, List.nil_append, e2]
  · intro r
    simp [stripEqSpec, String.data_append]
  · intro k hk
    simp [mockKeySpec, jsReplaceAtEnd, hk]

/-- The parameters of the comment at line 19: `id = eq.1`, `interview_id = eq.7` become
`id = 1`, `interviewId = 7`. -/
theorem params_converted_for_mock_witness :
    normalizeParamsForMock (some commentParams) =
      some [("id", JVal.str "1"), ("interviewId", JVal.str "7")] :=
  (params_converted_for_mock commentParams (by decide) (by decide) (by decide)).1.trans rfl

end OpenHire
